import Mathlib

/-!
# Label substitution and the restoration engine of libselinux

A shallow embedding of `libselinux/src/label.c` (substitution rules and the loading of a
rule file, lookup front end) and
`libselinux/src/selinux_restorecon.c` (exclusion list and its two callers, inode association
table, alternate root, per-object
relabel decision, recursive walk with the stored digest), with the properties proved of it.

Conventions of the embedding:
* a C string is the list of its characters, the terminating NUL left out;
* heap allocation succeeds, except in `add_exclude`, whose callers test for `ENOMEM`;
* log output (`selinux_log`, `syslog`, the progress marks on stdout) is not part of the model;
* what the operating system and the parts of libselinux outside these two files answer is a
  parameter of the functions (`sys_env`, `top_env`, the operations of `selabel_handle`);
* the actions on the file system are collected, in order, in a list of `event`s.
-/

namespace SELinux

/-! ## Definitions -/

/-- A C string, modelled by the list of its characters before the terminating NUL. -/
abbrev cstring := List Char

/-- The character `s[i]` of a C string; `none` stands for the terminating NUL (index
`strlen(s)`; the code never reads beyond it when the cached lengths are right). -/
def cstr_at (s : cstring) (i : Nat) : Option Char := s.get? i

/-- The libc `strncmp(s1, s2, n)`, up to the sign of a non-zero result: at most `n` characters
are compared and the comparison stops at the terminator. -/
def strncmp : cstring → cstring → Nat → Int
  | _, _, 0 => 0
  | [], [], _ + 1 => 0
  | [], _ :: _, _ + 1 => -1
  | _ :: _, [], _ + 1 => 1
  | a :: s1, b :: s2, n + 1 =>
    if a = b then strncmp s1 s2 n else if a.toNat < b.toNat then -1 else 1

/-- The libc `strcmp(s1, s2)`, up to the sign of a non-zero result. -/
def strcmp : cstring → cstring → Int
  | [], [] => 0
  | [], _ :: _ => -1
  | _ :: _, [] => 1
  | a :: s1, b :: s2 =>
    if a = b then strcmp s1 s2 else if a.toNat < b.toNat then -1 else 1

/-- The `struct selabel_sub` of label_internal.h: one substitution rule with its cached source
length; a rule list is the chain of `next` pointers in order. -/
structure struct_selabel_sub where
  src : cstring
  slen : Nat
  dst : cstring
deriving DecidableEq, Repr

/-- The function `selabel_sub` of label.c (lines 63-85): the first rule whose `src` matches the
key up to a '/' or the end rewrites it; `none` is the NULL result. `asprintf` is taken to
succeed. -/
def selabel_sub : List struct_selabel_sub → cstring → Option cstring
  | [], _ => none
  | ptr :: next, src =>
    if strncmp src ptr.src ptr.slen = 0 ∧
        (cstr_at src ptr.slen = some '/' ∨ cstr_at src ptr.slen = none) then
      let len :=
        if cstr_at src ptr.slen = some '/' ∧ strcmp ptr.dst "/".toList = 0 then ptr.slen + 1
        else ptr.slen
      some (ptr.dst ++ src.drop len)
    else selabel_sub next src

/-- The matching condition of the data model: the key equals the rule's `src`, or begins with
`src` immediately followed by '/'. -/
def sub_matches (r : struct_selabel_sub) (key : cstring) : Prop :=
  key = r.src ∨ ∃ rest, key = r.src ++ '/' :: rest

/-- The values of `errno` that the modelled code sets or tests. -/
inductive Errno
  | ENOENT | EACCES | ENOMEM | EINVAL | ELOOP | ENODATA | ERANGE
  | other (n : Nat)
deriving DecidableEq, Repr

/-- The `struct edir` of selinux_restorecon.c: an excluded directory, its length and its origin
flag. The model keeps the first `exclude_count` entries of `exclude_lst` as a list. -/
structure edir where
  directory : cstring
  size : Nat
  caller_excluded : Bool
deriving DecidableEq, Repr

/-- The function `remove_exclude` (selinux_restorecon.c lines 135-149): the first entry with
this directory that is not caller-originated is overwritten by the last entry and the count
drops by one. -/
def remove_exclude (exclude_lst : List edir) (directory : cstring) : List edir :=
  match exclude_lst.findIdx?
      (fun e => decide (strcmp directory e.directory = 0) && !e.caller_excluded) with
  | none => exclude_lst
  | some i =>
    match exclude_lst.getLast? with
    | none => exclude_lst
    | some last =>
      (if i ≠ exclude_lst.length - 1 then exclude_lst.set i last else exclude_lst).dropLast

/-- The loop `while (len > 1 && directory[len - 1] == '/') len--;` of add_exclude, started at
`len`. -/
def trim_slashes (directory : cstring) : Nat → Nat
  | 0 => 0
  | len + 1 =>
    if len + 1 > 1 ∧ cstr_at directory len = some '/' then trim_slashes directory len
    else len + 1

/-- What a call of add_exclude leaves behind: the return value, the error code it sets (if any)
and the exclusion list. -/
structure add_exclude_result where
  rc : Int
  errno : Option Errno
  exclude_lst : List edir
deriving DecidableEq, Repr

/-- The function `add_exclude` (selinux_restorecon.c lines 151-196). `alloc_ok` tells whether
`realloc` and `strndup` succeed; the callers only pass non-NULL directories. -/
def add_exclude (alloc_ok : Bool) (exclude_lst : List edir) (directory : cstring)
    (who : Bool) : add_exclude_result :=
  if exclude_lst.any (fun e => decide (strcmp directory e.directory = 0)) then
    ⟨0, none, exclude_lst⟩
  else if cstr_at directory 0 ≠ some '/' then
    ⟨-1, some Errno.EINVAL, exclude_lst⟩
  else if !alloc_ok then
    ⟨-1, some Errno.ENOMEM, exclude_lst⟩
  else
    let len := trim_slashes directory directory.length
    ⟨0, none, exclude_lst ++ [⟨directory.take len, len, who⟩]⟩

/-- The function `check_excluded` (selinux_restorecon.c lines 198-211). -/
def check_excluded : List edir → cstring → Int
  | [], _ => 0
  | e :: rest, file =>
    if strncmp file e.directory e.size = 0 ∧
        (cstr_at file e.size = none ∨ cstr_at file e.size = some '/') then 1
    else check_excluded rest file

/-- One call on the exclusion list: add_exclude with its allocator outcome, or remove_exclude. -/
inductive exclude_op
  | add (alloc_ok : Bool) (directory : cstring) (who : Bool)
  | remove (directory : cstring)

/-- The exclusion list after a sequence of add_exclude and remove_exclude calls. -/
def exclude_run : List exclude_op → List edir → List edir
  | [], lst => lst
  | exclude_op.add a d w :: ops, lst => exclude_run ops (add_exclude a lst d w).exclude_lst
  | exclude_op.remove d :: ops, lst => exclude_run ops (remove_exclude lst d)

/-- The constant `HASH_BITS` of selinux_restorecon.c. -/
def HASH_BITS : Nat := 16
/-- The constant `HASH_BUCKETS` of selinux_restorecon.c. -/
def HASH_BUCKETS : Nat := 1 <<< HASH_BITS
/-- The constant `HASH_MASK` of selinux_restorecon.c. -/
def HASH_MASK : Nat := HASH_BUCKETS - 1

/-- The `file_spec_t` record of selinux_restorecon.c (inode, matched context, path); the `next`
pointer is the tail of the chain it sits in. -/
structure file_spec_t where
  ino : Nat
  con : cstring
  file : cstring
deriving DecidableEq, Repr

/-- The bucket array `fl_head`: bucket index to the chain that hangs off the dummy header
`fl_head[h].next`. -/
abbrev fl_table := Nat → List file_spec_t

/-- The chain of bucket `h`; a NULL `fl_head` has no records. -/
def fl_chain (fl_head : Option fl_table) (h : Nat) : List file_spec_t :=
  match fl_head with
  | none => []
  | some t => t h

/-- The bucket index `(ino + (ino >> HASH_BITS)) & HASH_MASK`, computed in 64-bit unsigned
arithmetic. -/
def filespec_hash (ino : Nat) : Nat :=
  ((ino + (ino >>> HASH_BITS)) % 2 ^ 64) &&& HASH_MASK

/-- The chain loop of filespec_add (lines 344-389) on one bucket: the return value and the chain
afterwards. `lstat64` gives the inode the re-stat of a path reports, `none` when it fails.
Allocation is taken to succeed. -/
def filespec_scan (lstat64 : cstring → Option Nat) (ino : Nat) (con file : cstring) :
    List file_spec_t → Int × List file_spec_t
  | [] => (0, [⟨ino, con, file⟩])
  | fl :: next =>
    if ino = fl.ino then
      if lstat64 fl.file ≠ some ino then (1, ⟨fl.ino, con, file⟩ :: next)
      else if strcmp fl.con con = 0 then (1, fl :: next)
      else (1, ⟨fl.ino, fl.con, file⟩ :: next)
    else if ino > fl.ino then (0, ⟨ino, con, file⟩ :: fl :: next)
    else
      let r := filespec_scan lstat64 ino con file next
      (r.1, fl :: r.2)

/-- The function `filespec_add` (selinux_restorecon.c lines 330-396): the table is allocated
empty on first use, then the bucket of `ino` is scanned. -/
def filespec_add (lstat64 : cstring → Option Nat) (fl_head : Option fl_table)
    (ino : Nat) (con file : cstring) : Int × Option fl_table :=
  let tbl : fl_table := match fl_head with
    | none => fun _ => []
    | some t => t
  let h := filespec_hash ino
  let r := filespec_scan lstat64 ino con file (tbl h)
  (r.1, some (Function.update tbl h r.2))

/-- One call of filespec_add together with the re-stat answers the file system gives during it. -/
structure filespec_call where
  lstat64 : cstring → Option Nat
  ino : Nat
  con : cstring
  file : cstring

/-- The association table after a sequence of filespec_add calls. -/
def filespec_run : List filespec_call → Option fl_table → Option fl_table
  | [], t => t
  | c :: cs, t => filespec_run cs (filespec_add c.lstat64 t c.ino c.con c.file).2

/-- The table holds the record `r` in one of its chains. -/
def fl_holds (fl_head : Option fl_table) (r : file_spec_t) : Prop :=
  ∃ h, r ∈ fl_chain fl_head h

/-- A later filespec_add call for one fixed inode: its re-stat answers, context and path. -/
structure conflict_call where
  lstat64 : cstring → Option Nat
  con : cstring
  file : cstring

/-- Every call of the sequence brings a context different from `c1` while the path stored by the
previous call still re-stats to `ino`; `f` is the path stored before the first call. -/
def conflict_calls_ok (ino : Nat) (c1 : cstring) : cstring → List conflict_call → Prop
  | _, [] => True
  | f, c :: cs => c.con ≠ c1 ∧ c.lstat64 f = some ino ∧ conflict_calls_ok ino c1 c.file cs

/-- The return values and the final table of a sequence of filespec_add calls for inode `ino`. -/
def conflict_run (ino : Nat) :
    List conflict_call → Option fl_table → List Int × Option fl_table
  | [], t => ([], t)
  | c :: cs, t =>
    let r := filespec_add c.lstat64 t ino c.con c.file
    let rest := conflict_run ino cs r.2
    (r.1 :: rest.1, rest.2)

/-- The order in which filespec_add keeps a chain: the inode numbers strictly decrease from the
header on. -/
def chain_desc (l : List file_spec_t) : Prop := l.Pairwise (fun a b => b.ino < a.ino)

/-- The shape of every table filespec_add builds: each chain strictly decreasing and each record
in the bucket of its inode. -/
def fl_wf (t : Option fl_table) : Prop :=
  ∀ h, chain_desc (fl_chain t h) ∧ ∀ r ∈ fl_chain t h, filespec_hash r.ino = h

/-- The C expression `a | b` on int values; the walk applies it to return codes 0 and -1. -/
def int_or (a b : Int) : Int :=
  if a = 0 then b
  else if b = 0 then a
  else if a = -1 ∨ b = -1 then -1
  else Int.lor a b

/-- The fields of `struct selabel_handle` used here. The backend operations `func_lookup` (raw
context or error code) and `func_partial_match` (absent when NULL), and `compat_validate`
(`none` for success) are parameters; `digest` holds the digest bytes when the handle was opened
with one. -/
structure selabel_handle where
  subs : List struct_selabel_sub
  dist_subs : List struct_selabel_sub
  func_lookup : cstring → Nat → Except Errno cstring
  func_partial_match : Option (cstring → Bool)
  compat_validate : cstring → Option Errno
  digest : Option (List Nat)

/-- The function `selabel_sub_key` of label.c (lines 240-259). -/
def selabel_sub_key (rec : selabel_handle) (key : cstring) : Option cstring :=
  match selabel_sub rec.subs key with
  | some ptr =>
    match selabel_sub rec.dist_subs ptr with
    | some dptr => some dptr
    | none => some ptr
  | none => selabel_sub rec.dist_subs key

/-- The function `selabel_lookup_common` of label.c (lines 275-301) for a non-NULL key without
translation, followed by `selabel_fini`. -/
def selabel_lookup_common (rec : selabel_handle) (key : cstring) (type : Nat) :
    Except Errno cstring :=
  let lr := match selabel_sub_key rec key with
    | some ptr => rec.func_lookup ptr type
    | none => rec.func_lookup key type
  match lr with
  | Except.error e => Except.error e
  | Except.ok ctx_raw =>
    match rec.compat_validate ctx_raw with
    | some e => Except.error e
    | none => Except.ok ctx_raw

/-- The function `selabel_lookup_raw` of label.c (lines 386-397): the raw context, or the error
code of the failed lookup. -/
def selabel_lookup_raw (rec : selabel_handle) (key : cstring) (type : Nat) :
    Except Errno cstring :=
  selabel_lookup_common rec key type

/-- The function `selabel_partial_match` of label.c (lines 399-421). -/
def selabel_partial_match (rec : selabel_handle) (key : cstring) : Bool :=
  match rec.func_partial_match with
  | none => true
  | some f =>
    match selabel_sub_key rec key with
    | some ptr => f ptr
    | none => f key

/-- The function `selabel_digest` of label.c (lines 468-482), reduced to the digest and its
length; the constant `DIGEST_SPECFILE_SIZE` of label_internal.h is a parameter. -/
def selabel_digest (rec : selabel_handle) (DIGEST_SPECFILE_SIZE : Nat) :
    Option (List Nat × Nat) :=
  match rec.digest with
  | none => none
  | some d => some (d, DIGEST_SPECFILE_SIZE)

/-- The `struct rest_flags` of selinux_restorecon.c. -/
structure rest_flags where
  nochange : Bool
  verbose : Bool
  progress : Bool
  set_specctx : Bool
  add_assoc : Bool
  ignore_digest : Bool
  recurse : Bool
  userealpath : Bool
  set_xdev : Bool
  abort_on_error : Bool
  syslog_changes : Bool
  log_matches : Bool
  ignore_noent : Bool
deriving DecidableEq, Repr

/-- Modelled from the spec: the parsed form of a context string `user:role:type:range` behind
`context_t` (libselinux context.c is not among the sources); getters are the projections and a
setter replaces one field. -/
structure context_t where
  user : cstring
  role : cstring
  type : cstring
  range : cstring
deriving DecidableEq, Repr

/-- The fields of `struct stat` the code reads. -/
structure struct_stat where
  st_mode : Nat
  st_ino : Nat
  st_dev : Nat
deriving DecidableEq, Repr

/-- What the system answers while one object is processed: the re-stat of filespec_add,
`lgetfilecon_raw`, `is_context_customizable`, the context parser and printer, the return codes
of the three context setters, and the return code of `lsetfilecon`. -/
structure sys_env where
  lstat64 : cstring → Option Nat
  lgetfilecon_raw : cstring → Except Errno cstring
  is_context_customizable : cstring → Int
  context_new : cstring → Option context_t
  context_str : context_t → cstring
  context_user_set : context_t → cstring → Int
  context_role_set : context_t → cstring → Int
  context_range_set : context_t → cstring → Int
  lsetfilecon : cstring → cstring → Int

/-- The observable actions of the restoration engine, in the order they happen: a label lookup,
a context read, a context write, the opening of the traversal and the write of the digest
attribute. Log output is not recorded. -/
inductive event
  | lookup (pathname key : cstring) (mode : Nat)
  | getfilecon (pathname : cstring)
  | setfilecon (pathname con : cstring)
  | fts_open (pathname : cstring)
  | setxattr (pathname : cstring) (value : List Nat)
deriving DecidableEq, Repr

/-- The function `compare_types` (selinux_restorecon.c lines 458-496): the return code and the
value left in `*newtypecon`. -/
def compare_types (env : sys_env) (curcon newcon : cstring) : Int × Option cstring :=
  match env.context_new curcon with
  | none => (-1, none)
  | some cona =>
    match env.context_new newcon with
    | none => (-1, none)
    | some conb =>
      if strcmp cona.type conb.type ≠ 0 then
        let rc1 := int_or 0 (env.context_user_set conb cona.user)
        let conb1 : context_t := ⟨cona.user, conb.role, conb.type, conb.range⟩
        let rc2 := int_or rc1 (env.context_role_set conb1 cona.role)
        let conb2 : context_t := ⟨conb1.user, cona.role, conb1.type, conb1.range⟩
        let rc3 := int_or rc2 (env.context_range_set conb2 cona.range)
        let conb3 : context_t := ⟨conb2.user, conb2.role, conb2.type, cona.range⟩
        if rc3 = 0 then (0, some (env.context_str conb3)) else (rc3, none)
      else (0, none)

/-- The globals restorecon_sb updates: the association table and the progress counter. -/
structure sb_state where
  fl_head : Option fl_table
  fc_count : Nat

/-- The outcome of restorecon_sb: its return value (`none` when the call does not return because
`strcmp` is handed the NULL `curcon`), the actions performed and the globals. -/
structure sb_result where
  rc : Option Int
  events : List event
  st : sb_state

/-- The key restorecon_sb passes to the lookup (lines 509-525): the pathname with the alternate
root stripped, "/" for the alternate root itself, `none` when the pathname is rejected. -/
def sb_lookup_key (rootpath : Option cstring) (rootpathlen : Nat) (pathname : cstring) :
    Option cstring :=
  match rootpath with
  | none => some pathname
  | some root =>
    if strncmp root pathname rootpathlen ≠ 0 then none
    else
      let lookup_path := pathname.drop rootpathlen
      if cstr_at lookup_path 0 = none then some "/".toList else some lookup_path

/-- The function `restorecon_sb` (selinux_restorecon.c lines 498-638). -/
def restorecon_sb (rootpath : Option cstring) (rootpathlen : Nat) (fc_sehandle : selabel_handle)
    (env : sys_env) (pathname : cstring) (sb : struct_stat) (flags : rest_flags)
    (st : sb_state) : sb_result :=
  match sb_lookup_key rootpath rootpathlen pathname with
  | none => ⟨some (-1), [], st⟩
  | some key =>
    let ev1 := [event.lookup pathname key sb.st_mode]
    match selabel_lookup_raw fc_sehandle key sb.st_mode with
    | Except.error _ => ⟨some 0, ev1, st⟩
    | Except.ok newcon =>
      let fc_count := if flags.progress then (st.fc_count + 1) % 2 ^ 64 else st.fc_count
      let assoc :=
        if flags.add_assoc then filespec_add env.lstat64 st.fl_head sb.st_ino newcon pathname
        else (0, st.fl_head)
      let st1 : sb_state := ⟨assoc.2, fc_count⟩
      if assoc.1 < 0 then ⟨some (-1), ev1, st1⟩
      else if assoc.1 > 0 then ⟨some 0, ev1, st1⟩
      else
        let ev2 := ev1 ++ [event.getfilecon pathname]
        match env.lgetfilecon_raw pathname with
        | Except.error e =>
          if e ≠ Errno.ENODATA then ⟨some (-1), ev2, st1⟩
          else ⟨none, ev2, st1⟩
        | Except.ok curcon =>
          if strcmp curcon newcon ≠ 0 then
            if !flags.set_specctx ∧ env.is_context_customizable curcon > 0 ∧ flags.verbose then
              ⟨some 0, ev2, st1⟩
            else
              let ct : Int × Option cstring :=
                if !flags.set_specctx then compare_types env curcon newcon
                else (0, some newcon)
              if ct.1 ≠ 0 then ⟨some (-1), ev2, st1⟩
              else
                match ct.2 with
                | none => ⟨some 0, ev2, st1⟩
                | some con =>
                  if !flags.nochange then
                    let ev3 := ev2 ++ [event.setfilecon pathname con]
                    if env.lsetfilecon pathname con < 0 then ⟨some (-1), ev3, st1⟩
                    else ⟨some 0, ev3, st1⟩
                  else ⟨some 0, ev2, st1⟩
          else ⟨some 0, ev2, st1⟩

/-- The constant `S_IFDIR` of sys/stat.h. -/
def S_IFDIR : Nat := 0o040000
/-- The constant `RAMFS_MAGIC` of linux/magic.h. -/
def RAMFS_MAGIC : Nat := 0x858458f6
/-- The constant `TMPFS_MAGIC` of linux/magic.h. -/
def TMPFS_MAGIC : Nat := 0x01021994
/-- The constant `SYS_PATH` of selinux_restorecon.c. -/
def SYS_PATH : cstring := "/sys".toList
/-- The constant `SYS_PREFIX` of selinux_restorecon.c. -/
def SYS_PREFIX : cstring := SYS_PATH ++ "/".toList

/-- The values of `fts_info` (fts.h). -/
inductive fts_info_t
  | FTS_D | FTS_DC | FTS_DEFAULT | FTS_DNR | FTS_DOT | FTS_DP | FTS_ERR
  | FTS_F | FTS_INIT | FTS_NS | FTS_NSOK | FTS_SL | FTS_SLNONE | FTS_W
deriving DecidableEq, Repr

/-- The fields of `FTSENT` the walk reads. -/
structure FTSENT where
  fts_info : fts_info_t
  fts_path : cstring
  fts_statp : struct_stat
deriving DecidableEq, Repr

/-- One entry of the stream `fts_read` delivers: the entry, the number of following entries that
lie below it (those `FTS_SKIP` suppresses), and what the system answers while it is processed. -/
structure fts_item where
  ftsent : FTSENT
  below : Nat
  env : sys_env

/-- The file-scope variables of selinux_restorecon.c that a call reads. -/
structure globals where
  fc_sehandle : Option selabel_handle
  fc_digest : Option (List Nat)
  fc_digest_len : Nat
  rootpath : Option cstring
  rootpathlen : Nat
  exclude_lst : List edir

/-- The function `selinux_restorecon_set_sehandle` (lines 945-960). -/
def selinux_restorecon_set_sehandle (DIGEST_SPECFILE_SIZE : Nat) (g : globals)
    (hndl : selabel_handle) : globals :=
  match selabel_digest hndl DIGEST_SPECFILE_SIZE with
  | some (d, len) =>
    ⟨some hndl, some d, len, g.rootpath, g.rootpathlen, g.exclude_lst⟩
  | none => ⟨some hndl, none, 0, g.rootpath, g.rootpathlen, g.exclude_lst⟩

/-- What the system answers during one call of selinux_restorecon: `basename`, `dirname`,
`realpath`, `lstat`, the `f_type` of `statfs`, the stream of `fts_open` for a path and the
stay-on-device choice (`none` when it fails), the answers for the object of a non-recursive
call, and the return code of `setxattr`. -/
structure top_env where
  basename : cstring → cstring
  dirname : cstring → cstring
  realpath : cstring → Except Errno cstring
  lstat : cstring → Except Errno struct_stat
  statfs : cstring → Option Nat
  fts : cstring → Bool → Option (List fts_item)
  obj : sys_env
  setxattr : cstring → List Nat → Int

/-- The state that outlives a call: the stored `security.restorecon_last` attribute of each
path, the association table and the progress counter. -/
structure rc_state where
  xattrs : cstring → Option (List Nat)
  fl_head : Option fl_table
  fc_count : Nat

/-- The outcome of selinux_restorecon: return value (`none` when the call does not return), the
error code where the code fixes it, the actions performed and the state afterwards. -/
structure rc_result where
  rc : Option Int
  errno : Option Errno
  events : List event
  st : rc_state

/-- The system call `getxattr` on the stored attribute with a buffer of `size` bytes: the return
value and the bytes copied into the buffer. -/
def getxattr (stored : Option (List Nat)) (size : Nat) : Int × List Nat :=
  match stored with
  | none => (-1, [])
  | some v =>
    if size = 0 then (v.length, [])
    else if v.length ≤ size then (v.length, v)
    else (-1, [])

/-- The test `memcmp(a, b, n) == 0`. -/
def memcmp_eq (a b : List Nat) (n : Nat) : Bool := decide (a.take n = b.take n)

/-- The comparison of lines 781-786: `(size_t)size == fc_digest_len && memcmp(fc_digest,
xattr_value, fc_digest_len) == 0`. -/
def digest_matches (g : globals) (stored : Option (List Nat)) : Bool :=
  let r := getxattr stored g.fc_digest_len
  decide (Int.toNat (r.1 % 2 ^ 64) = g.fc_digest_len) &&
    memcmp_eq (g.fc_digest.getD []) r.2 g.fc_digest_len

/-- The locals and globals the walk loop carries: `error`, the actions so far, and the globals
of restorecon_sb. -/
structure walk_state where
  error : Int
  events : List event
  sb : sb_state

/-- How the walk loop ends: `fts_read` returned NULL, a `goto out`, or a call that did not
return. -/
inductive walk_end
  | done | out | fault
deriving DecidableEq, Repr

/-- The do-while loop of selinux_restorecon (lines 830-887) over the remaining stream; `skip`
counts the entries still suppressed by `FTS_SKIP`. -/
def fts_walk (g : globals) (hnd : selabel_handle) (flags : rest_flags) (issys : Bool)
    (dev_num : Nat) : List fts_item → Nat → walk_state → walk_end × Option Errno × walk_state
  | [], _, ws => (walk_end.done, none, ws)
  | _ :: rest, skip + 1, ws => fts_walk g hnd flags issys dev_num rest skip ws
  | it :: rest, 0, ws =>
    if flags.set_xdev ∧ it.ftsent.fts_statp.st_dev ≠ dev_num then
      fts_walk g hnd flags issys dev_num rest 0 ws
    else
      let process : walk_end × Option Errno × walk_state :=
        let r := restorecon_sb g.rootpath g.rootpathlen hnd it.env it.ftsent.fts_path
          it.ftsent.fts_statp flags ws.sb
        match r.rc with
        | none => (walk_end.fault, none, ⟨ws.error, ws.events ++ r.events, r.st⟩)
        | some rc =>
          let ws1 : walk_state := ⟨int_or ws.error rc, ws.events ++ r.events, r.st⟩
          if ws1.error ≠ 0 ∧ flags.abort_on_error then (walk_end.out, none, ws1)
          else fts_walk g hnd flags issys dev_num rest 0 ws1
      match it.ftsent.fts_info with
      | fts_info_t.FTS_DC => (walk_end.out, some Errno.ELOOP, ⟨-1, ws.events, ws.sb⟩)
      | fts_info_t.FTS_DP => fts_walk g hnd flags issys dev_num rest 0 ws
      | fts_info_t.FTS_DNR => fts_walk g hnd flags issys dev_num rest it.below ws
      | fts_info_t.FTS_NS => fts_walk g hnd flags issys dev_num rest it.below ws
      | fts_info_t.FTS_ERR => fts_walk g hnd flags issys dev_num rest it.below ws
      | fts_info_t.FTS_D =>
        if issys ∧ !selabel_partial_match hnd it.ftsent.fts_path then
          fts_walk g hnd flags issys dev_num rest it.below ws
        else if check_excluded g.exclude_lst it.ftsent.fts_path ≠ 0 then
          fts_walk g hnd flags issys dev_num rest it.below ws
        else process
      | _ => process

/-- The pathname selinux_restorecon works on (lines 711-735). -/
def canonical_pathname (env : top_env) (userealpath : Bool) (pathname_orig : cstring) :
    Except Errno cstring :=
  if userealpath then
    let pathbname := env.basename pathname_orig
    if strcmp pathbname "/".toList = 0 ∨ strcmp pathbname ".".toList = 0 ∨
        strcmp pathbname "..".toList = 0 then
      env.realpath pathname_orig
    else
      match env.realpath (env.dirname pathname_orig) with
      | Except.error e => Except.error e
      | Except.ok pathdnamer =>
        if strcmp pathdnamer "/".toList = 0 then Except.ok ("/".toList ++ pathbname)
        else Except.ok (pathdnamer ++ "/".toList ++ pathbname)
  else Except.ok pathname_orig

/-- The `cleanup:` exit of selinux_restorecon (lines 909-918): the association table is
destroyed when it was in use. -/
def restorecon_cleanup (flags : rest_flags) (error : Int) (errno : Option Errno)
    (events : List event) (xattrs : cstring → Option (List Nat)) (sb : sb_state) : rc_result :=
  ⟨some error, errno, events, ⟨xattrs, if flags.add_assoc then none else sb.fl_head, sb.fc_count⟩⟩

/-- The conditions under which `setrestoreconlast` stays true: a directory, not under /sys, not
on ramfs or tmpfs. -/
def digest_eligible (env : top_env) (pathname : cstring) (sb : struct_stat) : Prop :=
  sb.st_mode &&& S_IFDIR = S_IFDIR ∧
    ¬ (strcmp pathname SYS_PATH = 0 ∨ strncmp pathname SYS_PREFIX 5 = 0) ∧
    env.statfs pathname ≠ some RAMFS_MAGIC ∧ env.statfs pathname ≠ some TMPFS_MAGIC

/-- The recursive part of selinux_restorecon (lines 770-909): digest check, walk, digest update. -/
def restorecon_recurse (g : globals) (env : top_env) (hnd : selabel_handle)
    (flags : rest_flags) (pathname : cstring) (sb : struct_stat) (st : rc_state) : rc_result :=
  let sb0 : sb_state := ⟨st.fl_head, st.fc_count⟩
  let issys : Bool :=
    decide (strcmp pathname SYS_PATH = 0 ∨ strncmp pathname SYS_PREFIX 5 = 0)
  let srl0 : Bool := decide (sb.st_mode &&& S_IFDIR = S_IFDIR)
  let srl1 : Bool := srl0 && !issys
  let setrestoreconlast : Bool :=
    srl1 && !(decide (env.statfs pathname = some RAMFS_MAGIC) ||
      decide (env.statfs pathname = some TMPFS_MAGIC))
  if setrestoreconlast ∧ !flags.ignore_digest ∧ digest_matches g (st.xattrs pathname) then
    restorecon_cleanup flags 0 none [] st.xattrs sb0
  else
    let ev0 := [event.fts_open pathname]
    match env.fts pathname flags.set_xdev with
    | none => restorecon_cleanup flags (-1) none ev0 st.xattrs sb0
    | some [] => restorecon_cleanup flags (-1) none ev0 st.xattrs sb0
    | some (first :: rest) =>
      let dev_num := first.ftsent.fts_statp.st_dev
      let w := fts_walk g hnd flags issys dev_num (first :: rest) 0 ⟨0, ev0, sb0⟩
      let ws := w.2.2
      match w.1 with
      | walk_end.fault =>
        ⟨none, none, ws.events, ⟨st.xattrs, ws.sb.fl_head, ws.sb.fc_count⟩⟩
      | walk_end.out =>
        restorecon_cleanup flags ws.error w.2.1 ws.events st.xattrs ws.sb
      | walk_end.done =>
        match g.fc_digest with
        | some d =>
          if setrestoreconlast ∧ !flags.nochange ∧ ws.error = 0 then
            let value := d.take g.fc_digest_len
            let error := env.setxattr pathname value
            restorecon_cleanup flags error none
              (ws.events ++ [event.setxattr pathname value])
              (if error = 0 then Function.update st.xattrs pathname (some value)
               else st.xattrs) ws.sb
          else restorecon_cleanup flags ws.error none ws.events st.xattrs ws.sb
        | none => restorecon_cleanup flags ws.error none ws.events st.xattrs ws.sb

/-- The function `selinux_restorecon` (lines 645-942) after the one-time initialisation, with
the flag word already unpacked into `rest_flags`. -/
def selinux_restorecon (g : globals) (env : top_env) (pathname_orig : cstring)
    (restorecon_flags : rest_flags) (st : rc_state) : rc_result :=
  let flags : rest_flags :=
    if restorecon_flags.verbose ∧ restorecon_flags.progress then
      { restorecon_flags with verbose := false }
    else restorecon_flags
  let sb0 : sb_state := ⟨st.fl_head, st.fc_count⟩
  match g.fc_sehandle with
  | none => ⟨some (-1), none, [], st⟩
  | some hnd =>
    match canonical_pathname env flags.userealpath pathname_orig with
    | Except.error e => restorecon_cleanup flags (-1) (some e) [] st.xattrs sb0
    | Except.ok pathname =>
      match env.lstat pathname with
      | Except.error e =>
        if flags.ignore_noent ∧ e = Errno.ENOENT then ⟨some 0, some e, [], st⟩
        else restorecon_cleanup flags (-1) (some e) [] st.xattrs sb0
      | Except.ok sb =>
        if !flags.recurse then
          if check_excluded g.exclude_lst pathname ≠ 0 then
            restorecon_cleanup flags 0 none [] st.xattrs sb0
          else
            let r := restorecon_sb g.rootpath g.rootpathlen hnd env.obj pathname sb flags sb0
            match r.rc with
            | none => ⟨none, none, r.events, ⟨st.xattrs, r.st.fl_head, r.st.fc_count⟩⟩
            | some error => restorecon_cleanup flags error none r.events st.xattrs r.st
        else restorecon_recurse g env hnd flags pathname sb st

/-- Splits a string at its first ':'. -/
def split_colon : cstring → Option (cstring × cstring)
  | [] => none
  | c :: rest =>
    if c = ':' then some ([], rest)
    else
      match split_colon rest with
      | none => none
      | some (a, b) => some (c :: a, b)

/-- Modelled from the spec: `context_new` of libselinux context.c (not among the sources) reads
a context string `user:role:type:range`. -/
def context_new_model (s : cstring) : Option context_t :=
  match split_colon s with
  | none => none
  | some (user, r1) =>
    match split_colon r1 with
    | none => none
    | some (role, r2) =>
      match split_colon r2 with
      | none => none
      | some (type, range) => some ⟨user, role, type, range⟩

/-- Modelled from the spec: `context_str` of libselinux context.c (not among the sources) prints
`user:role:type:range`. -/
def context_str_model (c : context_t) : cstring :=
  c.user ++ ":".toList ++ c.role ++ ":".toList ++ c.type ++ ":".toList ++ c.range

/-- A system in which every object has the current context `cur`, every re-stat answers
`restat`, and context writes succeed. -/
def sample_env (cur : Except Errno cstring) (restat : Option Nat) (customizable : Int) :
    sys_env :=
  { lstat64 := fun _ => restat
    lgetfilecon_raw := fun _ => cur
    is_context_customizable := fun _ => customizable
    context_new := context_new_model
    context_str := context_str_model
    context_user_set := fun _ _ => 0
    context_role_set := fun _ _ => 0
    context_range_set := fun _ _ => 0
    lsetfilecon := fun _ _ => 0 }

/-- A handle without substitution rules whose backend answers `con` for every key. -/
def sample_handle (con : cstring) (digest : Option (List Nat)) : selabel_handle :=
  { subs := []
    dist_subs := []
    func_lookup := fun _ _ => Except.ok con
    func_partial_match := none
    compat_validate := fun _ => none
    digest := digest }

/-- All flags clear. -/
def no_flags : rest_flags :=
  ⟨false, false, false, false, false, false, false, false, false, false, false, false, false⟩

/-- A system with the directory tree `items` on one ext4 file system. -/
def sample_top (items : List fts_item) : top_env :=
  { basename := fun p => p
    dirname := fun p => p
    realpath := fun p => Except.ok p
    lstat := fun _ => Except.ok ⟨0o040755, 2, 1⟩
    statfs := fun _ => some 0xEF53
    fts := fun _ _ => some items
    obj := sample_env (Except.ok "u:r:a_t:s0".toList) none 0
    setxattr := fun _ _ => 0 }

/-- The globals after selinux_restorecon_set_sehandle with a 20-byte digest size. -/
def sample_globals (hnd : selabel_handle) (exclude_lst : List edir) : globals :=
  selinux_restorecon_set_sehandle 20 ⟨none, none, 0, none, 0, exclude_lst⟩ hnd

/-- The stream of a directory /a holding one file /a/f whose context differs from the looked-up
one. -/
def sample_items : List fts_item :=
  [⟨⟨fts_info_t.FTS_D, "/a".toList, ⟨0o040755, 2, 1⟩⟩, 1,
      sample_env (Except.ok "u:r:b_t:s0".toList) none 0⟩,
   ⟨⟨fts_info_t.FTS_F, "/a/f".toList, ⟨0o100644, 3, 1⟩⟩, 0,
      sample_env (Except.ok "u:r:a_t:s0".toList) none 0⟩,
   ⟨⟨fts_info_t.FTS_DP, "/a".toList, ⟨0o040755, 2, 1⟩⟩, 0,
      sample_env (Except.ok "u:r:b_t:s0".toList) none 0⟩]

/-- Every call of the sequence brings the recorded context `c` again while the recorded path
`f` still re-stats to `ino`. -/
def confirm_calls_ok (ino : Nat) (c f : cstring) (cs : List conflict_call) : Prop :=
  ∀ call ∈ cs, call.con = c ∧ call.lstat64 f = some ino

/-- The calls of restorecon_sb the walk loop makes over the remaining stream, in order, each
with the entry it is made for and its return value; it follows `fts_walk` step by step. -/
def fts_walk_calls (g : globals) (hnd : selabel_handle) (flags : rest_flags) (issys : Bool)
    (dev_num : Nat) : List fts_item → Nat → walk_state → List (fts_item × Option Int)
  | [], _, _ => []
  | _ :: rest, skip + 1, ws => fts_walk_calls g hnd flags issys dev_num rest skip ws
  | it :: rest, 0, ws =>
    if flags.set_xdev ∧ it.ftsent.fts_statp.st_dev ≠ dev_num then
      fts_walk_calls g hnd flags issys dev_num rest 0 ws
    else
      let process : List (fts_item × Option Int) :=
        let r := restorecon_sb g.rootpath g.rootpathlen hnd it.env it.ftsent.fts_path
          it.ftsent.fts_statp flags ws.sb
        match r.rc with
        | none => [(it, none)]
        | some rc =>
          let ws1 : walk_state := ⟨int_or ws.error rc, ws.events ++ r.events, r.st⟩
          if ws1.error ≠ 0 ∧ flags.abort_on_error then [(it, some rc)]
          else (it, some rc) :: fts_walk_calls g hnd flags issys dev_num rest 0 ws1
      match it.ftsent.fts_info with
      | fts_info_t.FTS_DC => []
      | fts_info_t.FTS_DP => fts_walk_calls g hnd flags issys dev_num rest 0 ws
      | fts_info_t.FTS_DNR => fts_walk_calls g hnd flags issys dev_num rest it.below ws
      | fts_info_t.FTS_NS => fts_walk_calls g hnd flags issys dev_num rest it.below ws
      | fts_info_t.FTS_ERR => fts_walk_calls g hnd flags issys dev_num rest it.below ws
      | fts_info_t.FTS_D =>
        if issys ∧ !selabel_partial_match hnd it.ftsent.fts_path then
          fts_walk_calls g hnd flags issys dev_num rest it.below ws
        else if check_excluded g.exclude_lst it.ftsent.fts_path ≠ 0 then
          fts_walk_calls g hnd flags issys dev_num rest it.below ws
        else process
      | _ => process

/-- The entries of the remaining stream that are not skipped: those not suppressed by
`FTS_SKIP`, on the walk's device when the stay-on-device flag is set, that are pre-order
directories neither pruned under /sys nor excluded, or non-directories. The list ends at a
directory cycle. -/
def fts_selected (g : globals) (hnd : selabel_handle) (flags : rest_flags) (issys : Bool)
    (dev_num : Nat) : List fts_item → Nat → List fts_item
  | [], _ => []
  | _ :: rest, skip + 1 => fts_selected g hnd flags issys dev_num rest skip
  | it :: rest, 0 =>
    if flags.set_xdev ∧ it.ftsent.fts_statp.st_dev ≠ dev_num then
      fts_selected g hnd flags issys dev_num rest 0
    else
      match it.ftsent.fts_info with
      | fts_info_t.FTS_DC => []
      | fts_info_t.FTS_DP => fts_selected g hnd flags issys dev_num rest 0
      | fts_info_t.FTS_DNR => fts_selected g hnd flags issys dev_num rest it.below
      | fts_info_t.FTS_NS => fts_selected g hnd flags issys dev_num rest it.below
      | fts_info_t.FTS_ERR => fts_selected g hnd flags issys dev_num rest it.below
      | fts_info_t.FTS_D =>
        if issys ∧ !selabel_partial_match hnd it.ftsent.fts_path then
          fts_selected g hnd flags issys dev_num rest it.below
        else if check_excluded g.exclude_lst it.ftsent.fts_path ≠ 0 then
          fts_selected g hnd flags issys dev_num rest it.below
        else it :: fts_selected g hnd flags issys dev_num rest 0
      | _ => it :: fts_selected g hnd flags issys dev_num rest 0

/-- The walk started in state `ws0` reads the entries `pre` and arrives, with nothing left to
skip, in state `ws` at whatever entry follows them. -/
def walk_reaches (g : globals) (hnd : selabel_handle) (flags : rest_flags) (issys : Bool)
    (dev_num : Nat) (pre : List fts_item) (ws0 ws : walk_state) : Prop :=
  ∀ tail, fts_walk g hnd flags issys dev_num (pre ++ tail) 0 ws0 =
    fts_walk g hnd flags issys dev_num tail 0 ws

/-- What the loop body does with an entry it reads. -/
inductive fts_action
  | pass | skip | cycle | process
deriving DecidableEq, Repr

/-- The branch the loop body of lines 832-886 takes for the entry `it`: `pass` for a bare
`continue`, `skip` for `fts_set(FTS_SKIP)` and `continue`, `cycle` for the directory-cycle
exit, `process` for the call of restorecon_sb. -/
def fts_classify (g : globals) (hnd : selabel_handle) (flags : rest_flags) (issys : Bool)
    (dev_num : Nat) (it : fts_item) : fts_action :=
  if flags.set_xdev ∧ it.ftsent.fts_statp.st_dev ≠ dev_num then fts_action.pass
  else
    match it.ftsent.fts_info with
    | fts_info_t.FTS_DC => fts_action.cycle
    | fts_info_t.FTS_DP => fts_action.pass
    | fts_info_t.FTS_DNR => fts_action.skip
    | fts_info_t.FTS_NS => fts_action.skip
    | fts_info_t.FTS_ERR => fts_action.skip
    | fts_info_t.FTS_D =>
      if issys ∧ !selabel_partial_match hnd it.ftsent.fts_path then fts_action.skip
      else if check_excluded g.exclude_lst it.ftsent.fts_path ≠ 0 then fts_action.skip
      else fts_action.process
    | _ => fts_action.process

/-- The `default:` branch of the loop body for the entry `it` (lines 879-885) followed by
the rest of the walk. -/
def walk_process (g : globals) (hnd : selabel_handle) (flags : rest_flags) (issys : Bool)
    (dev_num : Nat) (it : fts_item) (rest : List fts_item) (ws : walk_state) :
    walk_end × Option Errno × walk_state :=
  match (restorecon_sb g.rootpath g.rootpathlen hnd it.env it.ftsent.fts_path
      it.ftsent.fts_statp flags ws.sb).rc with
  | none => (walk_end.fault, none, ⟨ws.error, ws.events ++
      (restorecon_sb g.rootpath g.rootpathlen hnd it.env it.ftsent.fts_path
        it.ftsent.fts_statp flags ws.sb).events,
      (restorecon_sb g.rootpath g.rootpathlen hnd it.env it.ftsent.fts_path
        it.ftsent.fts_statp flags ws.sb).st⟩)
  | some rc =>
    if int_or ws.error rc ≠ 0 ∧ flags.abort_on_error = true then
      (walk_end.out, none, ⟨int_or ws.error rc, ws.events ++
        (restorecon_sb g.rootpath g.rootpathlen hnd it.env it.ftsent.fts_path
          it.ftsent.fts_statp flags ws.sb).events,
        (restorecon_sb g.rootpath g.rootpathlen hnd it.env it.ftsent.fts_path
          it.ftsent.fts_statp flags ws.sb).st⟩)
    else fts_walk g hnd flags issys dev_num rest 0 ⟨int_or ws.error rc, ws.events ++
        (restorecon_sb g.rootpath g.rootpathlen hnd it.env it.ftsent.fts_path
          it.ftsent.fts_statp flags ws.sb).events,
        (restorecon_sb g.rootpath g.rootpathlen hnd it.env it.ftsent.fts_path
          it.ftsent.fts_statp flags ws.sb).st⟩

/-- The calls of restorecon_sb made from the `default:` branch for `it` onwards. -/
def calls_process (g : globals) (hnd : selabel_handle) (flags : rest_flags) (issys : Bool)
    (dev_num : Nat) (it : fts_item) (rest : List fts_item) (ws : walk_state) :
    List (fts_item × Option Int) :=
  match (restorecon_sb g.rootpath g.rootpathlen hnd it.env it.ftsent.fts_path
      it.ftsent.fts_statp flags ws.sb).rc with
  | none => [(it, none)]
  | some rc =>
    if int_or ws.error rc ≠ 0 ∧ flags.abort_on_error = true then [(it, some rc)]
    else (it, some rc) :: fts_walk_calls g hnd flags issys dev_num rest 0
      ⟨int_or ws.error rc, ws.events ++
        (restorecon_sb g.rootpath g.rootpathlen hnd it.env it.ftsent.fts_path
          it.ftsent.fts_statp flags ws.sb).events,
        (restorecon_sb g.rootpath g.rootpathlen hnd it.env it.ftsent.fts_path
          it.ftsent.fts_statp flags ws.sb).st⟩

/-- The state in which the walk of a recursive call on `pathname` starts: no error yet, the
traversal just opened. -/
def walk_start (pathname : cstring) (st : rc_state) : walk_state :=
  ⟨0, [event.fts_open pathname], ⟨st.fl_head, st.fc_count⟩⟩

/-- The flags selinux_restorecon works with after lines 693-694: verbose is dropped when
progress is set as well. -/
def effective_flags (flags : rest_flags) : rest_flags :=
  if flags.verbose ∧ flags.progress then { flags with verbose := false } else flags

/-- Eligibility for digest tracking is a decidable condition. -/
instance digest_eligible_decidable (env : top_env) (pathname : cstring) (sb : struct_stat) :
    Decidable (digest_eligible env pathname sb) := by
  unfold digest_eligible
  exact inferInstance

/-- The directory /a read in pre-order, already carrying the looked-up context of the
sample handles. -/
def sample_dir : fts_item :=
  ⟨⟨fts_info_t.FTS_D, "/a".toList, ⟨0o040755, 2, 1⟩⟩, 2,
    sample_env (Except.ok "u:r:b_t:s0".toList) none 0⟩

/-- A directory /a/loop that fts reports as closing a cycle. -/
def sample_cycle : fts_item :=
  ⟨⟨fts_info_t.FTS_DC, "/a/loop".toList, ⟨0o040755, 2, 1⟩⟩, 0,
    sample_env (Except.ok "u:r:a_t:s0".toList) none 0⟩

/-- The file /a/f with a context that differs from the looked-up one. -/
def sample_file : fts_item :=
  ⟨⟨fts_info_t.FTS_F, "/a/f".toList, ⟨0o100644, 3, 1⟩⟩, 0,
    sample_env (Except.ok "u:r:a_t:s0".toList) none 0⟩

/-- The libc `isspace` in the C locale: space, tab, newline, vertical tab, form feed and
carriage return. -/
def isspace (c : Char) : Bool := c.toNat = 32 ∨ (9 ≤ c.toNat ∧ c.toNat ≤ 13)

/-- The NUL character that ends a string inside a buffer. -/
def NUL : Char := Char.ofNat 0

/-- The size of the line buffer `char buf[1024]` of selabel_subs_init. -/
def BUF_SIZE : Nat := 1024

/-- The content of the line buffer `buf` of selabel_subs_init: the character at each index
below `BUF_SIZE`. The buffer is not cleared between two lines, and it is not initialised
before the first one. -/
abbrev line_buf := Nat → Char

/-- The assignment `buf[i] = c`. -/
def buf_set (buf : line_buf) (i : Nat) (c : Char) : line_buf :=
  fun j => if j = i then c else buf j

/-- The successive non-NULL results of `fgets_unlocked(buf, size, cfg)` on a stream with the
given content left: each call takes the characters up to and including the next newline, at
most `size - 1` of them; `acc` holds, in reverse, the characters of the line being read. -/
def fgets_lines (size : Nat) : List Char → List Char → List (List Char)
  | [], acc => if acc = [] then [] else [acc.reverse]
  | c :: cs, acc =>
    if c.toNat = 10 ∨ acc.length + 2 ≥ size then (c :: acc).reverse :: fgets_lines size cs []
    else fgets_lines size cs (c :: acc)

/-- What `fgets_unlocked` leaves in the buffer: the characters read from index 0 on, a NUL
after them, and the old content behind it. -/
def fgets_store (buf : line_buf) (line : List Char) : line_buf :=
  fun j => if j < line.length then line.getD j NUL else if j = line.length then NUL else buf j

/-- The loops `while (*p && isspace(*p)) p++;` (`sp` true) and
`while (*p && ! isspace(*p)) p++;` (`sp` false) of selabel_subs_init, started at index `i`
with `n` bytes of the buffer left from there: the index at which the loop stops, `none` when
it runs off the end of the buffer. -/
def scan (sp : Bool) (buf : line_buf) : Nat → Nat → Option Nat
  | _, 0 => none
  | i, n + 1 => if buf i ≠ NUL ∧ isspace (buf i) = sp then scan sp buf (i + 1) n else some i

/-- The string that starts at index `i` of the buffer (what `strdup` copies), with `n` bytes
of the buffer left from there. -/
def buf_str (buf : line_buf) : Nat → Nat → cstring
  | _, 0 => []
  | i, n + 1 => if buf i = NUL then [] else buf i :: buf_str buf (i + 1) n

/-- The body of the loop of selabel_subs_init (label.c lines 103-141) on the buffer as
`fgets_unlocked` left it: the buffer afterwards and the rule that the line adds, if any;
`none` when a scan leaves the buffer. `malloc` and `strdup` are taken to succeed. -/
def subs_line (buf : line_buf) : Option (line_buf × Option struct_selabel_sub) :=
  match scan true buf 0 BUF_SIZE with
  | none => none
  | some src =>
    if buf src = '#' then some (buf, none)
    else
      match scan false buf src (BUF_SIZE - src) with
      | none => none
      | some ptr =>
        let buf1 := buf_set buf ptr NUL
        if buf1 src = NUL then some (buf1, none)
        else
          match scan true buf1 (ptr + 1) (BUF_SIZE - (ptr + 1)) with
          | none => none
          | some dst =>
            match scan false buf1 dst (BUF_SIZE - dst) with
            | none => none
            | some ptr2 =>
              let buf2 := buf_set buf1 ptr2 NUL
              if buf2 dst = NUL then some (buf2, none)
              else
                some (buf2,
                  some ⟨buf_str buf2 src (BUF_SIZE - src),
                    (buf_str buf2 src (BUF_SIZE - src)).length,
                    buf_str buf2 dst (BUF_SIZE - dst)⟩)

/-- The `while (fgets_unlocked(...))` loop of selabel_subs_init over the lines still to be
read: every rule is linked in front of `list` (`sub->next = list; list = sub;`), and `sub` is
the record allocated last. -/
def subs_loop : line_buf → List (List Char) → List struct_selabel_sub →
    Option struct_selabel_sub → Option (List struct_selabel_sub × Option struct_selabel_sub)
  | _, [], list, sub => some (list, sub)
  | buf, line :: rest, list, sub =>
    match subs_line (fgets_store buf line) with
    | none => none
    | some (buf1, none) => subs_loop buf1 rest list sub
    | some (buf1, some r) => subs_loop buf1 rest (r :: list) (some r)

/-- The rules that the lines of a file yield, in the order of the lines. -/
def subs_file_rules : line_buf → List (List Char) → Option (List struct_selabel_sub)
  | _, [] => some []
  | buf, line :: rest =>
    match subs_line (fgets_store buf line) with
    | none => none
    | some (buf1, none) => subs_file_rules buf1 rest
    | some (buf1, some r) => (subs_file_rules buf1 rest).map (fun rs => r :: rs)

/-- What selabel_subs_init returns: the rule list, and whether the error exit has freed the
record at its head (`free(sub->src); free(sub);` after the record was linked). -/
structure subs_init_result where
  list : List struct_selabel_sub
  head_freed : Bool
deriving DecidableEq, Repr

/-- The function `selabel_subs_init` (label.c lines 87-155). `buf0` is what the stack holds
where `buf` is placed, `cfg` the content of the file (`none`: `fopen` fails), `fstat_ok`
whether `fstat` succeeds, `digest_rc` what `digest_add_specfile` returns; `none` when a scan
leaves the buffer. -/
def selabel_subs_init (buf0 : line_buf) (cfg : Option (List Char)) (fstat_ok : Bool)
    (digest_rc : Int) (list : List struct_selabel_sub) : Option subs_init_result :=
  match cfg with
  | none => some ⟨list, false⟩
  | some content =>
    if fstat_ok = false then some ⟨list, false⟩
    else
      match subs_loop buf0 (fgets_lines (BUF_SIZE - 1) content []) list none with
      | none => none
      | some (list1, sub) =>
        if digest_rc < 0 then some ⟨list1, sub.isSome⟩ else some ⟨list1, false⟩

/-- A rule file with two rules for the same source /a. -/
def sample_subs_file : List Char := "/a /x\n/a /y\n".toList

/-- A file /a/e whose context cannot be read (EACCES), so that restorecon_sb fails on it. -/
def sample_bad : fts_item :=
  ⟨⟨fts_info_t.FTS_F, "/a/e".toList, ⟨0o100644, 4, 1⟩⟩, 0,
    sample_env (Except.error Errno.EACCES) none 0⟩

/-- A handle whose backend answers v:q:b_t:s0 for the key /a/x and w:q:c_t:s0 for every
other key. -/
def sample_link_handle : selabel_handle :=
  { subs := []
    dist_subs := []
    func_lookup := fun key _ =>
      if key = "/a/x".toList then Except.ok "v:q:b_t:s0".toList
      else Except.ok "w:q:c_t:s0".toList
    func_partial_match := none
    compat_validate := fun _ => none
    digest := none }

/-- The loop `while (len && (rootpath[len - 1] == '/')) rootpath[--len] = 0;` of
selinux_restorecon_set_alt_rootpath, started at `len`. -/
def trim_rootpath (rootpath : cstring) : Nat → Nat
  | 0 => 0
  | len + 1 =>
    if cstr_at rootpath len = some '/' then trim_rootpath rootpath len else len + 1

/-- The function `selinux_restorecon_set_alt_rootpath` (lines 1009-1030): the return value
and the file-scope variables afterwards. `strdup` is taken to succeed. -/
def selinux_restorecon_set_alt_rootpath (g : globals) (alt_rootpath : cstring) :
    Int × globals :=
  let len := trim_rootpath alt_rootpath alt_rootpath.length
  (0, { g with rootpath := some (alt_rootpath.take len), rootpathlen := len })

/-- A rule file whose last line has a single token and no newline after it. -/
def sample_subs_short_line : List Char := "/aaaa /bbbb\n/c".toList

/-- How a caller of add_exclude can end without returning: `fault` for a read through a
pointer that was never set or beyond the line buffer, `assert_failed` for `assert(0)`
(assertions are taken to be enabled). -/
inductive exclude_stop
  | fault | assert_failed
deriving DecidableEq, Repr

/-- The statement `if (add_exclude(directory, who) && errno == ENOMEM) assert(0);` of both
callers of add_exclude (lines 283-285 and 1002-1004): the exclusion list afterwards, or the
failed assertion. -/
def add_exclude_checked (alloc_ok : Bool) (exclude_lst : List edir) (directory : cstring)
    (who : Bool) : Except exclude_stop (List edir) :=
  let r := add_exclude alloc_ok exclude_lst directory who
  if r.rc ≠ 0 ∧ r.errno = some Errno.ENOMEM then Except.error exclude_stop.assert_failed
  else Except.ok r.exclude_lst

/-- The function `selinux_restorecon_set_exclude_list` (lines 990-1006) from the entry with
number `i` on: the exclusion list afterwards, or the failed assertion. `lstat` is the answer
of the file system and `alloc_ok i` tells whether the allocations of the add_exclude call
for entry `i` succeed. -/
def selinux_restorecon_set_exclude_list (lstat : cstring → Except Errno struct_stat)
    (alloc_ok : Nat → Bool) : Nat → List cstring → List edir → Except exclude_stop (List edir)
  | _, [], exclude_lst => Except.ok exclude_lst
  | i, path :: rest, exclude_lst =>
    let go : Except exclude_stop (List edir) :=
      match add_exclude_checked (alloc_ok i) exclude_lst path true with
      | Except.error s => Except.error s
      | Except.ok lst1 => selinux_restorecon_set_exclude_list lstat alloc_ok (i + 1) rest lst1
    match lstat path with
    | Except.error e => if e ≠ Errno.EACCES then Except.ok exclude_lst else go
    | Except.ok _ => go

/-- The successive results of `getline` on a stream with the given content left: each line
with its newline, the last one possibly without; `acc` holds, in reverse, the characters of
the line being read. -/
def getline_lines : List Char → List Char → List (List Char)
  | [], acc => if acc = [] then [] else [acc.reverse]
  | c :: cs, acc =>
    if c.toNat = 10 then (c :: acc).reverse :: getline_lines cs []
    else getline_lines cs (c :: acc)

/-- What `getline` leaves in its buffer, a heap block given by its content: the line from
index 0 on, a NUL after it, and the old content behind that. The block grows when the line
needs it and is taken to stay at its address, so that a pointer into it is an index. -/
def getline_store (buf : List Char) (line : List Char) : List Char :=
  line ++ NUL :: buf.drop (line.length + 1)

/-- The libc `strspn(s, delim)` for a one-character `delim`, on the block content from index
`i` on: the index of the first character that is not the delimiter, `none` when the block
ends before. -/
def tok_skip (delim : Char) : List Char → Nat → Option Nat
  | [], _ => none
  | c :: cs, i => if c = delim then tok_skip delim cs (i + 1) else some i

/-- The libc `strcspn(s, delim)` for a one-character `delim`, on the block content from
index `i` on: the index of the first delimiter or NUL, `none` when the block ends before. -/
def tok_end (delim : Char) : List Char → Nat → Option Nat
  | [], _ => none
  | c :: cs, i => if c = delim ∨ c = NUL then some i else tok_end delim cs (i + 1)

/-- The libc `strtok` with a one-character delimiter string, started at index `s` of the
block (the argument, or the saved pointer when the argument is NULL): the block afterwards,
the token (`none` for NULL) and the saved pointer; `none` when the scan leaves the block. -/
def strtok (delim : Char) (buf : List Char) (s : Nat) :
    Option (List Char × Option Nat × Nat) :=
  match tok_skip delim (buf.drop s) s with
  | none => none
  | some b =>
    if buf.getD b NUL = NUL then some (buf, none, b)
    else
      match tok_end delim (buf.drop b) b with
      | none => none
      | some e =>
        if buf.getD e NUL = NUL then some (buf, some b, e)
        else some (buf.set e NUL, some b, e + 1)

/-- The C string that starts at index `i` of the block; `none` when the block ends before a
NUL. -/
def block_str : List Char → Nat → Option cstring
  | buf, i =>
    match tok_end NUL (buf.drop i) i with
    | none => none
    | some e => some ((buf.drop i).take (e - i))

/-- The array `char *mount_info[4]` of exclude_non_seclabel_mounts: each slot is an index
into the line buffer, or `none` while it has never been assigned. -/
abbrev mount_info_t := Nat → Option Nat

/-- The loop `while (item != NULL)` of lines 254-260, entered with `index = 3 - k` and the
token `item`; `saved` is the pointer strtok keeps. The result is the block, the array and
the final `index`. -/
def mount_fields : Nat → List Char → mount_info_t → Option Nat → Nat →
    Option (List Char × mount_info_t × Nat)
  | k, buf, mount_info, none, _ => some (buf, mount_info, 3 - k)
  | 0, buf, mount_info, some item, _ =>
    some (buf, fun j => if j = 3 then some item else mount_info j, 3)
  | k + 1, buf, mount_info, some item, saved =>
    match strtok ' ' buf saved with
    | none => none
    | some (buf1, item1, saved1) =>
      mount_fields k buf1 (fun j => if j = 3 - (k + 1) then some item else mount_info j)
        item1 saved1

/-- The loop `while (item != NULL)` of lines 272-279 over the options, entered with the
token `item`: the block afterwards and whether `seclabel` was found; `fuel` bounds the
number of tokens and `none` stands for a scan that leaves the block. -/
def mount_options : Nat → List Char → Option Nat → Nat → Option (List Char × Bool)
  | _, buf, none, _ => some (buf, false)
  | 0, _, some _, _ => none
  | fuel + 1, buf, some item, saved =>
    match block_str buf item with
    | none => none
    | some s =>
      if strcmp s "seclabel".toList = 0 then some (buf, true)
      else
        match strtok ',' buf saved with
        | none => none
        | some (buf1, item1, saved1) => mount_options fuel buf1 item1 saved1

/-- The conversion of a value to `int`. -/
def to_int (x : Int) : Int := (x + 2 ^ 31) % 2 ^ 32 - 2 ^ 31

/-- The function `file_system_count` (lines 213-223); `statvfs` gives `f_files` and
`f_ffree`, `none` when the call fails. -/
def file_system_count (statvfs : cstring → Option (Nat × Nat)) (name : cstring) : Int :=
  match statvfs name with
  | some (f_files, f_ffree) => to_int (((f_files : Int) - (f_ffree : Int)) % 2 ^ 64)
  | none => 0

/-- The variables of exclude_non_seclabel_mounts that live across the records, with the
exclusion list: the line buffer, `mount_info` and `nfile`. -/
structure mounts_state where
  buf : List Char
  mount_info : mount_info_t
  exclude_lst : List edir
  nfile : Int

/-- The body of the `while (getline(...))` loop of exclude_non_seclabel_mounts (lines
251-286) for one record. -/
def mounts_record (statvfs : cstring → Option (Nat × Nat)) (alloc_ok : Bool)
    (st : mounts_state) (line : List Char) : Except exclude_stop mounts_state :=
  match strtok ' ' (getline_store st.buf line) 0 with
  | none => Except.error exclude_stop.fault
  | some (buf0, item0, saved0) =>
    match mount_fields 3 buf0 st.mount_info item0 saved0 with
    | none => Except.error exclude_stop.fault
    | some (buf1, mount_info, index) =>
      if index < 3 then Except.ok ⟨buf1, mount_info, st.exclude_lst, st.nfile⟩
      else
        match mount_info 1, mount_info 3 with
        | some m1, some m3 =>
          match block_str buf1 m1 with
          | none => Except.error exclude_stop.fault
          | some dir =>
            let lst1 := remove_exclude st.exclude_lst dir
            match strtok ',' buf1 m3 with
            | none => Except.error exclude_stop.fault
            | some (buf2, item2, saved2) =>
              match mount_options (buf2.length + 1) buf2 item2 saved2 with
              | none => Except.error exclude_stop.fault
              | some (buf3, found) =>
                match block_str buf3 m1 with
                | none => Except.error exclude_stop.fault
                | some dir3 =>
                  if found then
                    Except.ok ⟨buf3, mount_info, lst1,
                      to_int (st.nfile + file_system_count statvfs dir3)⟩
                  else
                    match add_exclude_checked alloc_ok lst1 dir3 false with
                    | Except.error s => Except.error s
                    | Except.ok lst2 => Except.ok ⟨buf3, mount_info, lst2, st.nfile⟩
        | _, _ => Except.error exclude_stop.fault

/-- The `while (getline(...))` loop of exclude_non_seclabel_mounts from record number `i`
on; `alloc_ok i` tells whether the allocations of the add_exclude call for record `i`
succeed. -/
def mounts_loop (statvfs : cstring → Option (Nat × Nat)) (alloc_ok : Nat → Bool) :
    Nat → List (List Char) → mounts_state → Except exclude_stop mounts_state
  | _, [], st => Except.ok st
  | i, line :: rest, st =>
    match mounts_record statvfs (alloc_ok i) st line with
    | Except.error s => Except.error s
    | Except.ok st1 => mounts_loop statvfs alloc_ok (i + 1) rest st1

/-- The function `exclude_non_seclabel_mounts` (lines 232-293): the value of `nfile` when
the loop ends (the code returns it scaled by 1.05) and the exclusion list. `kernel_old`
tells whether the kernel release is below 2.6.30, `mounts` is the content of /proc/mounts
(`none` when it cannot be opened) and `heap` what the fresh line buffer holds. -/
def exclude_non_seclabel_mounts (kernel_old : Bool) (mounts : Option (List Char))
    (statvfs : cstring → Option (Nat × Nat)) (alloc_ok : Nat → Bool) (heap : List Char)
    (exclude_lst : List edir) : Except exclude_stop (Int × List edir) :=
  if kernel_old then Except.ok (0, exclude_lst)
  else
    match mounts with
    | none => Except.ok (0, exclude_lst)
    | some content =>
      match mounts_loop statvfs alloc_ok 0 (getline_lines content [])
          ⟨heap, fun _ => none, exclude_lst, 0⟩ with
      | Except.error s => Except.error s
      | Except.ok st => Except.ok (st.nfile, st.exclude_lst)

/-- The answers of `statvfs` used in the examples: 100 files of which 40 are free on /a,
10 of which 3 are free on /mnt. -/
def sample_statvfs (name : cstring) : Option (Nat × Nat) :=
  if name = "/a".toList then some (100, 40)
  else if name = "/mnt".toList then some (10, 3)
  else none

/-- A mount table with a tmpfs on /mnt, an ext4 with the seclabel option on /a, and a
record of three fields. -/
def sample_mounts : List Char :=
  "none /mnt tmpfs rw 0 0\ndev /a ext4 seclabel,rw 0 0\nx /mnt y\n".toList

/-- An entry /a/g for which `stat` failed: fts reports it as FTS_NS. -/
def sample_nostat : fts_item :=
  ⟨⟨fts_info_t.FTS_NS, "/a/g".toList, ⟨0, 0, 1⟩⟩, 0,
    sample_env (Except.ok "u:r:a_t:s0".toList) none 0⟩

/-! ## Theorems -/

theorem strncmp_eq_zero_iff (a b : cstring) (n : Nat) :
    strncmp a b n = 0 ↔ a.take n = b.take n := by
  induction n generalizing a b with
  | zero => simp [strncmp]
  | succ n ih =>
    cases a with
    | nil => cases b <;> simp [strncmp]
    | cons x a =>
      cases b with
      | nil => simp [strncmp]
      | cons y b =>
        simp only [strncmp, List.take_succ_cons, List.cons.injEq]
        by_cases hxy : x = y
        · simp [hxy, ih]
        · simp only [hxy, if_false, false_and, iff_false]
          split <;> decide

theorem strcmp_eq_zero_iff (a b : cstring) : strcmp a b = 0 ↔ a = b := by
  induction a generalizing b with
  | nil => cases b <;> simp [strcmp]
  | cons x a ih =>
    cases b with
    | nil => simp [strcmp]
    | cons y b =>
      simp only [strcmp, List.cons.injEq]
      by_cases hxy : x = y
      · simp [hxy, ih]
      · simp only [hxy, if_false, false_and, iff_false]
        split <;> decide

theorem cstr_at_append_length (a b : cstring) : cstr_at (a ++ b) a.length = b.head? := by
  induction a with
  | nil => cases b <;> simp [cstr_at]
  | cons x a ih => simpa [cstr_at] using ih

theorem take_length_eq_iff (key s : cstring) :
    key.take s.length = s ↔ ∃ rest, key = s ++ rest := by
  constructor
  · intro h
    refine ⟨key.drop s.length, ?_⟩
    conv_lhs => rw [← List.take_append_drop s.length key, h]
  · rintro ⟨rest, rfl⟩
    simp

theorem boundary_iff (s key : cstring) (n : Nat) (h : n = s.length) :
    (strncmp key s n = 0 ∧ (cstr_at key n = some '/' ∨ cstr_at key n = none)) ↔
      (key = s ∨ ∃ rest, key = s ++ '/' :: rest) := by
  rw [strncmp_eq_zero_iff, h, List.take_length, take_length_eq_iff]
  constructor
  · rintro ⟨⟨rest, rfl⟩, hc⟩
    rw [cstr_at_append_length] at hc
    cases rest with
    | nil => left; simp
    | cons c rest =>
      simp at hc
      subst hc
      right; exact ⟨rest, rfl⟩
  · rintro (hk | ⟨rest, hk⟩)
    · refine ⟨⟨[], by simp [hk]⟩, ?_⟩
      right
      rw [hk]
      have := cstr_at_append_length s []
      simpa using this
    · refine ⟨⟨_, hk⟩, ?_⟩
      left
      rw [hk, cstr_at_append_length]
      rfl

theorem sub_cond_iff (r : struct_selabel_sub) (key : cstring) (h : r.slen = r.src.length) :
    (strncmp key r.src r.slen = 0 ∧
        (cstr_at key r.slen = some '/' ∨ cstr_at key r.slen = none)) ↔ sub_matches r key :=
  boundary_iff r.src key r.slen h

/-- C1. For a rule whose cached length is the length of its src, selabel_sub on the
one-rule list returns a rewrite exactly when the key equals src or begins with src
immediately followed by '/'; a key that continues src with another character (rule /foo,
key /foo2) gets none. -/
theorem selabel_sub_single_iff (r : struct_selabel_sub) (key : cstring)
    (h : r.slen = r.src.length) :
    (selabel_sub [r] key).isSome = true ↔
      (key = r.src ∨ ∃ rest, key = r.src ++ '/' :: rest) := by
  have hc := sub_cond_iff r key h
  unfold sub_matches at hc
  rw [← hc]
  simp only [selabel_sub]
  split <;> simp_all

/-- C1 instance. The rule /foo does not rewrite the key /foo2. -/
theorem selabel_sub_single_iff_witness :
    (4 = "/foo".toList.length) ∧
    ((selabel_sub [⟨"/foo".toList, 4, "/bar".toList⟩] "/foo2".toList).isSome = true ↔
      ("/foo2".toList = "/foo".toList ∨ ∃ rest, "/foo2".toList = "/foo".toList ++ '/' :: rest)) :=
  ⟨by decide, selabel_sub_single_iff ⟨"/foo".toList, 4, "/bar".toList⟩ "/foo2".toList (by decide)⟩

theorem sub_output_eq (dst key : cstring) (n : Nat) :
    dst ++ key.drop (if cstr_at key n = some '/' ∧ strcmp dst "/".toList = 0 then n + 1 else n) =
      if dst = ['/'] ∧ cstr_at key n = some '/' then '/' :: key.drop (n + 1)
      else dst ++ key.drop n := by
  have hs : strcmp dst ['/'] = 0 ↔ dst = ['/'] := strcmp_eq_zero_iff _ _
  have hl : "/".toList = ['/'] := rfl
  rw [hl]
  by_cases hd : dst = ['/']
  · by_cases hk : cstr_at key n = some '/'
    · have h1 : strcmp ['/'] ['/'] = 0 := by decide
      simp [hd, hk, h1]
    · simp [hk]
  · simp [hd, hs]

/-- C2. Over a rule list with right cached lengths, selabel_sub returns the rewrite out
exactly when, for the first rule (src, dst) in list order that matches the key, out is dst
followed by the key without its first |src| characters, or, when dst is exactly / and the
key has '/' right after src, / followed by the key without its first |src|+1 characters. -/
theorem selabel_sub_eq_some_iff (rules : List struct_selabel_sub) (key out : cstring)
    (hlen : ∀ r ∈ rules, r.slen = r.src.length) :
    selabel_sub rules key = some out ↔
      ∃ pre r post, rules = pre ++ r :: post ∧ (∀ q ∈ pre, ¬ sub_matches q key) ∧
        sub_matches r key ∧
        out = if r.dst = ['/'] ∧ cstr_at key r.src.length = some '/'
              then '/' :: key.drop (r.src.length + 1)
              else r.dst ++ key.drop r.src.length := by
  induction rules with
  | nil => simp [selabel_sub]
  | cons p rules ih =>
    have hp : p.slen = p.src.length := hlen p (List.mem_cons_self _ _)
    have ih := ih (fun r hr => hlen r (List.mem_cons_of_mem _ hr))
    have hc := sub_cond_iff p key hp
    simp only [selabel_sub]
    by_cases hm : sub_matches p key
    · rw [if_pos (hc.mpr hm)]
      constructor
      · intro ho
        refine ⟨[], p, rules, rfl, by simp, hm, ?_⟩
        simp only [Option.some.injEq] at ho
        rw [← ho, hp, sub_output_eq]
      · rintro ⟨pre, r, post, hrules, hpre, hr, ho⟩
        cases pre with
        | nil =>
          simp only [List.nil_append, List.cons.injEq] at hrules
          obtain ⟨rfl, rfl⟩ := hrules
          rw [ho, hp, sub_output_eq]
        | cons q pre =>
          simp only [List.cons_append, List.cons.injEq] at hrules
          obtain ⟨rfl, -⟩ := hrules
          exact absurd hm (hpre _ (List.mem_cons_self _ _))
    · rw [if_neg (fun h => hm (hc.mp h)), ih]
      constructor
      · rintro ⟨pre, r, post, hrules, hpre, hr, ho⟩
        refine ⟨p :: pre, r, post, by simp [hrules], ?_, hr, ho⟩
        intro q hq
        rcases List.mem_cons.mp hq with rfl | hq
        · exact hm
        · exact hpre q hq
      · rintro ⟨pre, r, post, hrules, hpre, hr, ho⟩
        cases pre with
        | nil =>
          simp only [List.nil_append, List.cons.injEq] at hrules
          obtain ⟨rfl, rfl⟩ := hrules
          exact absurd hr hm
        | cons q pre =>
          simp only [List.cons_append, List.cons.injEq] at hrules
          obtain ⟨rfl, rfl⟩ := hrules
          exact ⟨pre, r, post, rfl, fun q hq => hpre q (List.mem_cons_of_mem _ hq), hr, ho⟩

theorem trim_slashes_le (d : cstring) (n : Nat) : trim_slashes d n ≤ n := by
  induction n with
  | zero => simp [trim_slashes]
  | succ n ih =>
    simp only [trim_slashes]
    split
    · omega
    · omega

theorem add_exclude_sizes (a : Bool) (lst : List edir) (d : cstring) (w : Bool)
    (h : ∀ e ∈ lst, e.size = e.directory.length) :
    ∀ e ∈ (add_exclude a lst d w).exclude_lst, e.size = e.directory.length := by
  unfold add_exclude
  split
  · exact h
  · split
    · exact h
    · split
      · exact h
      · intro e he
        simp only [List.mem_append, List.mem_singleton] at he
        rcases he with he | rfl
        · exact h e he
        · have := trim_slashes_le d d.length
          simp [List.length_take, this]

theorem remove_exclude_subset (lst : List edir) (d : cstring) :
    ∀ e ∈ remove_exclude lst d, e ∈ lst := by
  intro e he
  unfold remove_exclude at he
  split at he
  · exact he
  · split at he
    · exact he
    · rename_i last hlast
      have hl : last ∈ lst := List.mem_of_getLast?_eq_some hlast
      have he2 := List.mem_of_mem_dropLast he
      split at he2
      · rcases List.mem_or_eq_of_mem_set he2 with h1 | h1
        · exact h1
        · exact h1 ▸ hl
      · exact he2

theorem exclude_run_sizes (ops : List exclude_op) (lst : List edir)
    (h : ∀ e ∈ lst, e.size = e.directory.length) :
    ∀ e ∈ exclude_run ops lst, e.size = e.directory.length := by
  induction ops generalizing lst with
  | nil => exact h
  | cons op ops ih =>
    cases op with
    | add a d w => exact ih _ (add_exclude_sizes a lst d w h)
    | remove d => exact ih _ (fun e he => h e (remove_exclude_subset lst d e he))

theorem check_excluded_iff (lst : List edir) (file : cstring)
    (h : ∀ e ∈ lst, e.size = e.directory.length) :
    check_excluded lst file = 1 ↔
      ∃ e ∈ lst, file = e.directory ∨ ∃ rest, file = e.directory ++ '/' :: rest := by
  induction lst with
  | nil => simp [check_excluded]
  | cons e lst ih =>
    have ih := ih (fun x hx => h x (List.mem_cons_of_mem _ hx))
    have hb := boundary_iff e.directory file e.size (h e (List.mem_cons_self _ _))
    simp only [check_excluded, List.exists_mem_cons_iff]
    rw [← hb, ← ih]
    by_cases hc : strncmp file e.directory e.size = 0 ∧
        (cstr_at file e.size = none ∨ cstr_at file e.size = some '/')
    · rw [if_pos hc]
      simp only [true_iff]
      left
      exact ⟨hc.1, hc.2.symm⟩
    · rw [if_neg hc]
      constructor
      · intro h1; exact Or.inr h1
      · rintro (h1 | h1)
        · exact absurd ⟨h1.1, h1.2.symm⟩ hc
        · exact h1

/-- C3. For every exclusion list built from the empty list by calls of add_exclude
(interleaved with remove_exclude, whatever the allocator does) and every candidate path,
check_excluded returns 1 exactly when some entry's directory equals the candidate or is
followed in the candidate by '/'. -/
theorem check_excluded_boundary (ops : List exclude_op) (file : cstring) :
    check_excluded (exclude_run ops []) file = 1 ↔
      ∃ e ∈ exclude_run ops [],
        file = e.directory ∨ ∃ rest, file = e.directory ++ '/' :: rest :=
  check_excluded_iff _ file (exclude_run_sizes ops [] (by simp))

theorem filespec_scan_inos (ls : cstring → Option Nat) (ino : Nat) (con file : cstring)
    (l : List file_spec_t) :
    ∀ r ∈ (filespec_scan ls ino con file l).2, r.ino = ino ∨ ∃ q ∈ l, q.ino = r.ino := by
  induction l with
  | nil => simp [filespec_scan]
  | cons fl next ih =>
    intro r hr
    simp only [filespec_scan] at hr
    split at hr
    · rename_i heq
      split at hr
      · rcases List.mem_cons.mp hr with h | h
        · left; rw [h]; exact heq.symm
        · right; exact ⟨r, List.mem_cons_of_mem _ h, rfl⟩
      · split at hr
        · right; exact ⟨r, hr, rfl⟩
        · rcases List.mem_cons.mp hr with h | h
          · left; rw [h]; exact heq.symm
          · right; exact ⟨r, List.mem_cons_of_mem _ h, rfl⟩
    · split at hr
      · rcases List.mem_cons.mp hr with h | h
        · left; rw [h]
        · right; exact ⟨r, h, rfl⟩
      · rcases List.mem_cons.mp hr with h | h
        · right; exact ⟨fl, List.mem_cons_self _ _, by rw [h]⟩
        · rcases ih r h with h1 | ⟨q, hq, hqr⟩
          · left; exact h1
          · right; exact ⟨q, List.mem_cons_of_mem _ hq, hqr⟩

theorem filespec_scan_desc (ls : cstring → Option Nat) (ino : Nat) (con file : cstring)
    (l : List file_spec_t) (hl : chain_desc l) :
    chain_desc (filespec_scan ls ino con file l).2 := by
  unfold chain_desc at *
  induction l with
  | nil => simp [filespec_scan]
  | cons fl next ih =>
    have hnext := (List.pairwise_cons.mp hl).2
    have hhead := (List.pairwise_cons.mp hl).1
    simp only [filespec_scan]
    split
    · split
      · exact List.pairwise_cons.mpr ⟨hhead, hnext⟩
      · split
        · exact hl
        · exact List.pairwise_cons.mpr ⟨hhead, hnext⟩
    · rename_i hne
      split
      · rename_i hgt
        refine List.pairwise_cons.mpr ⟨?_, hl⟩
        intro b hb
        rcases List.mem_cons.mp hb with h | h
        · rw [h]; exact hgt
        · exact lt_trans (hhead b h) hgt
      · rename_i hngt
        refine List.pairwise_cons.mpr ⟨?_, ih hnext⟩
        intro b hb
        rcases filespec_scan_inos ls ino con file next b hb with h | ⟨q, hq, hqb⟩
        · rw [h]; omega
        · rw [← hqb]; exact hhead q hq

theorem filespec_add_chain (ls : cstring → Option Nat) (t : Option fl_table)
    (ino : Nat) (con file : cstring) (h : Nat) :
    fl_chain (filespec_add ls t ino con file).2 h =
      if h = filespec_hash ino
      then (filespec_scan ls ino con file (fl_chain t (filespec_hash ino))).2
      else fl_chain t h := by
  cases t <;> simp [filespec_add, fl_chain, Function.update_apply]

theorem filespec_add_fst (ls : cstring → Option Nat) (t : Option fl_table)
    (ino : Nat) (con file : cstring) :
    (filespec_add ls t ino con file).1 =
      (filespec_scan ls ino con file (fl_chain t (filespec_hash ino))).1 := by
  cases t <;> simp [filespec_add, fl_chain]

theorem filespec_add_wf (ls : cstring → Option Nat) (t : Option fl_table)
    (ino : Nat) (con file : cstring) (ht : fl_wf t) :
    fl_wf (filespec_add ls t ino con file).2 := by
  intro h
  rw [filespec_add_chain]
  by_cases hh : h = filespec_hash ino
  · rw [if_pos hh]
    refine ⟨filespec_scan_desc _ _ _ _ _ (ht _).1, ?_⟩
    intro r hr
    rcases filespec_scan_inos ls ino con file _ r hr with h1 | ⟨q, hq, hqr⟩
    · rw [h1, hh]
    · rw [← hqr, (ht _).2 q hq, hh]
  · rw [if_neg hh]
    exact ht h

theorem fl_wf_none : fl_wf none := by
  intro h
  simp [fl_chain, chain_desc]

theorem filespec_run_wf (calls : List filespec_call) (t : Option fl_table) (ht : fl_wf t) :
    fl_wf (filespec_run calls t) := by
  induction calls generalizing t with
  | nil => exact ht
  | cons c cs ih => exact ih _ (filespec_add_wf _ _ _ _ _ ht)

theorem chain_desc_unique (l : List file_spec_t) (hl : chain_desc l) (a b : file_spec_t)
    (ha : a ∈ l) (hb : b ∈ l) (hab : a.ino = b.ino) : a = b := by
  unfold chain_desc at hl
  induction l with
  | nil => cases ha
  | cons x l ih =>
    have hhead := (List.pairwise_cons.mp hl).1
    have hnext := (List.pairwise_cons.mp hl).2
    rcases List.mem_cons.mp ha with h1 | h1
    · rcases List.mem_cons.mp hb with h2 | h2
      · rw [h1, h2]
      · have := hhead b h2
        rw [h1] at hab
        omega
    · rcases List.mem_cons.mp hb with h2 | h2
      · have := hhead a h1
        rw [h2] at hab
        omega
      · exact ih hnext h1 h2

theorem fl_wf_unique (t : Option fl_table) (ht : fl_wf t) (a b : file_spec_t)
    (ha : fl_holds t a) (hb : fl_holds t b) (hab : a.ino = b.ino) : a = b := by
  obtain ⟨h1, ha⟩ := ha
  obtain ⟨h2, hb⟩ := hb
  have e1 := (ht h1).2 a ha
  have e2 := (ht h2).2 b hb
  have : h1 = h2 := by rw [← e1, ← e2, hab]
  subst this
  exact chain_desc_unique _ (ht h1).1 a b ha hb hab

theorem filespec_scan_conflict (ls : cstring → Option Nat) (ino : Nat)
    (c1 f1 c2 f2 : cstring) (l : List file_spec_t) (hl : chain_desc l)
    (hmem : (⟨ino, c1, f1⟩ : file_spec_t) ∈ l) (hne : c2 ≠ c1) (hstat : ls f1 = some ino) :
    (filespec_scan ls ino c2 f2 l).1 = 1 ∧
      (⟨ino, c1, f2⟩ : file_spec_t) ∈ (filespec_scan ls ino c2 f2 l).2 := by
  unfold chain_desc at hl
  induction l with
  | nil => cases hmem
  | cons fl next ih =>
    have hhead := (List.pairwise_cons.mp hl).1
    have hnext := (List.pairwise_cons.mp hl).2
    simp only [filespec_scan]
    rcases List.mem_cons.mp hmem with h | h
    · subst h
      have hs : ¬ strcmp c1 c2 = 0 := by
        rw [strcmp_eq_zero_iff]; exact fun e => hne e.symm
      simp [hstat, hs]
    · have hlt : ino < fl.ino := hhead _ h
      have h1 : ¬ ino = fl.ino := by omega
      have h2 : ¬ ino > fl.ino := by omega
      rw [if_neg h1, if_neg h2]
      have := ih hnext h
      exact ⟨this.1, List.mem_cons_of_mem _ this.2⟩

theorem filespec_add_conflict (ls : cstring → Option Nat) (t : Option fl_table) (ht : fl_wf t)
    (ino : Nat) (c1 f1 c2 f2 : cstring) (hrec : fl_holds t ⟨ino, c1, f1⟩)
    (hne : c2 ≠ c1) (hstat : ls f1 = some ino) :
    (filespec_add ls t ino c2 f2).1 = 1 ∧
      fl_holds (filespec_add ls t ino c2 f2).2 ⟨ino, c1, f2⟩ := by
  obtain ⟨h, hmem⟩ := hrec
  have hh : h = filespec_hash ino := ((ht h).2 _ hmem).symm
  subst hh
  have := filespec_scan_conflict ls ino c1 f1 c2 f2 _ (ht _).1 hmem hne hstat
  rw [filespec_add_fst]
  refine ⟨this.1, filespec_hash ino, ?_⟩
  rw [filespec_add_chain, if_pos rfl]
  exact this.2

theorem conflict_run_first_wins (ino : Nat) (c1 : cstring) (cs : List conflict_call)
    (t : Option fl_table) (ht : fl_wf t) (f : cstring) (hrec : fl_holds t ⟨ino, c1, f⟩)
    (hok : conflict_calls_ok ino c1 f cs) :
    (∀ rc ∈ (conflict_run ino cs t).1, rc = 1) ∧
      fl_wf (conflict_run ino cs t).2 ∧
      ∃ f9, fl_holds (conflict_run ino cs t).2 ⟨ino, c1, f9⟩ := by
  induction cs generalizing t f with
  | nil => exact ⟨by simp [conflict_run], ht, f, hrec⟩
  | cons c cs ih =>
    obtain ⟨hne, hstat, hrest⟩ := hok
    have h1 := filespec_add_conflict c.lstat64 t ht ino c1 f c.con c.file hrec hne hstat
    have hwf := filespec_add_wf c.lstat64 t ino c.con c.file ht
    have := ih _ hwf c.file h1.2 hrest
    simp only [conflict_run]
    refine ⟨?_, this.2.1, this.2.2⟩
    intro rc hrc
    rcases List.mem_cons.mp hrc with h | h
    · rw [h]; exact h1.1
    · exact this.1 rc h

/-- C4. In an association table built by filespec_add calls that holds a record
(ino, c1, f1), a call filespec_add(ino, c2, f2) with c2 different from c1 whose re-stat of
f1 still reports ino returns 1 (Superseded), and afterwards the only record for ino is
(ino, c1, f2); over any sequence of such calls for ino every call returns 1 and every
record stored for ino still carries the first context c1. -/
theorem filespec_add_superseded (calls : List filespec_call) (lstat64 : cstring → Option Nat)
    (ino : Nat) (c1 f1 c2 f2 : cstring)
    (hrec : fl_holds (filespec_run calls none) ⟨ino, c1, f1⟩)
    (hne : c2 ≠ c1) (hstat : lstat64 f1 = some ino) :
    ((filespec_add lstat64 (filespec_run calls none) ino c2 f2).1 = 1 ∧
      fl_holds (filespec_add lstat64 (filespec_run calls none) ino c2 f2).2 ⟨ino, c1, f2⟩ ∧
      ∀ r, fl_holds (filespec_add lstat64 (filespec_run calls none) ino c2 f2).2 r →
        r.ino = ino → r = ⟨ino, c1, f2⟩) ∧
    ∀ cs, conflict_calls_ok ino c1 f1 cs →
      (∀ rc ∈ (conflict_run ino cs (filespec_run calls none)).1, rc = 1) ∧
      (∃ r, fl_holds (conflict_run ino cs (filespec_run calls none)).2 r ∧ r.ino = ino) ∧
      ∀ r, fl_holds (conflict_run ino cs (filespec_run calls none)).2 r →
        r.ino = ino → r.con = c1 := by
  have ht := filespec_run_wf calls none fl_wf_none
  constructor
  · have h1 := filespec_add_conflict lstat64 _ ht ino c1 f1 c2 f2 hrec hne hstat
    have hwf := filespec_add_wf lstat64 _ ino c2 f2 ht
    refine ⟨h1.1, h1.2, ?_⟩
    intro r hr hino
    exact fl_wf_unique _ hwf r _ hr h1.2 hino
  · intro cs hok
    obtain ⟨hrc, hwf, f9, hf9⟩ := conflict_run_first_wins ino c1 cs _ ht f1 hrec hok
    refine ⟨hrc, ⟨_, hf9, rfl⟩, ?_⟩
    intro r hr hino
    have := fl_wf_unique _ hwf r _ hr hf9 hino
    rw [this]

/-- C4 instance. A table built by one insertion for inode 42: the conflicting second call
returns 1, keeps context C1 and takes over the new path. -/
theorem filespec_add_superseded_witness :
    (filespec_add (fun _ => some 42)
        (filespec_run [⟨fun _ => none, 42, "C1".toList, "/a/x".toList⟩] none)
        42 "C2".toList "/a/y".toList).1 = 1 ∧
      fl_holds (filespec_add (fun _ => some 42)
        (filespec_run [⟨fun _ => none, 42, "C1".toList, "/a/x".toList⟩] none)
        42 "C2".toList "/a/y".toList).2 ⟨42, "C1".toList, "/a/y".toList⟩ :=
  have h := (filespec_add_superseded [⟨fun _ => none, 42, "C1".toList, "/a/x".toList⟩]
    (fun _ => some 42) 42 "C1".toList "/a/x".toList "C2".toList "/a/y".toList
    ⟨42, by decide⟩ (by decide) rfl).1
  ⟨h.1, h.2.1⟩

/-- C5. The table holds (42, C1, /a/x); the recorded file no longer re-stats. Adding
(42, C2, /a/y) replaces the record by (42, C2, /a/y), yet filespec_add returns 1, the value
of a Superseded conflict, while a first-time insertion returns 0; restorecon_sb then
returns 0 for /a/y without reading or writing its context. -/
theorem filespec_add_stale_returns_one :
    (filespec_add (fun _ => none) none 42 "C1".toList "/a/x".toList).1 = 0 ∧
    (filespec_add (fun _ => none)
        (filespec_run [⟨fun _ => none, 42, "C1".toList, "/a/x".toList⟩] none)
        42 "C2".toList "/a/y".toList).1 = 1 ∧
    fl_chain (filespec_add (fun _ => none)
        (filespec_run [⟨fun _ => none, 42, "C1".toList, "/a/x".toList⟩] none)
        42 "C2".toList "/a/y".toList).2 42 = [⟨42, "C2".toList, "/a/y".toList⟩] ∧
    (filespec_add (fun _ => some 42)
        (filespec_run [⟨fun _ => none, 42, "C1".toList, "/a/x".toList⟩] none)
        42 "C2".toList "/a/y".toList).1 = 1 ∧
    (restorecon_sb none 0 (sample_handle "C2".toList none)
        (sample_env (Except.ok "C0".toList) none 0) "/a/y".toList ⟨0o100644, 42, 1⟩
        { no_flags with add_assoc := true }
        ⟨filespec_run [⟨fun _ => none, 42, "C1".toList, "/a/x".toList⟩] none, 0⟩).rc = some 0 ∧
    (restorecon_sb none 0 (sample_handle "C2".toList none)
        (sample_env (Except.ok "C0".toList) none 0) "/a/y".toList ⟨0o100644, 42, 1⟩
        { no_flags with add_assoc := true }
        ⟨filespec_run [⟨fun _ => none, 42, "C1".toList, "/a/x".toList⟩] none, 0⟩).events =
      [event.lookup "/a/y".toList "/a/y".toList 0o100644] := by
  refine ⟨by decide, by decide, by decide, by decide, by decide, by decide⟩

/-- C6. The current context u:r:custom_t:s0 is customizable and differs from the looked-up
context u:r:other_t:s0; restorecon_sb runs without the force flag. With the verbose flag set
the object is left alone, but with the verbose flag clear the context is overwritten. -/
theorem restorecon_sb_customizable_overwritten :
    (restorecon_sb none 0 (sample_handle "u:r:other_t:s0".toList none)
        (sample_env (Except.ok "u:r:custom_t:s0".toList) none 1) "/a/f".toList
        ⟨0o100644, 7, 1⟩ no_flags ⟨none, 0⟩).events =
      [event.lookup "/a/f".toList "/a/f".toList 0o100644, event.getfilecon "/a/f".toList,
        event.setfilecon "/a/f".toList "u:r:other_t:s0".toList] ∧
    (restorecon_sb none 0 (sample_handle "u:r:other_t:s0".toList none)
        (sample_env (Except.ok "u:r:custom_t:s0".toList) none 1) "/a/f".toList
        ⟨0o100644, 7, 1⟩ { no_flags with verbose := true } ⟨none, 0⟩).events =
      [event.lookup "/a/f".toList "/a/f".toList 0o100644, event.getfilecon "/a/f".toList] := by
  refine ⟨by decide, by decide⟩

theorem int_or_zero_left (b : Int) : int_or 0 b = b := by simp [int_or]

/-- C7. When restorecon_sb reaches an object whose current context cur exists and differs
from the looked-up context new, without the force flag, not blocked as customized and not
in dry-run: if the type fields differ the only context written is (user of cur, role of
cur, type of new, range of cur), and it is written exactly once when the field updates
succeed; if the type fields are equal nothing is written and the result is 0. -/
theorem restorecon_sb_type_only (rootpath : Option cstring) (rootpathlen : Nat)
    (hnd : selabel_handle) (env : sys_env) (pathname : cstring) (sb : struct_stat)
    (flags : rest_flags) (st : sb_state) (key new cur : cstring) (a b : context_t)
    (hkey : sb_lookup_key rootpath rootpathlen pathname = some key)
    (hlook : selabel_lookup_raw hnd key sb.st_mode = Except.ok new)
    (hassoc : flags.add_assoc = true →
      (filespec_add env.lstat64 st.fl_head sb.st_ino new pathname).1 = 0)
    (hcur : env.lgetfilecon_raw pathname = Except.ok cur)
    (hdiff : cur ≠ new)
    (hforce : flags.set_specctx = false)
    (hblock : ¬ (env.is_context_customizable cur > 0 ∧ flags.verbose = true))
    (hdry : flags.nochange = false)
    (ha : env.context_new cur = some a) (hb : env.context_new new = some b) :
    (a.type ≠ b.type →
      (∀ p c, event.setfilecon p c ∈
          (restorecon_sb rootpath rootpathlen hnd env pathname sb flags st).events →
        p = pathname ∧ c = env.context_str ⟨a.user, a.role, b.type, a.range⟩) ∧
      ((∀ c s, env.context_user_set c s = 0 ∧ env.context_role_set c s = 0 ∧
          env.context_range_set c s = 0) →
        (restorecon_sb rootpath rootpathlen hnd env pathname sb flags st).rc =
            (if env.lsetfilecon pathname (env.context_str ⟨a.user, a.role, b.type, a.range⟩) < 0
              then some (-1) else some 0) ∧
        (restorecon_sb rootpath rootpathlen hnd env pathname sb flags st).events =
          [event.lookup pathname key sb.st_mode, event.getfilecon pathname,
            event.setfilecon pathname (env.context_str ⟨a.user, a.role, b.type, a.range⟩)])) ∧
    (a.type = b.type →
      (restorecon_sb rootpath rootpathlen hnd env pathname sb flags st).rc = some 0 ∧
      (restorecon_sb rootpath rootpathlen hnd env pathname sb flags st).events =
        [event.lookup pathname key sb.st_mode, event.getfilecon pathname]) := by
  have hs : ¬ strcmp cur new = 0 := by rw [strcmp_eq_zero_iff]; exact hdiff
  have hA : (if flags.add_assoc = true
      then filespec_add env.lstat64 st.fl_head sb.st_ino new pathname
      else (0, st.fl_head)).1 = 0 := by
    by_cases h : flags.add_assoc = true
    · rw [if_pos h]; exact hassoc h
    · rw [if_neg h]
  have hblock2 : ¬ (0 < env.is_context_customizable cur ∧ flags.verbose = true) := hblock
  constructor
  · intro hty
    have hst : ¬ strcmp a.type b.type = 0 := by rw [strcmp_eq_zero_iff]; exact hty
    have hct : compare_types env cur new =
        if int_or (int_or (int_or 0 (env.context_user_set b a.user))
            (env.context_role_set ⟨a.user, b.role, b.type, b.range⟩ a.role))
            (env.context_range_set ⟨a.user, a.role, b.type, b.range⟩ a.range) = 0
        then (0, some (env.context_str ⟨a.user, a.role, b.type, a.range⟩))
        else (int_or (int_or (int_or 0 (env.context_user_set b a.user))
            (env.context_role_set ⟨a.user, b.role, b.type, b.range⟩ a.role))
            (env.context_range_set ⟨a.user, a.role, b.type, b.range⟩ a.range), none) := by
      simp [compare_types, ha, hb, hst]
    constructor
    · intro p c hmem
      simp only [restorecon_sb, hkey, hlook, hA, hcur, hforce, hdry, hct] at hmem
      by_cases hrc : int_or (int_or (int_or 0 (env.context_user_set b a.user))
            (env.context_role_set ⟨a.user, b.role, b.type, b.range⟩ a.role))
            (env.context_range_set ⟨a.user, a.role, b.type, b.range⟩ a.range) = 0
      · by_cases hl : env.lsetfilecon pathname
            (env.context_str ⟨a.user, a.role, b.type, a.range⟩) < 0
        · simp [hrc, hs, hblock2, hl] at hmem
          exact hmem
        · simp [hrc, hs, hblock2, hl] at hmem
          exact hmem
      · simp [hrc, hs, hblock2] at hmem
    · intro hset
      have hrc : int_or (int_or (int_or 0 (env.context_user_set b a.user))
            (env.context_role_set ⟨a.user, b.role, b.type, b.range⟩ a.role))
            (env.context_range_set ⟨a.user, a.role, b.type, b.range⟩ a.range) = 0 := by
        simp [hset, int_or_zero_left]
      simp only [restorecon_sb, hkey, hlook, hA, hcur, hforce, hdry, hct]
      by_cases hl : env.lsetfilecon pathname
          (env.context_str ⟨a.user, a.role, b.type, a.range⟩) < 0
      · simp [hrc, hs, hblock2, hl]
      · simp [hrc, hs, hblock2, hl]
  · intro hty
    have hst : strcmp a.type b.type = 0 := by rw [strcmp_eq_zero_iff]; exact hty
    simp only [restorecon_sb, hkey, hlook, hA, hcur, hforce, hdry, compare_types, ha, hb]
    simp [hs, hst, hblock2]

theorem fts_walk_skip (g : globals) (hnd : selabel_handle) (flags : rest_flags) (issys : Bool)
    (dev_num : Nat) (items : List fts_item) (k : Nat) (ws : walk_state) :
    fts_walk g hnd flags issys dev_num items k ws =
      fts_walk g hnd flags issys dev_num (items.drop k) 0 ws := by
  induction items generalizing k with
  | nil => cases k <;> simp [fts_walk]
  | cons it rest ih =>
    cases k with
    | zero => simp
    | succ k => simp only [fts_walk, List.drop_succ_cons]; exact ih k

theorem fts_walk_events (g : globals) (hnd : selabel_handle) (flags : rest_flags) (issys : Bool)
    (dev_num : Nat) (items : List fts_item) (k : Nat) (ws : walk_state) :
    ∃ tail, (fts_walk g hnd flags issys dev_num items k ws).2.2.events = ws.events ++ tail := by
  induction items generalizing k ws with
  | nil => exact ⟨[], by simp [fts_walk]⟩
  | cons it rest ih =>
    cases k with
    | succ k => simp only [fts_walk]; exact ih k ws
    | zero =>
      have hproc : ∃ tail,
          (match (restorecon_sb g.rootpath g.rootpathlen hnd it.env it.ftsent.fts_path
              it.ftsent.fts_statp flags ws.sb).rc with
            | none => ((walk_end.fault, none, ⟨ws.error, ws.events ++
                (restorecon_sb g.rootpath g.rootpathlen hnd it.env it.ftsent.fts_path
                  it.ftsent.fts_statp flags ws.sb).events,
                (restorecon_sb g.rootpath g.rootpathlen hnd it.env it.ftsent.fts_path
                  it.ftsent.fts_statp flags ws.sb).st⟩) :
                  walk_end × Option Errno × walk_state)
            | some rc =>
              if (int_or ws.error rc ≠ 0 ∧ flags.abort_on_error = true) then
                (walk_end.out, none, ⟨int_or ws.error rc, ws.events ++
                  (restorecon_sb g.rootpath g.rootpathlen hnd it.env it.ftsent.fts_path
                    it.ftsent.fts_statp flags ws.sb).events,
                  (restorecon_sb g.rootpath g.rootpathlen hnd it.env it.ftsent.fts_path
                    it.ftsent.fts_statp flags ws.sb).st⟩)
              else fts_walk g hnd flags issys dev_num rest 0 ⟨int_or ws.error rc, ws.events ++
                  (restorecon_sb g.rootpath g.rootpathlen hnd it.env it.ftsent.fts_path
                    it.ftsent.fts_statp flags ws.sb).events,
                  (restorecon_sb g.rootpath g.rootpathlen hnd it.env it.ftsent.fts_path
                    it.ftsent.fts_statp flags ws.sb).st⟩).2.2.events = ws.events ++ tail := by
        split
        · exact ⟨_, rfl⟩
        · split
          · exact ⟨_, rfl⟩
          · obtain ⟨tail, ht⟩ := ih 0 ⟨int_or ws.error _, ws.events ++
                (restorecon_sb g.rootpath g.rootpathlen hnd it.env it.ftsent.fts_path
                  it.ftsent.fts_statp flags ws.sb).events,
                (restorecon_sb g.rootpath g.rootpathlen hnd it.env it.ftsent.fts_path
                  it.ftsent.fts_statp flags ws.sb).st⟩
            exact ⟨_, by rw [ht, List.append_assoc]⟩
      simp only [fts_walk]
      split
      · exact ih 0 ws
      · split
        · exact ⟨[], by simp⟩
        · exact ih 0 ws
        · exact ih _ ws
        · exact ih _ ws
        · exact ih _ ws
        · split
          · exact ih _ ws
          · split
            · exact ih _ ws
            · exact hproc
        · exact hproc

theorem fts_walk_process_events (g : globals) (hnd : selabel_handle) (flags : rest_flags)
    (issys : Bool) (dev_num : Nat) (it : fts_item) (rest : List fts_item) (ws : walk_state) :
    ∃ tail,
      (match (restorecon_sb g.rootpath g.rootpathlen hnd it.env it.ftsent.fts_path
          it.ftsent.fts_statp flags ws.sb).rc with
        | none => ((walk_end.fault, none, ⟨ws.error, ws.events ++
            (restorecon_sb g.rootpath g.rootpathlen hnd it.env it.ftsent.fts_path
              it.ftsent.fts_statp flags ws.sb).events,
            (restorecon_sb g.rootpath g.rootpathlen hnd it.env it.ftsent.fts_path
              it.ftsent.fts_statp flags ws.sb).st⟩) :
              walk_end × Option Errno × walk_state)
        | some rc =>
          if (int_or ws.error rc ≠ 0 ∧ flags.abort_on_error = true) then
            (walk_end.out, none, ⟨int_or ws.error rc, ws.events ++
              (restorecon_sb g.rootpath g.rootpathlen hnd it.env it.ftsent.fts_path
                it.ftsent.fts_statp flags ws.sb).events,
              (restorecon_sb g.rootpath g.rootpathlen hnd it.env it.ftsent.fts_path
                it.ftsent.fts_statp flags ws.sb).st⟩)
          else fts_walk g hnd flags issys dev_num rest 0 ⟨int_or ws.error rc, ws.events ++
              (restorecon_sb g.rootpath g.rootpathlen hnd it.env it.ftsent.fts_path
                it.ftsent.fts_statp flags ws.sb).events,
              (restorecon_sb g.rootpath g.rootpathlen hnd it.env it.ftsent.fts_path
                it.ftsent.fts_statp flags ws.sb).st⟩).2.2.events =
        ws.events ++ (restorecon_sb g.rootpath g.rootpathlen hnd it.env it.ftsent.fts_path
          it.ftsent.fts_statp flags ws.sb).events ++ tail := by
  split
  · exact ⟨[], by simp⟩
  · split
    · exact ⟨[], by simp⟩
    · exact fts_walk_events g hnd flags issys dev_num rest 0 _

/-- Exclusion in the walk of selinux_restorecon: a pre-order directory entry whose path
is excluded by check_excluded is handed to no lookup and no context write, and the walk
resumes after the entries below it (after the entry itself when it lies on another device
under the stay-on-device flag); an entry that is not excluded and is neither a
cycle, a post-order visit, an unreadable directory nor a failed stat, that is a pre-order
directory or a non-directory, is processed by restorecon_sb, whose lookups and writes are
appended to the trace (on the walk's device, and outside the /sys partial-match pruning). -/
theorem fts_walk_exclusion (g : globals) (hnd : selabel_handle) (flags : rest_flags)
    (issys : Bool) (dev_num : Nat) (it : fts_item) (rest : List fts_item) (ws : walk_state) :
    (it.ftsent.fts_info = fts_info_t.FTS_D →
      check_excluded g.exclude_lst it.ftsent.fts_path = 1 →
      fts_walk g hnd flags issys dev_num (it :: rest) 0 ws =
        fts_walk g hnd flags issys dev_num
          (if flags.set_xdev = true ∧ it.ftsent.fts_statp.st_dev ≠ dev_num then rest
           else rest.drop it.below) 0 ws) ∧
    (check_excluded g.exclude_lst it.ftsent.fts_path = 0 →
      ¬ (flags.set_xdev = true ∧ it.ftsent.fts_statp.st_dev ≠ dev_num) →
      it.ftsent.fts_info ≠ fts_info_t.FTS_DC → it.ftsent.fts_info ≠ fts_info_t.FTS_DP →
      it.ftsent.fts_info ≠ fts_info_t.FTS_DNR → it.ftsent.fts_info ≠ fts_info_t.FTS_NS →
      it.ftsent.fts_info ≠ fts_info_t.FTS_ERR →
      (it.ftsent.fts_info = fts_info_t.FTS_D →
        ¬ (issys = true ∧ selabel_partial_match hnd it.ftsent.fts_path = false)) →
      ∃ tail, (fts_walk g hnd flags issys dev_num (it :: rest) 0 ws).2.2.events =
        ws.events ++ (restorecon_sb g.rootpath g.rootpathlen hnd it.env it.ftsent.fts_path
          it.ftsent.fts_statp flags ws.sb).events ++ tail) := by
  constructor
  · intro hD hex
    by_cases hx : flags.set_xdev = true ∧ it.ftsent.fts_statp.st_dev ≠ dev_num
    · rw [if_pos hx]
      simp only [fts_walk]
      rw [if_pos hx]
    · rw [if_neg hx, ← fts_walk_skip]
      simp only [fts_walk]
      rw [if_neg hx]
      simp only [hD, hex]
      split
      · rfl
      · simp
  · intro hex hx hdc hdp hdnr hns herr hsys
    have hp := fts_walk_process_events g hnd flags issys dev_num it rest ws
    simp only [fts_walk]
    rw [if_neg hx]
    cases hk : it.ftsent.fts_info with
    | FTS_D =>
      have hsys2 : ¬ (issys = true ∧ (!selabel_partial_match hnd it.ftsent.fts_path) = true) := by
        simpa using hsys hk
      simp only [hex]
      rw [if_neg hsys2]
      simp only [ne_eq, not_true_eq_false, if_false]
      exact hp
    | FTS_DC => exact absurd hk hdc
    | FTS_DP => exact absurd hk hdp
    | FTS_DNR => exact absurd hk hdnr
    | FTS_NS => exact absurd hk hns
    | FTS_ERR => exact absurd hk herr
    | FTS_DEFAULT => exact hp
    | FTS_DOT => exact hp
    | FTS_F => exact hp
    | FTS_INIT => exact hp
    | FTS_NSOK => exact hp
    | FTS_SL => exact hp
    | FTS_SLNONE => exact hp
    | FTS_W => exact hp

/-- C8. The file /a/f is on the exclusion list. A non-recursive call for /a/f tests
check_excluded and does nothing, but the walk rooted at /a visits /a/f as a non-directory
entry, does not test the list and relabels it. The same holds for a file below an excluded
directory: with /a excluded, the recursive call for /a/f relabels it and the non-recursive
call leaves it alone. -/
theorem fts_walk_excluded_file_processed :
    check_excluded (sample_globals (sample_handle "u:r:b_t:s0".toList none)
        (add_exclude true [] "/a/f".toList true).exclude_lst).exclude_lst "/a/f".toList = 1 ∧
    (selinux_restorecon (sample_globals (sample_handle "u:r:b_t:s0".toList none)
        (add_exclude true [] "/a/f".toList true).exclude_lst) (sample_top sample_items)
        "/a".toList { no_flags with recurse := true } ⟨fun _ => none, none, 0⟩).events =
      [event.fts_open "/a".toList,
       event.lookup "/a".toList "/a".toList 0o040755, event.getfilecon "/a".toList,
       event.lookup "/a/f".toList "/a/f".toList 0o100644, event.getfilecon "/a/f".toList,
       event.setfilecon "/a/f".toList "u:r:b_t:s0".toList] ∧
    (selinux_restorecon (sample_globals (sample_handle "u:r:b_t:s0".toList none)
        (add_exclude true [] "/a/f".toList true).exclude_lst)
        { sample_top [] with lstat := fun _ => Except.ok ⟨0o100644, 3, 1⟩ }
        "/a/f".toList no_flags ⟨fun _ => none, none, 0⟩).rc = some 0 ∧
    (selinux_restorecon (sample_globals (sample_handle "u:r:b_t:s0".toList none)
        (add_exclude true [] "/a/f".toList true).exclude_lst)
        { sample_top [] with lstat := fun _ => Except.ok ⟨0o100644, 3, 1⟩ }
        "/a/f".toList no_flags ⟨fun _ => none, none, 0⟩).events = [] ∧
    check_excluded (sample_globals (sample_handle "u:r:b_t:s0".toList none)
        (add_exclude true [] "/a".toList true).exclude_lst).exclude_lst "/a/f".toList = 1 ∧
    (selinux_restorecon (sample_globals (sample_handle "u:r:b_t:s0".toList none)
        (add_exclude true [] "/a".toList true).exclude_lst)
        { sample_top [sample_file] with lstat := fun _ => Except.ok ⟨0o100644, 3, 1⟩ }
        "/a/f".toList { no_flags with recurse := true } ⟨fun _ => none, none, 0⟩).events =
      [event.fts_open "/a/f".toList,
       event.lookup "/a/f".toList "/a/f".toList 0o100644, event.getfilecon "/a/f".toList,
       event.setfilecon "/a/f".toList "u:r:b_t:s0".toList] ∧
    (selinux_restorecon (sample_globals (sample_handle "u:r:b_t:s0".toList none)
        (add_exclude true [] "/a".toList true).exclude_lst)
        { sample_top [sample_file] with lstat := fun _ => Except.ok ⟨0o100644, 3, 1⟩ }
        "/a/f".toList no_flags ⟨fun _ => none, none, 0⟩).events = [] := by
  refine ⟨by decide, by decide, by decide, by decide, by decide, by decide, by decide⟩

/-- C9. The handle carries no digest (fc_digest is NULL, fc_digest_len is 0) and the
directory /a holds an empty security.restorecon_last attribute: the recursive call returns
0 without opening the traversal, although the same call with no stored attribute walks the
tree. -/
theorem restorecon_skips_without_digest :
    (sample_globals (sample_handle "u:r:b_t:s0".toList none) []).fc_digest = none ∧
    (selinux_restorecon (sample_globals (sample_handle "u:r:b_t:s0".toList none) [])
        (sample_top sample_items) "/a".toList { no_flags with recurse := true }
        ⟨fun _ => some [], none, 0⟩).rc = some 0 ∧
    (selinux_restorecon (sample_globals (sample_handle "u:r:b_t:s0".toList none) [])
        (sample_top sample_items) "/a".toList { no_flags with recurse := true }
        ⟨fun _ => some [], none, 0⟩).events = [] ∧
    (selinux_restorecon (sample_globals (sample_handle "u:r:b_t:s0".toList none) [])
        (sample_top sample_items) "/a".toList { no_flags with recurse := true }
        ⟨fun _ => none, none, 0⟩).events =
      [event.fts_open "/a".toList,
       event.lookup "/a".toList "/a".toList 0o040755, event.getfilecon "/a".toList,
       event.lookup "/a/f".toList "/a/f".toList 0o100644, event.getfilecon "/a/f".toList,
       event.setfilecon "/a/f".toList "u:r:b_t:s0".toList] := by
  refine ⟨by decide, by decide, by decide, by decide⟩

theorem fts_walk_out_error (g : globals) (hnd : selabel_handle) (flags : rest_flags)
    (issys : Bool) (dev_num : Nat) (items : List fts_item) (k : Nat) (ws : walk_state) :
    (fts_walk g hnd flags issys dev_num items k ws).1 = walk_end.out →
      (fts_walk g hnd flags issys dev_num items k ws).2.2.error ≠ 0 := by
  induction items generalizing k ws with
  | nil => simp [fts_walk]
  | cons it rest ih =>
    cases k with
    | succ k => simp only [fts_walk]; exact ih k ws
    | zero =>
      simp only [fts_walk]
      split
      · exact ih 0 ws
      · split
        · intro _; simp
        · exact ih 0 ws
        · exact ih _ ws
        · exact ih _ ws
        · exact ih _ ws
        · split
          · exact ih _ ws
          · split
            · exact ih _ ws
            · split
              · simp
              · split
                · rename_i h3; intro _; exact h3.1
                · exact ih _ _
        · split
          · simp
          · split
            · rename_i h3; intro _; exact h3.1
            · exact ih _ _

theorem digest_matches_stored (g : globals) (d : List Nat) (hdig : g.fc_digest = some d)
    (hlen : g.fc_digest_len ≤ d.length) (hsz : g.fc_digest_len < 2 ^ 64) :
    digest_matches g (some (d.take g.fc_digest_len)) = true := by
  have hl : (d.take g.fc_digest_len).length = g.fc_digest_len := by
    rw [List.length_take]; omega
  by_cases h0 : g.fc_digest_len = 0
  · simp [digest_matches, getxattr, memcmp_eq, hdig, h0]
  · have hmod : ((g.fc_digest_len : Int) % 2 ^ 64).toNat = g.fc_digest_len := by
      have : (g.fc_digest_len : Int) % 2 ^ 64 = (g.fc_digest_len : Int) :=
        Int.emod_eq_of_lt (by omega) (by exact_mod_cast hsz)
      rw [this]; simp
    simp only [digest_matches, getxattr, memcmp_eq, hdig, h0, if_false, hl, le_refl, if_true,
      Option.getD_some, List.take_take, min_self, decide_True, Bool.and_true]
    simpa using hmod

theorem selinux_restorecon_recurse_eq (g : globals) (env : top_env)
    (pathname_orig pathname : cstring) (flags : rest_flags) (st : rc_state)
    (hnd : selabel_handle) (sb : struct_stat)
    (hh : g.fc_sehandle = some hnd)
    (hpath : canonical_pathname env flags.userealpath pathname_orig = Except.ok pathname)
    (hstat : env.lstat pathname = Except.ok sb)
    (hrec : flags.recurse = true) :
    ∃ fl : rest_flags, fl.nochange = flags.nochange ∧ fl.ignore_digest = flags.ignore_digest ∧
      selinux_restorecon g env pathname_orig flags st =
        restorecon_recurse g env hnd fl pathname sb st := by
  by_cases hvp : flags.verbose = true ∧ flags.progress = true
  · exact ⟨{ flags with verbose := false }, rfl, rfl, by
      simp [selinux_restorecon, hvp, hh, hpath, hstat, hrec]⟩
  · exact ⟨flags, rfl, rfl, by simp [selinux_restorecon, hvp, hh, hpath, hstat, hrec]⟩

theorem restorecon_recurse_skip (g : globals) (env : top_env) (hnd : selabel_handle)
    (flags : rest_flags) (pathname : cstring) (sb : struct_stat) (st : rc_state)
    (hign : flags.ignore_digest = false)
    (hel : digest_eligible env pathname sb)
    (hm : digest_matches g (st.xattrs pathname) = true) :
    (restorecon_recurse g env hnd flags pathname sb st).rc = some 0 ∧
      (restorecon_recurse g env hnd flags pathname sb st).events = [] ∧
      (restorecon_recurse g env hnd flags pathname sb st).st.xattrs = st.xattrs := by
  obtain ⟨hdir, hsys, hram, htmp⟩ := hel
  simp [restorecon_recurse, hign, hm, hdir, hsys, hram, htmp, restorecon_cleanup]

theorem restorecon_recurse_success (g : globals) (env : top_env) (hnd : selabel_handle)
    (flags : rest_flags) (pathname : cstring) (sb : struct_stat) (st : rc_state)
    (d : List Nat)
    (hdig : g.fc_digest = some d) (hlen : g.fc_digest_len ≤ d.length)
    (hsz : g.fc_digest_len < 2 ^ 64)
    (hnc : flags.nochange = false)
    (hel : digest_eligible env pathname sb) :
    (restorecon_recurse g env hnd flags pathname sb st).rc = some 0 →
    digest_matches g ((restorecon_recurse g env hnd flags pathname sb st).st.xattrs pathname)
        = true := by
  obtain ⟨hdir, hsys, hram, htmp⟩ := hel
  have hstored := digest_matches_stored g d hdig hlen hsz
  have hsrl : (decide (sb.st_mode &&& S_IFDIR = S_IFDIR) &&
      !decide (strcmp pathname SYS_PATH = 0 ∨ strncmp pathname SYS_PREFIX 5 = 0) &&
      !(decide (env.statfs pathname = some RAMFS_MAGIC) ||
        decide (env.statfs pathname = some TMPFS_MAGIC))) = true := by
    simp [hdir, hram, htmp]
    exact not_or.mp hsys
  simp only [restorecon_recurse, hsrl, hnc, hdig, true_and, Bool.not_false]
  split
  · rename_i hc
    intro _
    simpa [restorecon_cleanup] using hc.2
  · cases hf : env.fts pathname flags.set_xdev with
    | none => simp [restorecon_cleanup]
    | some items =>
      cases items with
      | nil => simp [restorecon_cleanup]
      | cons first rest =>
        simp only []
        split
        · simp
        · rename_i ho
          intro hrc
          have := fts_walk_out_error _ _ _ _ _ _ _ _ ho
          simp only [restorecon_cleanup, Option.some.injEq] at hrc
          exact absurd hrc this
        · split
          · intro hrc
            simp only [restorecon_cleanup, Option.some.injEq] at hrc
            simp [restorecon_cleanup, hrc, hstored]
          · rename_i hc
            intro hrc
            simp only [restorecon_cleanup, Option.some.injEq] at hrc
            exact absurd hrc hc

/-- C10, amended. With a digest-carrying handle, if a recursive call without dry-run on a
digest-eligible directory returns 0, then a following call on the same path with the same
globals, recursing and with the ignore-stored-digest flag clear, returns 0, performs no
lookup, context write, traversal or attribute write (its trace is empty) and leaves the
stored attributes as they were. -/
theorem restorecon_second_run_skips (g : globals) (env1 env2 : top_env)
    (pathname_orig pathname : cstring) (flags1 flags2 : rest_flags) (st : rc_state)
    (d : List Nat) (sb1 sb2 : struct_stat)
    (hdig : g.fc_digest = some d) (hlen : g.fc_digest_len ≤ d.length)
    (hsz : g.fc_digest_len < 2 ^ 64)
    (hrec1 : flags1.recurse = true) (hnc1 : flags1.nochange = false)
    (hrec2 : flags2.recurse = true) (hign2 : flags2.ignore_digest = false)
    (hpath1 : canonical_pathname env1 flags1.userealpath pathname_orig = Except.ok pathname)
    (hpath2 : canonical_pathname env2 flags2.userealpath pathname_orig = Except.ok pathname)
    (hstat1 : env1.lstat pathname = Except.ok sb1)
    (hstat2 : env2.lstat pathname = Except.ok sb2)
    (hel1 : digest_eligible env1 pathname sb1) (hel2 : digest_eligible env2 pathname sb2)
    (hrc : (selinux_restorecon g env1 pathname_orig flags1 st).rc = some 0) :
    (selinux_restorecon g env2 pathname_orig flags2
        (selinux_restorecon g env1 pathname_orig flags1 st).st).rc = some 0 ∧
    (selinux_restorecon g env2 pathname_orig flags2
        (selinux_restorecon g env1 pathname_orig flags1 st).st).events = [] ∧
    (selinux_restorecon g env2 pathname_orig flags2
        (selinux_restorecon g env1 pathname_orig flags1 st).st).st.xattrs =
      (selinux_restorecon g env1 pathname_orig flags1 st).st.xattrs := by
  cases hh : g.fc_sehandle with
  | none => simp [selinux_restorecon, hh] at hrc
  | some hnd =>
    obtain ⟨fl1, hfnc, -, h1⟩ :=
      selinux_restorecon_recurse_eq g env1 pathname_orig pathname flags1 st hnd sb1 hh hpath1
        hstat1 hrec1
    obtain ⟨fl2, -, hfign, h2⟩ :=
      selinux_restorecon_recurse_eq g env2 pathname_orig pathname flags2
        (selinux_restorecon g env1 pathname_orig flags1 st).st hnd sb2 hh hpath2 hstat2 hrec2
    rw [h2]
    have hm : digest_matches g
        ((selinux_restorecon g env1 pathname_orig flags1 st).st.xattrs pathname) = true := by
      rw [h1] at hrc ⊢
      exact restorecon_recurse_success g env1 hnd fl1 pathname sb1 st d hdig hlen hsz
        (hfnc.trans hnc1) hel1 hrc
    exact restorecon_recurse_skip g env2 hnd fl2 pathname sb2 _ (hfign.trans hign2) hel2 hm

/-- C10 instance. A handle with a 20-byte digest, the tree /a with one file: the first
recursive run relabels the file and stores the digest, the second run does nothing. -/
theorem restorecon_second_run_skips_witness :
    (selinux_restorecon
        (sample_globals (sample_handle "u:r:b_t:s0".toList (some (List.replicate 20 7))) [])
        (sample_top sample_items) "/a".toList { no_flags with recurse := true }
        ⟨fun _ => none, none, 0⟩).rc = some 0 ∧
    (selinux_restorecon
        (sample_globals (sample_handle "u:r:b_t:s0".toList (some (List.replicate 20 7))) [])
        (sample_top sample_items) "/a".toList { no_flags with recurse := true }
        (selinux_restorecon
          (sample_globals (sample_handle "u:r:b_t:s0".toList (some (List.replicate 20 7))) [])
          (sample_top sample_items) "/a".toList { no_flags with recurse := true }
          ⟨fun _ => none, none, 0⟩).st).events = [] :=
  ⟨by decide,
   (restorecon_second_run_skips
      (sample_globals (sample_handle "u:r:b_t:s0".toList (some (List.replicate 20 7))) [])
      (sample_top sample_items) (sample_top sample_items) "/a".toList "/a".toList
      { no_flags with recurse := true } { no_flags with recurse := true }
      ⟨fun _ => none, none, 0⟩ (List.replicate 20 7) ⟨0o040755, 2, 1⟩ ⟨0o040755, 2, 1⟩
      rfl (by decide) (by decide) rfl rfl rfl rfl rfl rfl rfl rfl
      (by unfold digest_eligible; decide) (by unfold digest_eligible; decide)
      (by decide)).2.1⟩

/-- C2 instance. The rule /foo to / maps /foo/bar to /bar, not to //bar. -/
theorem selabel_sub_eq_some_iff_witness :
    (∀ r ∈ [(⟨"/foo".toList, 4, "/".toList⟩ : struct_selabel_sub)], r.slen = r.src.length) ∧
      selabel_sub [⟨"/foo".toList, 4, "/".toList⟩] "/foo/bar".toList = some "/bar".toList :=
  ⟨by decide,
   (selabel_sub_eq_some_iff [⟨"/foo".toList, 4, "/".toList⟩] "/foo/bar".toList "/bar".toList
      (by decide)).mpr
      ⟨[], ⟨"/foo".toList, 4, "/".toList⟩, [], rfl, by simp,
        Or.inr ⟨"bar".toList, by decide⟩, by decide⟩⟩

/-- C7 instance. The current context u:r:a_t:s1 and the looked-up context v:q:b_t:s0 differ
in type: the context written is u:r:b_t:s1. -/
theorem restorecon_sb_type_only_witness :
    (restorecon_sb none 0 (sample_handle "v:q:b_t:s0".toList none)
        (sample_env (Except.ok "u:r:a_t:s1".toList) none 0) "/a/f".toList ⟨0o100644, 7, 1⟩
        no_flags ⟨none, 0⟩).events =
      [event.lookup "/a/f".toList "/a/f".toList 0o100644, event.getfilecon "/a/f".toList,
        event.setfilecon "/a/f".toList "u:r:b_t:s1".toList] :=
  (((restorecon_sb_type_only none 0 (sample_handle "v:q:b_t:s0".toList none)
      (sample_env (Except.ok "u:r:a_t:s1".toList) none 0) "/a/f".toList ⟨0o100644, 7, 1⟩
      no_flags ⟨none, 0⟩ "/a/f".toList "v:q:b_t:s0".toList "u:r:a_t:s1".toList
      ⟨"u".toList, "r".toList, "a_t".toList, "s1".toList⟩
      ⟨"v".toList, "q".toList, "b_t".toList, "s0".toList⟩
      rfl rfl (by decide) rfl (by decide) rfl (by decide) rfl (by decide) (by decide)).1
      (by decide)).2 (fun _ _ => ⟨rfl, rfl, rfl⟩)).2

/-- Exclusion of a directory: /a is on the exclusion list and the walk over /a and the file
below it performs nothing. -/
theorem fts_walk_exclusion_witness :
    check_excluded (sample_globals (sample_handle "u:r:b_t:s0".toList none)
        (add_exclude true [] "/a".toList true).exclude_lst).exclude_lst "/a".toList = 1 ∧
    fts_walk (sample_globals (sample_handle "u:r:b_t:s0".toList none)
        (add_exclude true [] "/a".toList true).exclude_lst)
        (sample_handle "u:r:b_t:s0".toList none) { no_flags with recurse := true } false 1
        ((⟨⟨fts_info_t.FTS_D, "/a".toList, ⟨0o040755, 2, 1⟩⟩, 1,
            sample_env (Except.ok "u:r:a_t:s0".toList) none 0⟩ : fts_item) ::
          [⟨⟨fts_info_t.FTS_F, "/a/f".toList, ⟨0o100644, 3, 1⟩⟩, 0,
            sample_env (Except.ok "u:r:a_t:s0".toList) none 0⟩]) 0 ⟨0, [], ⟨none, 0⟩⟩ =
      fts_walk (sample_globals (sample_handle "u:r:b_t:s0".toList none)
        (add_exclude true [] "/a".toList true).exclude_lst)
        (sample_handle "u:r:b_t:s0".toList none) { no_flags with recurse := true } false 1
        [] 0 ⟨0, [], ⟨none, 0⟩⟩ :=
  ⟨by decide,
   (fts_walk_exclusion (sample_globals (sample_handle "u:r:b_t:s0".toList none)
        (add_exclude true [] "/a".toList true).exclude_lst)
      (sample_handle "u:r:b_t:s0".toList none) { no_flags with recurse := true } false 1
      ⟨⟨fts_info_t.FTS_D, "/a".toList, ⟨0o040755, 2, 1⟩⟩, 1,
        sample_env (Except.ok "u:r:a_t:s0".toList) none 0⟩
      [⟨⟨fts_info_t.FTS_F, "/a/f".toList, ⟨0o100644, 3, 1⟩⟩, 0,
        sample_env (Except.ok "u:r:a_t:s0".toList) none 0⟩]
      ⟨0, [], ⟨none, 0⟩⟩).1 rfl (by decide)⟩

/-- C13. For a handle with direct list S and distribution list D and a key k:
selabel_sub_key gives sub(D, p) when sub(S, k) = p and D rewrites p, gives p when D does not
rewrite p, gives sub(D, k) when S does not rewrite k, and gives no rewrite exactly when
neither list rewrites k; the backend lookup receives the rewritten key when there is one and
the original key k otherwise. -/
theorem selabel_sub_key_chain (rec : selabel_handle) (key : cstring) (type : Nat) :
    (∀ p, selabel_sub rec.subs key = some p →
      (∀ q, selabel_sub rec.dist_subs p = some q → selabel_sub_key rec key = some q) ∧
      (selabel_sub rec.dist_subs p = none → selabel_sub_key rec key = some p)) ∧
    (selabel_sub rec.subs key = none →
      selabel_sub_key rec key = selabel_sub rec.dist_subs key) ∧
    (selabel_sub_key rec key = none ↔
      selabel_sub rec.subs key = none ∧ selabel_sub rec.dist_subs key = none) ∧
    (selabel_sub_key rec key = none →
      selabel_lookup_common rec key type =
        match rec.func_lookup key type with
        | Except.error e => Except.error e
        | Except.ok ctx_raw =>
          match rec.compat_validate ctx_raw with
          | some e => Except.error e
          | none => Except.ok ctx_raw) ∧
    (∀ p, selabel_sub_key rec key = some p →
      selabel_lookup_common rec key type =
        match rec.func_lookup p type with
        | Except.error e => Except.error e
        | Except.ok ctx_raw =>
          match rec.compat_validate ctx_raw with
          | some e => Except.error e
          | none => Except.ok ctx_raw) := by
  refine ⟨?_, ?_, ?_, ?_, ?_⟩
  · intro p hp
    constructor
    · intro q hq
      simp [selabel_sub_key, hp, hq]
    · intro hq
      simp [selabel_sub_key, hp, hq]
  · intro hs
    simp [selabel_sub_key, hs]
  · cases hs : selabel_sub rec.subs key with
    | none => simp [selabel_sub_key, hs]
    | some p =>
      cases hq : selabel_sub rec.dist_subs p <;> simp [selabel_sub_key, hs, hq]
  · intro h
    simp only [selabel_lookup_common, h]
  · intro p h
    simp only [selabel_lookup_common, h]

theorem filespec_scan_confirm (ls : cstring → Option Nat) (ino : Nat)
    (c f f2 : cstring) (l : List file_spec_t) (hl : chain_desc l)
    (hmem : (⟨ino, c, f⟩ : file_spec_t) ∈ l) (hstat : ls f = some ino) :
    filespec_scan ls ino c f2 l = (1, l) := by
  unfold chain_desc at hl
  induction l with
  | nil => cases hmem
  | cons fl next ih =>
    have hhead := (List.pairwise_cons.mp hl).1
    have hnext := (List.pairwise_cons.mp hl).2
    simp only [filespec_scan]
    rcases List.mem_cons.mp hmem with h | h
    · subst h
      have hs : strcmp c c = 0 := by rw [strcmp_eq_zero_iff]
      simp [hstat, hs]
    · have hlt : ino < fl.ino := hhead _ h
      have h1 : ¬ ino = fl.ino := by omega
      have h2 : ¬ ino > fl.ino := by omega
      rw [if_neg h1, if_neg h2, ih hnext h]

theorem filespec_add_confirm (ls : cstring → Option Nat) (t : Option fl_table) (ht : fl_wf t)
    (ino : Nat) (c f f2 : cstring) (hrec : fl_holds t ⟨ino, c, f⟩) (hstat : ls f = some ino) :
    (filespec_add ls t ino c f2).1 = 1 ∧
      ∀ h, fl_chain (filespec_add ls t ino c f2).2 h = fl_chain t h := by
  obtain ⟨h0, hmem⟩ := hrec
  have hh : h0 = filespec_hash ino := ((ht h0).2 _ hmem).symm
  subst hh
  have hsc := filespec_scan_confirm ls ino c f f2 _ (ht _).1 hmem hstat
  constructor
  · rw [filespec_add_fst, hsc]
  · intro h
    rw [filespec_add_chain, hsc]
    by_cases hh : h = filespec_hash ino
    · rw [if_pos hh, hh]
    · rw [if_neg hh]

theorem conflict_run_confirm (ino : Nat) (c f : cstring) (cs : List conflict_call)
    (t : Option fl_table) (ht : fl_wf t) (hrec : fl_holds t ⟨ino, c, f⟩)
    (hok : confirm_calls_ok ino c f cs) :
    (∀ rc ∈ (conflict_run ino cs t).1, rc = 1) ∧
      ∀ h, fl_chain (conflict_run ino cs t).2 h = fl_chain t h := by
  induction cs generalizing t with
  | nil => simp [conflict_run]
  | cons call cs ih =>
    have hc := hok call (List.mem_cons_self _ _)
    have h1 := filespec_add_confirm call.lstat64 t ht ino c f call.file hrec
      (by simpa using hc.2)
    have hcon : call.con = c := hc.1
    have hwf := filespec_add_wf call.lstat64 t ino c call.file ht
    have hrec2 : fl_holds (filespec_add call.lstat64 t ino c call.file).2 ⟨ino, c, f⟩ := by
      obtain ⟨h0, hm⟩ := hrec
      exact ⟨h0, by rw [h1.2 h0]; exact hm⟩
    have := ih _ hwf hrec2 (fun x hx => hok x (List.mem_cons_of_mem _ hx))
    simp only [conflict_run, hcon]
    constructor
    · intro rc hrc
      rcases List.mem_cons.mp hrc with h | h
      · rw [h]; exact h1.1
      · exact this.1 rc h
    · intro h
      rw [this.2 h, h1.2 h]

/-- C14. In an association table built by filespec_add calls that holds a record (ino, c, f)
whose file f still re-stats to ino, a further call filespec_add(ino, c, f2) with the same
context returns 1 (Confirmed) and leaves every chain of the table as it was, so the record
is still (ino, c, f); the same holds for every call of any sequence of such calls. -/
theorem filespec_add_confirmed (calls : List filespec_call) (lstat64 : cstring → Option Nat)
    (ino : Nat) (c f f2 : cstring)
    (hrec : fl_holds (filespec_run calls none) ⟨ino, c, f⟩)
    (hstat : lstat64 f = some ino) :
    ((filespec_add lstat64 (filespec_run calls none) ino c f2).1 = 1 ∧
      (∀ h, fl_chain (filespec_add lstat64 (filespec_run calls none) ino c f2).2 h =
        fl_chain (filespec_run calls none) h) ∧
      fl_holds (filespec_add lstat64 (filespec_run calls none) ino c f2).2 ⟨ino, c, f⟩) ∧
    ∀ cs, confirm_calls_ok ino c f cs →
      (∀ rc ∈ (conflict_run ino cs (filespec_run calls none)).1, rc = 1) ∧
      (∀ h, fl_chain (conflict_run ino cs (filespec_run calls none)).2 h =
        fl_chain (filespec_run calls none) h) ∧
      fl_holds (conflict_run ino cs (filespec_run calls none)).2 ⟨ino, c, f⟩ := by
  have ht := filespec_run_wf calls none fl_wf_none
  constructor
  · have h1 := filespec_add_confirm lstat64 _ ht ino c f f2 hrec hstat
    refine ⟨h1.1, h1.2, ?_⟩
    obtain ⟨h0, hm⟩ := hrec
    exact ⟨h0, by rw [h1.2 h0]; exact hm⟩
  · intro cs hok
    have h1 := conflict_run_confirm ino c f cs _ ht hrec hok
    refine ⟨h1.1, h1.2, ?_⟩
    obtain ⟨h0, hm⟩ := hrec
    exact ⟨h0, by rw [h1.2 h0]; exact hm⟩

/-- C14 instance. The record (42, C1, /a/x) is confirmed by a second call with the same
context for the path /a/y and keeps its path. -/
theorem filespec_add_confirmed_witness :
    (filespec_add (fun _ => some 42)
        (filespec_run [⟨fun _ => none, 42, "C1".toList, "/a/x".toList⟩] none)
        42 "C1".toList "/a/y".toList).1 = 1 ∧
      fl_holds (filespec_add (fun _ => some 42)
        (filespec_run [⟨fun _ => none, 42, "C1".toList, "/a/x".toList⟩] none)
        42 "C1".toList "/a/y".toList).2 ⟨42, "C1".toList, "/a/x".toList⟩ :=
  have h := (filespec_add_confirmed [⟨fun _ => none, 42, "C1".toList, "/a/x".toList⟩]
    (fun _ => some 42) 42 "C1".toList "/a/x".toList "/a/y".toList
    ⟨42, by decide⟩ rfl).1
  ⟨h.1, h.2.2⟩

/-- C16. The object /a/f has no current context (lgetfilecon_raw fails with ENODATA) and the
lookup yields u:r:b_t:s0. restorecon_sb sets curcon to NULL and hands it to strcmp: the call
does not return and no context is written, with the force flag clear or set. -/
theorem restorecon_sb_unlabeled_faults :
    (restorecon_sb none 0 (sample_handle "u:r:b_t:s0".toList none)
        (sample_env (Except.error Errno.ENODATA) none 0) "/a/f".toList ⟨0o100644, 7, 1⟩
        no_flags ⟨none, 0⟩).rc = none ∧
    (restorecon_sb none 0 (sample_handle "u:r:b_t:s0".toList none)
        (sample_env (Except.error Errno.ENODATA) none 0) "/a/f".toList ⟨0o100644, 7, 1⟩
        no_flags ⟨none, 0⟩).events =
      [event.lookup "/a/f".toList "/a/f".toList 0o100644, event.getfilecon "/a/f".toList] ∧
    (restorecon_sb none 0 (sample_handle "u:r:b_t:s0".toList none)
        (sample_env (Except.error Errno.ENODATA) none 0) "/a/f".toList ⟨0o100644, 7, 1⟩
        { no_flags with set_specctx := true } ⟨none, 0⟩).rc = none ∧
    (restorecon_sb none 0 (sample_handle "u:r:b_t:s0".toList none)
        (sample_env (Except.error Errno.ENODATA) none 0) "/a/f".toList ⟨0o100644, 7, 1⟩
        { no_flags with set_specctx := true } ⟨none, 0⟩).events =
      [event.lookup "/a/f".toList "/a/f".toList 0o100644, event.getfilecon "/a/f".toList] := by
  refine ⟨by decide, by decide, by decide, by decide⟩

theorem restorecon_sb_leaf (rootpath : Option cstring) (rootpathlen : Nat)
    (hnd : selabel_handle) (env : sys_env) (pathname : cstring) (sb : struct_stat)
    (flags : rest_flags) (st : sb_state) (P : sb_result → Prop)
    (h0 : P ⟨some (-1), [], st⟩)
    (h1 : ∀ key rc st1, (rc = some 0 ∨ rc = some (-1)) →
      P ⟨rc, [event.lookup pathname key sb.st_mode], st1⟩)
    (h2 : ∀ key rc st1, (rc = none ∨ rc = some 0 ∨ rc = some (-1)) →
      P ⟨rc, [event.lookup pathname key sb.st_mode, event.getfilecon pathname], st1⟩)
    (h3 : ∀ key rc st1 con, flags.nochange = false → (rc = some 0 ∨ rc = some (-1)) →
      P ⟨rc, [event.lookup pathname key sb.st_mode, event.getfilecon pathname,
        event.setfilecon pathname con], st1⟩) :
    P (restorecon_sb rootpath rootpathlen hnd env pathname sb flags st) := by
  cases hkey : sb_lookup_key rootpath rootpathlen pathname with
  | none => simpa [restorecon_sb, hkey] using h0
  | some key =>
    cases hlook : selabel_lookup_raw hnd key sb.st_mode with
    | error e =>
      simp only [restorecon_sb, hkey, hlook]
      exact h1 key _ _ (Or.inl rfl)
    | ok newcon =>
      simp only [restorecon_sb, hkey, hlook]
      by_cases hA1 : (if flags.add_assoc = true
          then filespec_add env.lstat64 st.fl_head sb.st_ino newcon pathname
          else (0, st.fl_head)).1 < 0
      · rw [if_pos hA1]
        exact h1 key _ _ (Or.inr rfl)
      · rw [if_neg hA1]
        by_cases hA2 : (if flags.add_assoc = true
            then filespec_add env.lstat64 st.fl_head sb.st_ino newcon pathname
            else (0, st.fl_head)).1 > 0
        · rw [if_pos hA2]
          exact h1 key _ _ (Or.inl rfl)
        · rw [if_neg hA2]
          cases hcur : env.lgetfilecon_raw pathname with
          | error e =>
            simp only []
            by_cases he : e ≠ Errno.ENODATA
            · rw [if_pos he]
              exact h2 key _ _ (Or.inr (Or.inr rfl))
            · rw [if_neg he]
              exact h2 key _ _ (Or.inl rfl)
          | ok curcon =>
            simp only []
            by_cases hs : strcmp curcon newcon ≠ 0
            · rw [if_pos hs]
              by_cases hb : (!flags.set_specctx) = true ∧
                  env.is_context_customizable curcon > 0 ∧ flags.verbose = true
              · rw [if_pos hb]
                exact h2 key _ _ (Or.inr (Or.inl rfl))
              · rw [if_neg hb]
                by_cases hct : (if (!flags.set_specctx) = true
                    then compare_types env curcon newcon else (0, some newcon)).1 ≠ 0
                · rw [if_pos hct]
                  exact h2 key _ _ (Or.inr (Or.inr rfl))
                · rw [if_neg hct]
                  cases hcon : (if (!flags.set_specctx) = true
                      then compare_types env curcon newcon else (0, some newcon)).2 with
                  | none =>
                    simp only []
                    exact h2 key _ _ (Or.inr (Or.inl rfl))
                  | some con =>
                    simp only []
                    by_cases hnc : (!flags.nochange) = true
                    · rw [if_pos hnc]
                      have hnc2 : flags.nochange = false := by simpa using hnc
                      by_cases hl : env.lsetfilecon pathname con < 0
                      · rw [if_pos hl]
                        exact h3 key _ _ con hnc2 (Or.inr rfl)
                      · rw [if_neg hl]
                        exact h3 key _ _ con hnc2 (Or.inl rfl)
                    · rw [if_neg hnc]
                      exact h2 key _ _ (Or.inr (Or.inl rfl))
            · rw [if_neg hs]
              exact h2 key _ _ (Or.inr (Or.inl rfl))

theorem restorecon_sb_state (rootpath : Option cstring) (rootpathlen : Nat)
    (hnd : selabel_handle) (env : sys_env) (pathname : cstring) (sb : struct_stat)
    (flags : rest_flags) (st : sb_state) (key newcon : cstring)
    (hkey : sb_lookup_key rootpath rootpathlen pathname = some key)
    (hlook : selabel_lookup_raw hnd key sb.st_mode = Except.ok newcon) :
    (restorecon_sb rootpath rootpathlen hnd env pathname sb flags st).st =
      ⟨(if flags.add_assoc = true
          then filespec_add env.lstat64 st.fl_head sb.st_ino newcon pathname
          else (0, st.fl_head)).2,
        if flags.progress = true then (st.fc_count + 1) % 2 ^ 64 else st.fc_count⟩ := by
  simp only [restorecon_sb, hkey, hlook]
  by_cases hA1 : (if flags.add_assoc = true
      then filespec_add env.lstat64 st.fl_head sb.st_ino newcon pathname
      else (0, st.fl_head)).1 < 0
  · rw [if_pos hA1]
  · rw [if_neg hA1]
    by_cases hA2 : (if flags.add_assoc = true
        then filespec_add env.lstat64 st.fl_head sb.st_ino newcon pathname
        else (0, st.fl_head)).1 > 0
    · rw [if_pos hA2]
    · rw [if_neg hA2]
      cases hcur : env.lgetfilecon_raw pathname with
      | error e =>
        simp only []
        by_cases he : e ≠ Errno.ENODATA
        · rw [if_pos he]
        · rw [if_neg he]
      | ok curcon =>
        simp only []
        by_cases hs : strcmp curcon newcon ≠ 0
        · rw [if_pos hs]
          by_cases hb : (!flags.set_specctx) = true ∧
              env.is_context_customizable curcon > 0 ∧ flags.verbose = true
          · rw [if_pos hb]
          · rw [if_neg hb]
            by_cases hct : (if (!flags.set_specctx) = true
                then compare_types env curcon newcon else (0, some newcon)).1 ≠ 0
            · rw [if_pos hct]
            · rw [if_neg hct]
              cases hcon : (if (!flags.set_specctx) = true
                  then compare_types env curcon newcon else (0, some newcon)).2 with
              | none =>
                simp only []
              | some con =>
                simp only []
                by_cases hnc : (!flags.nochange) = true
                · rw [if_pos hnc]
                  by_cases hl : env.lsetfilecon pathname con < 0
                  · rw [if_pos hl]
                  · rw [if_neg hl]
                · rw [if_neg hnc]
        · rw [if_neg hs]

theorem fts_walk_step (g : globals) (hnd : selabel_handle) (flags : rest_flags) (issys : Bool)
    (dev_num : Nat) (it : fts_item) (rest : List fts_item) (ws : walk_state) :
    fts_walk g hnd flags issys dev_num (it :: rest) 0 ws =
      match fts_classify g hnd flags issys dev_num it with
      | fts_action.pass => fts_walk g hnd flags issys dev_num rest 0 ws
      | fts_action.skip => fts_walk g hnd flags issys dev_num rest it.below ws
      | fts_action.cycle => (walk_end.out, some Errno.ELOOP, ⟨-1, ws.events, ws.sb⟩)
      | fts_action.process => walk_process g hnd flags issys dev_num it rest ws := by
  simp only [fts_walk, fts_classify, walk_process]
  by_cases hx : flags.set_xdev = true ∧ it.ftsent.fts_statp.st_dev ≠ dev_num
  · simp only [if_pos hx]
  · simp only [if_neg hx]
    cases hk : it.ftsent.fts_info
    all_goals try simp only []
    all_goals
      first
        | rfl
        | (by_cases h1 : issys = true ∧ (!selabel_partial_match hnd it.ftsent.fts_path) = true
           · simp only [if_pos h1]
           · simp only [if_neg h1]
             by_cases h2 : check_excluded g.exclude_lst it.ftsent.fts_path ≠ 0
             · simp only [if_pos h2]
             · simp only [if_neg h2])

theorem fts_walk_calls_step (g : globals) (hnd : selabel_handle) (flags : rest_flags)
    (issys : Bool) (dev_num : Nat) (it : fts_item) (rest : List fts_item) (ws : walk_state) :
    fts_walk_calls g hnd flags issys dev_num (it :: rest) 0 ws =
      match fts_classify g hnd flags issys dev_num it with
      | fts_action.pass => fts_walk_calls g hnd flags issys dev_num rest 0 ws
      | fts_action.skip => fts_walk_calls g hnd flags issys dev_num rest it.below ws
      | fts_action.cycle => []
      | fts_action.process => calls_process g hnd flags issys dev_num it rest ws := by
  simp only [fts_walk_calls, fts_classify, calls_process]
  by_cases hx : flags.set_xdev = true ∧ it.ftsent.fts_statp.st_dev ≠ dev_num
  · simp only [if_pos hx]
  · simp only [if_neg hx]
    cases hk : it.ftsent.fts_info
    all_goals try simp only []
    all_goals
      first
        | rfl
        | (by_cases h1 : issys = true ∧ (!selabel_partial_match hnd it.ftsent.fts_path) = true
           · simp only [if_pos h1]
           · simp only [if_neg h1]
             by_cases h2 : check_excluded g.exclude_lst it.ftsent.fts_path ≠ 0
             · simp only [if_pos h2]
             · simp only [if_neg h2])

theorem fts_selected_step (g : globals) (hnd : selabel_handle) (flags : rest_flags)
    (issys : Bool) (dev_num : Nat) (it : fts_item) (rest : List fts_item) :
    fts_selected g hnd flags issys dev_num (it :: rest) 0 =
      match fts_classify g hnd flags issys dev_num it with
      | fts_action.pass => fts_selected g hnd flags issys dev_num rest 0
      | fts_action.skip => fts_selected g hnd flags issys dev_num rest it.below
      | fts_action.cycle => []
      | fts_action.process => it :: fts_selected g hnd flags issys dev_num rest 0 := by
  simp only [fts_selected, fts_classify]
  by_cases hx : flags.set_xdev = true ∧ it.ftsent.fts_statp.st_dev ≠ dev_num
  · simp only [if_pos hx]
  · simp only [if_neg hx]
    cases hk : it.ftsent.fts_info
    all_goals try simp only []
    all_goals
      first
        | rfl
        | (by_cases h1 : issys = true ∧ (!selabel_partial_match hnd it.ftsent.fts_path) = true
           · simp only [if_pos h1]
           · simp only [if_neg h1]
             by_cases h2 : check_excluded g.exclude_lst it.ftsent.fts_path ≠ 0
             · simp only [if_pos h2]
             · simp only [if_neg h2])

theorem restorecon_sb_rc_values (rootpath : Option cstring) (rootpathlen : Nat)
    (hnd : selabel_handle) (env : sys_env) (pathname : cstring) (sb : struct_stat)
    (flags : rest_flags) (st : sb_state) :
    (restorecon_sb rootpath rootpathlen hnd env pathname sb flags st).rc = none ∨
    (restorecon_sb rootpath rootpathlen hnd env pathname sb flags st).rc = some 0 ∨
    (restorecon_sb rootpath rootpathlen hnd env pathname sb flags st).rc = some (-1) := by
  apply restorecon_sb_leaf rootpath rootpathlen hnd env pathname sb flags st
    (fun r => r.rc = none ∨ r.rc = some 0 ∨ r.rc = some (-1))
  · right; right; rfl
  · intro key rc st1 h; exact Or.inr h
  · intro key rc st1 h; exact h
  · intro key rc st1 con _ h; exact Or.inr h

theorem restorecon_sb_events_mem (rootpath : Option cstring) (rootpathlen : Nat)
    (hnd : selabel_handle) (env : sys_env) (pathname : cstring) (sb : struct_stat)
    (flags : rest_flags) (st : sb_state) :
    ∀ e ∈ (restorecon_sb rootpath rootpathlen hnd env pathname sb flags st).events,
      (∃ key, e = event.lookup pathname key sb.st_mode) ∨ e = event.getfilecon pathname ∨
      (flags.nochange = false ∧ ∃ con, e = event.setfilecon pathname con) := by
  apply restorecon_sb_leaf rootpath rootpathlen hnd env pathname sb flags st
    (fun r => ∀ e ∈ r.events,
      (∃ key, e = event.lookup pathname key sb.st_mode) ∨ e = event.getfilecon pathname ∨
      (flags.nochange = false ∧ ∃ con, e = event.setfilecon pathname con))
  · intro e he; cases he
  · intro key rc st1 _ e he
    simp only [List.mem_singleton] at he
    exact Or.inl ⟨key, he⟩
  · intro key rc st1 _ e he
    simp only [List.mem_cons, List.mem_singleton, List.not_mem_nil, or_false] at he
    rcases he with he | he
    · exact Or.inl ⟨key, he⟩
    · exact Or.inr (Or.inl he)
  · intro key rc st1 con hnc _ e he
    simp only [List.mem_cons, List.mem_singleton, List.not_mem_nil, or_false] at he
    rcases he with he | he | he
    · exact Or.inl ⟨key, he⟩
    · exact Or.inr (Or.inl he)
    · exact Or.inr (Or.inr ⟨hnc, con, he⟩)

theorem fts_walk_events_forall (g : globals) (hnd : selabel_handle) (flags : rest_flags)
    (issys : Bool) (dev_num : Nat) (P : event → Prop)
    (hsb : ∀ (it : fts_item) (st : sb_state),
      ∀ e ∈ (restorecon_sb g.rootpath g.rootpathlen hnd it.env it.ftsent.fts_path
        it.ftsent.fts_statp flags st).events, P e)
    (items : List fts_item) (k : Nat) (ws : walk_state) (hws : ∀ e ∈ ws.events, P e) :
    ∀ e ∈ (fts_walk g hnd flags issys dev_num items k ws).2.2.events, P e := by
  induction items generalizing k ws with
  | nil => simpa [fts_walk] using hws
  | cons it rest ih =>
    cases k with
    | succ k => simp only [fts_walk]; exact ih k ws hws
    | zero =>
      rw [fts_walk_step]
      cases fts_classify g hnd flags issys dev_num it with
      | pass => exact ih 0 ws hws
      | skip => exact ih _ ws hws
      | cycle => exact hws
      | process =>
        have hws1 : ∀ e ∈ ws.events ++ (restorecon_sb g.rootpath g.rootpathlen hnd it.env
            it.ftsent.fts_path it.ftsent.fts_statp flags ws.sb).events, P e := by
          intro e he
          rcases List.mem_append.mp he with h | h
          · exact hws e h
          · exact hsb it ws.sb e h
        simp only [walk_process]
        split
        · exact hws1
        · split
          · exact hws1
          · exact ih 0 _ hws1

theorem int_or_values (a b : Int) (ha : a = 0 ∨ a = -1) (hb : b = 0 ∨ b = -1) :
    (int_or a b = 0 ∨ int_or a b = -1) ∧ (int_or a b = 0 ↔ a = 0 ∧ b = 0) := by
  rcases ha with rfl | rfl <;> rcases hb with rfl | rfl <;> decide

theorem fts_walk_done_error (g : globals) (hnd : selabel_handle) (flags : rest_flags)
    (issys : Bool) (dev_num : Nat) (items : List fts_item) (k : Nat) (ws : walk_state)
    (hws : ws.error = 0 ∨ ws.error = -1) :
    ((fts_walk g hnd flags issys dev_num items k ws).2.2.error = 0 ∨
      (fts_walk g hnd flags issys dev_num items k ws).2.2.error = -1) ∧
    ((fts_walk g hnd flags issys dev_num items k ws).1 = walk_end.done →
      ((fts_walk g hnd flags issys dev_num items k ws).2.2.error = 0 ↔
        ws.error = 0 ∧
        ∀ c ∈ fts_walk_calls g hnd flags issys dev_num items k ws, c.2 = some 0)) := by
  induction items generalizing k ws with
  | nil => simp [fts_walk, fts_walk_calls, hws]
  | cons it rest ih =>
    cases k with
    | succ k => simp only [fts_walk, fts_walk_calls]; exact ih k ws hws
    | zero =>
      rw [fts_walk_step, fts_walk_calls_step]
      cases fts_classify g hnd flags issys dev_num it with
      | pass => exact ih 0 ws hws
      | skip => exact ih _ ws hws
      | cycle => simp
      | process =>
        simp only [walk_process, calls_process]
        rcases restorecon_sb_rc_values g.rootpath g.rootpathlen hnd it.env it.ftsent.fts_path
          it.ftsent.fts_statp flags ws.sb with hr | hr | hr
        · simp [hr, hws]
        · have hv := int_or_values ws.error 0 hws (Or.inl rfl)
          simp only [hr]
          by_cases hab : int_or ws.error 0 ≠ 0 ∧ flags.abort_on_error = true
          · rw [if_pos hab, if_pos hab]
            simp [hv.1]
          · rw [if_neg hab, if_neg hab]
            have := ih 0 ⟨int_or ws.error 0, ws.events ++ (restorecon_sb g.rootpath
              g.rootpathlen hnd it.env it.ftsent.fts_path it.ftsent.fts_statp flags ws.sb).events,
              (restorecon_sb g.rootpath g.rootpathlen hnd it.env it.ftsent.fts_path
                it.ftsent.fts_statp flags ws.sb).st⟩ hv.1
            refine ⟨this.1, fun hd => ?_⟩
            rw [this.2 hd]
            simp only [hv.2, List.mem_cons, forall_eq_or_imp, and_true, true_and]
        · have hv := int_or_values ws.error (-1) hws (Or.inr rfl)
          simp only [hr]
          by_cases hab : int_or ws.error (-1) ≠ 0 ∧ flags.abort_on_error = true
          · rw [if_pos hab, if_pos hab]
            simp [hv.1]
          · rw [if_neg hab, if_neg hab]
            have := ih 0 ⟨int_or ws.error (-1), ws.events ++ (restorecon_sb g.rootpath
              g.rootpathlen hnd it.env it.ftsent.fts_path it.ftsent.fts_statp flags ws.sb).events,
              (restorecon_sb g.rootpath g.rootpathlen hnd it.env it.ftsent.fts_path
                it.ftsent.fts_statp flags ws.sb).st⟩ hv.1
            refine ⟨this.1, fun hd => ?_⟩
            rw [this.2 hd]
            simp [hv.2]

theorem fts_walk_no_setxattr (g : globals) (hnd : selabel_handle) (flags : rest_flags)
    (issys : Bool) (dev_num : Nat) (items : List fts_item) (k : Nat) (pathname : cstring)
    (st : rc_state) :
    ∀ e ∈ (fts_walk g hnd flags issys dev_num items k (walk_start pathname st)).2.2.events,
      ∀ q w, e ≠ event.setxattr q w := by
  apply fts_walk_events_forall g hnd flags issys dev_num (fun e => ∀ q w, e ≠ event.setxattr q w)
  · intro it st1 e he q w
    rcases restorecon_sb_events_mem _ _ _ _ _ _ _ _ e he with ⟨key, h⟩ | h | ⟨_, con, h⟩ <;>
      simp [h]
  · intro e he q w
    simp only [walk_start, List.mem_singleton] at he
    simp [he]

theorem digest_eligible_iff (env : top_env) (pathname : cstring) (sb : struct_stat) :
    (decide (sb.st_mode &&& S_IFDIR = S_IFDIR) &&
      !decide (strcmp pathname SYS_PATH = 0 ∨ strncmp pathname SYS_PREFIX 5 = 0) &&
      !(decide (env.statfs pathname = some RAMFS_MAGIC) ||
        decide (env.statfs pathname = some TMPFS_MAGIC))) = true ↔
      digest_eligible env pathname sb := by
  simp [digest_eligible, and_assoc]

theorem restorecon_recurse_setxattr (g : globals) (env : top_env) (hnd : selabel_handle)
    (flags : rest_flags) (pathname : cstring) (sb : struct_stat) (st : rc_state)
    (p : cstring) (v : List Nat)
    (h : event.setxattr p v ∈ (restorecon_recurse g env hnd flags pathname sb st).events) :
    p = pathname ∧ flags.nochange = false ∧ digest_eligible env pathname sb ∧
    (∃ d, g.fc_digest = some d ∧ v = d.take g.fc_digest_len) ∧
    ∃ first rest, env.fts pathname flags.set_xdev = some (first :: rest) ∧
      (fts_walk g hnd flags false first.ftsent.fts_statp.st_dev (first :: rest) 0
        (walk_start pathname st)).1 = walk_end.done ∧
      (∀ c ∈ fts_walk_calls g hnd flags false first.ftsent.fts_statp.st_dev (first :: rest) 0
        (walk_start pathname st), c.2 = some 0) ∧
      (restorecon_recurse g env hnd flags pathname sb st).events =
        (fts_walk g hnd flags false first.ftsent.fts_statp.st_dev (first :: rest) 0
          (walk_start pathname st)).2.2.events ++ [event.setxattr p v] ∧
      ∀ e ∈ (fts_walk g hnd flags false first.ftsent.fts_statp.st_dev (first :: rest) 0
          (walk_start pathname st)).2.2.events, ∀ q w, e ≠ event.setxattr q w := by
  have hno := fun (b : Bool) (first : fts_item) (rest : List fts_item) =>
    fts_walk_no_setxattr g hnd flags b first.ftsent.fts_statp.st_dev (first :: rest) 0 pathname st
  by_cases hel : digest_eligible env pathname sb
  · have hsrl := (digest_eligible_iff env pathname sb).mpr hel
    have hsys : decide (strcmp pathname SYS_PATH = 0 ∨ strncmp pathname SYS_PREFIX 5 = 0)
        = false := by
      simpa using hel.2.1
    revert h
    simp only [restorecon_recurse, restorecon_cleanup, hsrl]
    simp only [hsys]
    split
    · intro h; cases h
    · cases hf : env.fts pathname flags.set_xdev with
      | none => intro h; simp at h
      | some items =>
        cases items with
        | nil => intro h; simp at h
        | cons first rest =>
          simp only []
          split
          · intro h; exact absurd rfl (hno _ _ _ _ h p v)
          · intro h; exact absurd rfl (hno _ _ _ _ h p v)
          · rename_i hdone
            split
            · rename_i d hd
              split
              · rename_i hc
                intro h
                simp only [] at h
                rcases List.mem_append.mp h with h1 | h1
                · exact absurd rfl (hno _ _ _ _ h1 p v)
                · simp only [List.mem_singleton, event.setxattr.injEq] at h1
                  obtain ⟨rfl, rfl⟩ := h1
                  obtain ⟨-, hnc, herr⟩ := hc
                  refine ⟨rfl, by simpa using hnc, hel, ⟨d, hd, rfl⟩, first, rest, rfl, hdone,
                    ?_, rfl, ?_⟩
                  · have := (fts_walk_done_error g hnd flags false
                      first.ftsent.fts_statp.st_dev (first :: rest) 0 (walk_start p st)
                      (Or.inl rfl)).2 hdone
                    exact (this.mp herr).2
                  · exact hno false first rest
              · intro h; exact absurd rfl (hno _ _ _ _ h p v)
            · intro h; exact absurd rfl (hno _ _ _ _ h p v)
  · have hsrl : (decide (sb.st_mode &&& S_IFDIR = S_IFDIR) &&
        !decide (strcmp pathname SYS_PATH = 0 ∨ strncmp pathname SYS_PREFIX 5 = 0) &&
        !(decide (env.statfs pathname = some RAMFS_MAGIC) ||
          decide (env.statfs pathname = some TMPFS_MAGIC))) = false := by
      rw [← Bool.not_eq_true]
      exact fun hh => hel ((digest_eligible_iff env pathname sb).mp hh)
    exfalso
    revert h
    simp only [restorecon_recurse, restorecon_cleanup, hsrl]
    simp only [Bool.false_eq_true, false_and, if_false]
    cases hf : env.fts pathname flags.set_xdev with
    | none => simp
    | some items =>
      cases items with
      | nil => simp
      | cons first rest =>
        simp only []
        split
        · intro h; exact absurd rfl (hno _ _ _ _ h p v)
        · intro h; exact absurd rfl (hno _ _ _ _ h p v)
        · split
          · intro h; exact absurd rfl (hno _ _ _ _ h p v)
          · intro h; exact absurd rfl (hno _ _ _ _ h p v)

theorem selinux_restorecon_cases (g : globals) (env : top_env) (pathname_orig : cstring)
    (flags : rest_flags) (st : rc_state) (P : rc_result → Prop)
    (hplain : ∀ r : rc_result, r.events = [] → r.st.xattrs = st.xattrs → P r)
    (hsb : ∀ (fl : rest_flags) (hnd : selabel_handle) (pathname : cstring) (sb : struct_stat)
      (r : rc_result), fl.nochange = flags.nochange → flags.recurse = false →
      r.events = (restorecon_sb g.rootpath g.rootpathlen hnd env.obj pathname sb fl
        ⟨st.fl_head, st.fc_count⟩).events → r.st.xattrs = st.xattrs → P r)
    (hrec : ∀ (fl : rest_flags) (hnd : selabel_handle) (pathname : cstring) (sb : struct_stat),
      (fl = flags ∨ fl = { flags with verbose := false }) →
      fl.nochange = flags.nochange → fl.set_xdev = flags.set_xdev →
      fl.abort_on_error = flags.abort_on_error → flags.recurse = true →
      g.fc_sehandle = some hnd →
      canonical_pathname env flags.userealpath pathname_orig = Except.ok pathname →
      env.lstat pathname = Except.ok sb →
      P (restorecon_recurse g env hnd fl pathname sb st)) :
    P (selinux_restorecon g env pathname_orig flags st) := by
  unfold selinux_restorecon
  generalize hfl : (if flags.verbose = true ∧ flags.progress = true
    then { flags with verbose := false } else flags) = fl
  have hfl2 : fl = flags ∨ fl = { flags with verbose := false } := by
    rw [← hfl]; split
    · exact Or.inr rfl
    · exact Or.inl rfl
  have hnc : fl.nochange = flags.nochange := by
    rw [← hfl]; split <;> rfl
  have hxd : fl.set_xdev = flags.set_xdev := by
    rw [← hfl]; split <;> rfl
  have hab : fl.abort_on_error = flags.abort_on_error := by
    rw [← hfl]; split <;> rfl
  have hrc : fl.recurse = flags.recurse := by
    rw [← hfl]; split <;> rfl
  have hup : fl.userealpath = flags.userealpath := by
    rw [← hfl]; split <;> rfl
  clear hfl
  simp only []
  cases hh : g.fc_sehandle with
  | none => exact hplain _ rfl rfl
  | some hnd =>
    simp only []
    cases hp : canonical_pathname env fl.userealpath pathname_orig with
    | error e => exact hplain _ rfl rfl
    | ok pathname =>
      simp only []
      cases hl : env.lstat pathname with
      | error e =>
        simp only []
        split
        · exact hplain _ rfl rfl
        · exact hplain _ rfl rfl
      | ok sb =>
        simp only []
        by_cases hr : fl.recurse = true
        · simp only [hr, Bool.not_true, Bool.false_eq_true, if_false]
          exact hrec fl hnd pathname sb hfl2 hnc hxd hab (hrc ▸ hr) hh (hup ▸ hp) hl
        · have hr2 : fl.recurse = false := by simpa using hr
          simp only [hr2, Bool.not_false, if_true]
          split
          · exact hplain _ rfl rfl
          · split
            · exact hsb fl hnd pathname sb _ hnc (hrc ▸ hr2) rfl rfl
            · exact hsb fl hnd pathname sb _ hnc (hrc ▸ hr2) rfl rfl

theorem restorecon_recurse_events_forall (g : globals) (env : top_env) (hnd : selabel_handle)
    (flags : rest_flags) (pathname : cstring) (sb : struct_stat) (st : rc_state)
    (P : event → Prop) (hopen : P (event.fts_open pathname))
    (hsb : ∀ (it : fts_item) (st1 : sb_state),
      ∀ e ∈ (restorecon_sb g.rootpath g.rootpathlen hnd it.env it.ftsent.fts_path
        it.ftsent.fts_statp flags st1).events, P e)
    (hx : ∀ v, P (event.setxattr pathname v)) :
    ∀ e ∈ (restorecon_recurse g env hnd flags pathname sb st).events, P e := by
  have hw := fun (b : Bool) (dev : Nat) (items : List fts_item) =>
    fts_walk_events_forall g hnd flags b dev P hsb items 0 (walk_start pathname st)
      (by intro e he; simp only [walk_start, List.mem_singleton] at he; rw [he]; exact hopen)
  simp only [restorecon_recurse, restorecon_cleanup]
  split
  · intro e he; cases he
  · cases hf : env.fts pathname flags.set_xdev with
    | none => intro e he; simp only [List.mem_singleton] at he; rw [he]; exact hopen
    | some items =>
      cases items with
      | nil => intro e he; simp only [List.mem_singleton] at he; rw [he]; exact hopen
      | cons first rest =>
        simp only []
        split
        · exact hw _ _ _
        · exact hw _ _ _
        · split
          · split
            · intro e he
              rcases List.mem_append.mp he with h1 | h1
              · exact hw _ _ _ e h1
              · simp only [List.mem_singleton] at h1; rw [h1]; exact hx _
            · exact hw _ _ _
          · exact hw _ _ _

theorem restorecon_recurse_nochange_xattrs (g : globals) (env : top_env) (hnd : selabel_handle)
    (flags : rest_flags) (pathname : cstring) (sb : struct_stat) (st : rc_state)
    (hnc : flags.nochange = true) :
    (restorecon_recurse g env hnd flags pathname sb st).st.xattrs = st.xattrs := by
  simp only [restorecon_recurse, restorecon_cleanup, hnc]
  split
  · rfl
  · cases hf : env.fts pathname flags.set_xdev with
    | none => rfl
    | some items =>
      cases items with
      | nil => rfl
      | cons first rest =>
        simp only []
        split
        · rfl
        · rfl
        · split
          · simp
          · rfl

/-- C17. With the dry-run flag set, restorecon_sb never writes a context, whatever the
object, the lookup result and the current context are, and selinux_restorecon writes neither
a context nor the digest attribute and leaves the stored attributes as they were. -/
theorem restorecon_nochange_writes_nothing (flags : rest_flags) (hnc : flags.nochange = true) :
    (∀ (rootpath : Option cstring) (rootpathlen : Nat) (hnd : selabel_handle) (env : sys_env)
        (pathname : cstring) (sb : struct_stat) (st : sb_state) (p c : cstring),
      event.setfilecon p c ∉
        (restorecon_sb rootpath rootpathlen hnd env pathname sb flags st).events) ∧
    (∀ (g : globals) (env : top_env) (pathname_orig : cstring) (st : rc_state),
      (∀ p c, event.setfilecon p c ∉
        (selinux_restorecon g env pathname_orig flags st).events) ∧
      (∀ p v, event.setxattr p v ∉
        (selinux_restorecon g env pathname_orig flags st).events) ∧
      (selinux_restorecon g env pathname_orig flags st).st.xattrs = st.xattrs) := by
  have hsbw : ∀ (fl : rest_flags), fl.nochange = true →
      ∀ (rootpath : Option cstring) (rootpathlen : Nat) (hnd : selabel_handle) (env : sys_env)
        (pathname : cstring) (sb : struct_stat) (st : sb_state),
      ∀ e ∈ (restorecon_sb rootpath rootpathlen hnd env pathname sb fl st).events,
        (∀ p c, e ≠ event.setfilecon p c) ∧ (∀ p v, e ≠ event.setxattr p v) := by
    intro fl hfl rootpath rootpathlen hnd env pathname sb st e he
    rcases restorecon_sb_events_mem _ _ _ _ _ _ _ _ e he with ⟨key, h⟩ | h | ⟨hn, _⟩
    · simp [h]
    · simp [h]
    · rw [hfl] at hn; cases hn
  constructor
  · intro rootpath rootpathlen hnd env pathname sb st p c hmem
    exact (hsbw flags hnc _ _ _ _ _ _ _ _ hmem).1 p c rfl
  · intro g env pathname_orig st
    have key : (∀ e ∈ (selinux_restorecon g env pathname_orig flags st).events,
        (∀ p c, e ≠ event.setfilecon p c) ∧ (∀ p v, e ≠ event.setxattr p v)) ∧
        (selinux_restorecon g env pathname_orig flags st).st.xattrs = st.xattrs := by
      apply selinux_restorecon_cases g env pathname_orig flags st
        (fun r => (∀ e ∈ r.events,
          (∀ p c, e ≠ event.setfilecon p c) ∧ (∀ p v, e ≠ event.setxattr p v)) ∧
          r.st.xattrs = st.xattrs)
      · intro r hev hx
        refine ⟨?_, hx⟩
        rw [hev]
        intro e he
        cases he
      · intro fl hnd pathname sb r hfl _ hev hx
        refine ⟨?_, hx⟩
        rw [hev]
        exact hsbw fl (hfl.trans hnc) _ _ _ _ _ _ _
      · intro fl hnd pathname sb _ hfl _ _ _ _ _ _
        have hfl2 : fl.nochange = true := hfl.trans hnc
        refine ⟨?_, restorecon_recurse_nochange_xattrs g env hnd fl pathname sb st hfl2⟩
        intro e he
        constructor
        · exact restorecon_recurse_events_forall g env hnd fl pathname sb st
            (fun e => ∀ p c, e ≠ event.setfilecon p c) (by simp)
            (fun it st1 e he => (hsbw fl hfl2 _ _ _ _ _ _ _ e he).1) (by simp) e he
        · intro p v hpv
          rw [hpv] at he
          have := (restorecon_recurse_setxattr g env hnd fl pathname sb st p v he).2.1
          rw [hfl2] at this
          cases this
    refine ⟨?_, ?_, key.2⟩
    · intro p c hmem; exact (key.1 _ hmem).1 p c rfl
    · intro p v hmem; exact (key.1 _ hmem).2 p v rfl

/-- C17 instance. The dry run over /a, where the file /a/f would be relabelled, reads and
looks up but writes nothing. -/
theorem restorecon_nochange_writes_nothing_witness :
    (selinux_restorecon
        (sample_globals (sample_handle "u:r:b_t:s0".toList (some (List.replicate 20 7))) [])
        (sample_top sample_items) "/a".toList { no_flags with recurse := true, nochange := true }
        ⟨fun _ => none, none, 0⟩).events =
      [event.fts_open "/a".toList,
       event.lookup "/a".toList "/a".toList 0o040755, event.getfilecon "/a".toList,
       event.lookup "/a/f".toList "/a/f".toList 0o100644, event.getfilecon "/a/f".toList] ∧
    ∀ p v, event.setxattr p v ∉ (selinux_restorecon
        (sample_globals (sample_handle "u:r:b_t:s0".toList (some (List.replicate 20 7))) [])
        (sample_top sample_items) "/a".toList { no_flags with recurse := true, nochange := true }
        ⟨fun _ => none, none, 0⟩).events :=
  ⟨by decide,
   ((restorecon_nochange_writes_nothing { no_flags with recurse := true, nochange := true }
      rfl).2 _ _ _ _).2.1⟩

/-- C11, amended. Whenever selinux_restorecon writes the digest attribute, the call is
recursive, the dry-run flag is clear, the handle carries the digest that is written, the
target is the digest-eligible traversal root, the walk read its whole stream without a
directory cycle or an abort, every restorecon_sb call of the walk returned 0, and the write
is the last action after the walk and the only attribute write. -/
theorem digest_written_only_after_clean_walk (g : globals) (env : top_env)
    (pathname_orig : cstring) (flags : rest_flags) (st : rc_state) (p : cstring) (v : List Nat)
    (h : event.setxattr p v ∈ (selinux_restorecon g env pathname_orig flags st).events) :
    flags.recurse = true ∧ flags.nochange = false ∧
    (∃ d, g.fc_digest = some d ∧ v = d.take g.fc_digest_len) ∧
    ∃ (hnd : selabel_handle) (fl : rest_flags) (sb : struct_stat) (first : fts_item)
        (rest : List fts_item),
      (fl = flags ∨ fl = { flags with verbose := false }) ∧
      g.fc_sehandle = some hnd ∧
      canonical_pathname env flags.userealpath pathname_orig = Except.ok p ∧
      env.lstat p = Except.ok sb ∧ digest_eligible env p sb ∧
      env.fts p flags.set_xdev = some (first :: rest) ∧
      (fts_walk g hnd fl false first.ftsent.fts_statp.st_dev (first :: rest) 0
        (walk_start p st)).1 = walk_end.done ∧
      (∀ c ∈ fts_walk_calls g hnd fl false first.ftsent.fts_statp.st_dev (first :: rest) 0
        (walk_start p st), c.2 = some 0) ∧
      (selinux_restorecon g env pathname_orig flags st).events =
        (fts_walk g hnd fl false first.ftsent.fts_statp.st_dev (first :: rest) 0
          (walk_start p st)).2.2.events ++ [event.setxattr p v] ∧
      ∀ e ∈ (fts_walk g hnd fl false first.ftsent.fts_statp.st_dev (first :: rest) 0
          (walk_start p st)).2.2.events, ∀ q w, e ≠ event.setxattr q w := by
  revert h
  apply selinux_restorecon_cases g env pathname_orig flags st
    (fun r => event.setxattr p v ∈ r.events →
      flags.recurse = true ∧ flags.nochange = false ∧
      (∃ d, g.fc_digest = some d ∧ v = d.take g.fc_digest_len) ∧
      ∃ (hnd : selabel_handle) (fl : rest_flags) (sb : struct_stat) (first : fts_item)
          (rest : List fts_item),
        (fl = flags ∨ fl = { flags with verbose := false }) ∧
        g.fc_sehandle = some hnd ∧
        canonical_pathname env flags.userealpath pathname_orig = Except.ok p ∧
        env.lstat p = Except.ok sb ∧ digest_eligible env p sb ∧
        env.fts p flags.set_xdev = some (first :: rest) ∧
        (fts_walk g hnd fl false first.ftsent.fts_statp.st_dev (first :: rest) 0
          (walk_start p st)).1 = walk_end.done ∧
        (∀ c ∈ fts_walk_calls g hnd fl false first.ftsent.fts_statp.st_dev (first :: rest) 0
          (walk_start p st), c.2 = some 0) ∧
        r.events =
          (fts_walk g hnd fl false first.ftsent.fts_statp.st_dev (first :: rest) 0
            (walk_start p st)).2.2.events ++ [event.setxattr p v] ∧
        ∀ e ∈ (fts_walk g hnd fl false first.ftsent.fts_statp.st_dev (first :: rest) 0
            (walk_start p st)).2.2.events, ∀ q w, e ≠ event.setxattr q w)
  · intro r hev _ hmem
    rw [hev] at hmem
    cases hmem
  · intro fl hnd pathname sb r _ _ hev _ hmem
    rw [hev] at hmem
    rcases restorecon_sb_events_mem _ _ _ _ _ _ _ _ _ hmem with ⟨key, h⟩ | h | ⟨_, con, h⟩ <;>
      cases h
  · intro fl hnd pathname sb hfl hnc hxd _ hrec hh hpath hstat hmem
    obtain ⟨rfl, hn, hel, hd, first, rest, hfts, hdone, hcalls, hev, hno⟩ :=
      restorecon_recurse_setxattr g env hnd fl pathname sb st p v hmem
    exact ⟨hrec, hnc ▸ hn, hd, hnd, fl, sb, first, rest, hfl, hh, hpath, hstat, hel,
      hxd ▸ hfts, hdone, hcalls, hev, hno⟩

theorem int_or_zero_right (a : Int) : int_or a 0 = a := by
  unfold int_or
  by_cases h : a = 0
  · simp [h]
  · simp [h]

/-- C18. When the lookup for an object finds no matching specification, restorecon_sb
returns 0 having performed the lookup and nothing else: no context read or write, and the
association table and counter as before. In the walk the error value carried along is the
same after such an entry as before it. -/
theorem restorecon_sb_no_match (g : globals) (hnd : selabel_handle) (flags : rest_flags)
    (it : fts_item) (key : cstring) (e : Errno)
    (hkey : sb_lookup_key g.rootpath g.rootpathlen it.ftsent.fts_path = some key)
    (hlook : selabel_lookup_raw hnd key it.ftsent.fts_statp.st_mode = Except.error e) :
    (∀ (env : sys_env) (st : sb_state),
      (restorecon_sb g.rootpath g.rootpathlen hnd env it.ftsent.fts_path it.ftsent.fts_statp
        flags st).rc = some 0 ∧
      (restorecon_sb g.rootpath g.rootpathlen hnd env it.ftsent.fts_path it.ftsent.fts_statp
        flags st).events =
          [event.lookup it.ftsent.fts_path key it.ftsent.fts_statp.st_mode] ∧
      (restorecon_sb g.rootpath g.rootpathlen hnd env it.ftsent.fts_path it.ftsent.fts_statp
        flags st).st.fl_head = st.fl_head ∧
      (restorecon_sb g.rootpath g.rootpathlen hnd env it.ftsent.fts_path it.ftsent.fts_statp
        flags st).st.fc_count = st.fc_count) ∧
    (∀ (issys : Bool) (dev_num : Nat) (rest : List fts_item) (ws : walk_state),
      fts_classify g hnd flags issys dev_num it = fts_action.process →
      fts_walk g hnd flags issys dev_num (it :: rest) 0 ws =
        if ws.error ≠ 0 ∧ flags.abort_on_error = true then
          (walk_end.out, none, ⟨ws.error, ws.events ++
            [event.lookup it.ftsent.fts_path key it.ftsent.fts_statp.st_mode], ws.sb⟩)
        else
          fts_walk g hnd flags issys dev_num rest 0 ⟨ws.error, ws.events ++
            [event.lookup it.ftsent.fts_path key it.ftsent.fts_statp.st_mode], ws.sb⟩) := by
  have hsb : ∀ (env : sys_env) (st : sb_state),
      restorecon_sb g.rootpath g.rootpathlen hnd env it.ftsent.fts_path it.ftsent.fts_statp
        flags st = ⟨some 0, [event.lookup it.ftsent.fts_path key it.ftsent.fts_statp.st_mode],
          st⟩ := by
    intro env st
    simp only [restorecon_sb, hkey, hlook]
  constructor
  · intro env st
    rw [hsb]
    exact ⟨rfl, rfl, rfl, rfl⟩
  · intro issys dev_num rest ws hc
    rw [fts_walk_step, hc]
    simp only [walk_process, hsb, int_or_zero_right]

/-- C18 instance. The backend knows no specification for /a/f: the call returns 0 after the
lookup alone. -/
theorem restorecon_sb_no_match_witness :
    (restorecon_sb none 0
        { sample_handle [] none with func_lookup := fun _ _ => Except.error Errno.ENOENT }
        (sample_env (Except.ok "u:r:a_t:s0".toList) none 0) "/a/f".toList ⟨0o100644, 3, 1⟩
        no_flags ⟨none, 0⟩).events =
      [event.lookup "/a/f".toList "/a/f".toList 0o100644] :=
  ((restorecon_sb_no_match ⟨none, none, 0, none, 0, []⟩
    { sample_handle [] none with func_lookup := fun _ _ => Except.error Errno.ENOENT }
    no_flags
    ⟨⟨fts_info_t.FTS_F, "/a/f".toList, ⟨0o100644, 3, 1⟩⟩, 0,
      sample_env (Except.ok "u:r:a_t:s0".toList) none 0⟩
    "/a/f".toList Errno.ENOENT rfl rfl).1
    (sample_env (Except.ok "u:r:a_t:s0".toList) none 0) ⟨none, 0⟩).2.1

/-- C11 instance. A handle with a 20-byte digest and the tree /a with one file: the recursive
run writes the digest on /a, so the call is recursive and not a dry run. -/
theorem digest_written_only_after_clean_walk_witness :
    event.setxattr "/a".toList (List.replicate 20 7) ∈
      (selinux_restorecon
        (sample_globals (sample_handle "u:r:b_t:s0".toList (some (List.replicate 20 7))) [])
        (sample_top sample_items) "/a".toList { no_flags with recurse := true }
        ⟨fun _ => none, none, 0⟩).events ∧
    ({ no_flags with recurse := true } : rest_flags).recurse = true ∧
    ({ no_flags with recurse := true } : rest_flags).nochange = false :=
  have h := digest_written_only_after_clean_walk
    (sample_globals (sample_handle "u:r:b_t:s0".toList (some (List.replicate 20 7))) [])
    (sample_top sample_items) "/a".toList { no_flags with recurse := true }
    ⟨fun _ => none, none, 0⟩ "/a".toList (List.replicate 20 7) (by decide)
  ⟨by decide, h.1, h.2.1⟩

theorem selinux_restorecon_recurse (g : globals) (env : top_env)
    (pathname_orig pathname : cstring) (flags : rest_flags) (st : rc_state)
    (hnd : selabel_handle) (sb : struct_stat)
    (hh : g.fc_sehandle = some hnd)
    (hpath : canonical_pathname env flags.userealpath pathname_orig = Except.ok pathname)
    (hstat : env.lstat pathname = Except.ok sb)
    (hrec : flags.recurse = true) :
    selinux_restorecon g env pathname_orig flags st =
      restorecon_recurse g env hnd (effective_flags flags) pathname sb st := by
  by_cases hvp : flags.verbose = true ∧ flags.progress = true
  · simp [selinux_restorecon, effective_flags, hvp, hh, hpath, hstat, hrec]
  · simp [selinux_restorecon, effective_flags, hvp, hh, hpath, hstat, hrec]

theorem effective_flags_fields (flags : rest_flags) :
    (effective_flags flags).set_xdev = flags.set_xdev ∧
    (effective_flags flags).ignore_digest = flags.ignore_digest ∧
    (effective_flags flags).nochange = flags.nochange ∧
    (effective_flags flags).abort_on_error = flags.abort_on_error ∧
    (effective_flags flags).add_assoc = flags.add_assoc := by
  unfold effective_flags
  split <;> exact ⟨rfl, rfl, rfl, rfl, rfl⟩

theorem restorecon_recurse_walks (g : globals) (env : top_env) (hnd : selabel_handle)
    (flags : rest_flags) (pathname : cstring) (sb : struct_stat) (st : rc_state)
    (first : fts_item) (rest : List fts_item)
    (hwalk : ¬ (digest_eligible env pathname sb ∧ flags.ignore_digest = false ∧
      digest_matches g (st.xattrs pathname) = true))
    (hfts : env.fts pathname flags.set_xdev = some (first :: rest)) :
    restorecon_recurse g env hnd flags pathname sb st =
      match (fts_walk g hnd flags
          (decide (strcmp pathname SYS_PATH = 0 ∨ strncmp pathname SYS_PREFIX 5 = 0))
          first.ftsent.fts_statp.st_dev (first :: rest) 0 (walk_start pathname st)) with
      | (walk_end.fault, _, ws) =>
        ⟨none, none, ws.events, ⟨st.xattrs, ws.sb.fl_head, ws.sb.fc_count⟩⟩
      | (walk_end.out, errno, ws) =>
        restorecon_cleanup flags ws.error errno ws.events st.xattrs ws.sb
      | (walk_end.done, _, ws) =>
        match g.fc_digest with
        | some d =>
          if digest_eligible env pathname sb ∧ flags.nochange = false ∧ ws.error = 0 then
            restorecon_cleanup flags (env.setxattr pathname (d.take g.fc_digest_len)) none
              (ws.events ++ [event.setxattr pathname (d.take g.fc_digest_len)])
              (if env.setxattr pathname (d.take g.fc_digest_len) = 0
                then Function.update st.xattrs pathname (some (d.take g.fc_digest_len))
                else st.xattrs) ws.sb
          else restorecon_cleanup flags ws.error none ws.events st.xattrs ws.sb
        | none => restorecon_cleanup flags ws.error none ws.events st.xattrs ws.sb := by
  have hiff := digest_eligible_iff env pathname sb
  have hc : ¬ ((decide (sb.st_mode &&& S_IFDIR = S_IFDIR) &&
        !decide (strcmp pathname SYS_PATH = 0 ∨ strncmp pathname SYS_PREFIX 5 = 0) &&
        !(decide (env.statfs pathname = some RAMFS_MAGIC) ||
          decide (env.statfs pathname = some TMPFS_MAGIC))) = true ∧
        (!flags.ignore_digest) = true ∧ digest_matches g (st.xattrs pathname) = true) := by
    rintro ⟨h1, h2, h3⟩
    exact hwalk ⟨hiff.mp h1, by simpa using h2, h3⟩
  simp only [restorecon_recurse, if_neg hc, hfts, walk_start]
  generalize fts_walk g hnd flags
    (decide (strcmp pathname SYS_PATH = 0 ∨ strncmp pathname SYS_PREFIX 5 = 0))
    first.ftsent.fts_statp.st_dev (first :: rest) 0
    ⟨0, [event.fts_open pathname], ⟨st.fl_head, st.fc_count⟩⟩ = w
  obtain ⟨we, errno, ws⟩ := w
  cases we with
  | fault => rfl
  | out => rfl
  | done =>
    simp only []
    cases g.fc_digest with
    | none => rfl
    | some d =>
      simp only []
      by_cases hel : digest_eligible env pathname sb
      · have h1 := hiff.mpr hel
        simp only [h1, hel, true_and, Bool.not_eq_true']
      · have h1 : (decide (sb.st_mode &&& S_IFDIR = S_IFDIR) &&
            !decide (strcmp pathname SYS_PATH = 0 ∨ strncmp pathname SYS_PREFIX 5 = 0) &&
            !(decide (env.statfs pathname = some RAMFS_MAGIC) ||
              decide (env.statfs pathname = some TMPFS_MAGIC))) = false := by
          rw [← Bool.not_eq_true]
          exact fun hh => hel (hiff.mp hh)
        simp only [h1, hel, false_and, Bool.false_eq_true, if_false]

/-- C19. In a recursive call that opens the traversal, when the walk reads a directory-cycle
entry (on the walk's device, as every cycle fts reports is), the call returns -1 with the
error code ELOOP; the actions performed are those done before the entry was read, so no
later entry is looked up or relabelled and the digest attribute is not written, and the
stored attributes stay as they were. This holds for every setting of the abort-on-error
flag and of the other flags. -/
theorem restorecon_directory_cycle (g : globals) (env : top_env)
    (pathname_orig pathname : cstring) (flags : rest_flags) (st : rc_state)
    (hnd : selabel_handle) (sb : struct_stat) (pre post : List fts_item) (dc : fts_item)
    (ws : walk_state)
    (hh : g.fc_sehandle = some hnd)
    (hpath : canonical_pathname env flags.userealpath pathname_orig = Except.ok pathname)
    (hstat : env.lstat pathname = Except.ok sb)
    (hrec : flags.recurse = true)
    (hwalk : ¬ (digest_eligible env pathname sb ∧ flags.ignore_digest = false ∧
      digest_matches g (st.xattrs pathname) = true))
    (hfts : env.fts pathname flags.set_xdev = some (pre ++ dc :: post))
    (hdc : dc.ftsent.fts_info = fts_info_t.FTS_DC)
    (hdev : ¬ (flags.set_xdev = true ∧ dc.ftsent.fts_statp.st_dev ≠
      ((pre ++ dc :: post).headD dc).ftsent.fts_statp.st_dev))
    (hreach : walk_reaches g hnd (effective_flags flags)
      (decide (strcmp pathname SYS_PATH = 0 ∨ strncmp pathname SYS_PREFIX 5 = 0))
      ((pre ++ dc :: post).headD dc).ftsent.fts_statp.st_dev pre (walk_start pathname st) ws) :
    (selinux_restorecon g env pathname_orig flags st).rc = some (-1) ∧
    (selinux_restorecon g env pathname_orig flags st).errno = some Errno.ELOOP ∧
    (selinux_restorecon g env pathname_orig flags st).events = ws.events ∧
    (∀ q w, event.setxattr q w ∉ (selinux_restorecon g env pathname_orig flags st).events) ∧
    (selinux_restorecon g env pathname_orig flags st).st.xattrs = st.xattrs := by
  obtain ⟨hxd, hig, -, -, -⟩ := effective_flags_fields flags
  obtain ⟨first, rest, hfr⟩ : ∃ first rest, pre ++ dc :: post = first :: rest := by
    cases pre with
    | nil => exact ⟨dc, post, rfl⟩
    | cons a l => exact ⟨a, l ++ dc :: post, rfl⟩
  have hhead : ((pre ++ dc :: post).headD dc) = first := by rw [hfr]; rfl
  rw [hhead] at hdev hreach
  have hw : fts_walk g hnd (effective_flags flags)
      (decide (strcmp pathname SYS_PATH = 0 ∨ strncmp pathname SYS_PREFIX 5 = 0))
      first.ftsent.fts_statp.st_dev (first :: rest) 0 (walk_start pathname st) =
      (walk_end.out, some Errno.ELOOP, ⟨-1, ws.events, ws.sb⟩) := by
    rw [← hfr, hreach (dc :: post), fts_walk_step]
    have hc : fts_classify g hnd (effective_flags flags)
        (decide (strcmp pathname SYS_PATH = 0 ∨ strncmp pathname SYS_PREFIX 5 = 0))
        first.ftsent.fts_statp.st_dev dc = fts_action.cycle := by
      simp only [fts_classify, hxd, if_neg hdev, hdc]
    rw [hc]
  have hno : ∀ q w, event.setxattr q w ∉ ws.events := by
    intro q w hmem
    have h0 := hreach []
    simp only [List.append_nil, fts_walk] at h0
    have := fts_walk_no_setxattr g hnd (effective_flags flags)
      (decide (strcmp pathname SYS_PATH = 0 ∨ strncmp pathname SYS_PREFIX 5 = 0))
      first.ftsent.fts_statp.st_dev pre 0 pathname st
    rw [h0] at this
    exact this _ hmem q w rfl
  rw [selinux_restorecon_recurse g env pathname_orig pathname flags st hnd sb hh hpath hstat hrec,
    restorecon_recurse_walks g env hnd (effective_flags flags) pathname sb st first rest
      (by rw [hig]; exact hwalk) (by rw [hxd, ← hfr]; exact hfts), hw]
  exact ⟨rfl, rfl, rfl, hno, rfl⟩

/-- C19 instance. The walk of /a meets the cycle /a/loop after the root and before the file
/a/f: the call fails with ELOOP after the actions for the root alone. -/
theorem restorecon_directory_cycle_witness :
    (selinux_restorecon (sample_globals (sample_handle "u:r:b_t:s0".toList none) [])
        (sample_top ([sample_dir] ++ sample_cycle :: [sample_file]))
        "/a".toList { no_flags with recurse := true } ⟨fun _ => none, none, 0⟩).rc = some (-1) ∧
    (selinux_restorecon (sample_globals (sample_handle "u:r:b_t:s0".toList none) [])
        (sample_top ([sample_dir] ++ sample_cycle :: [sample_file]))
        "/a".toList { no_flags with recurse := true } ⟨fun _ => none, none, 0⟩).events =
      [event.fts_open "/a".toList,
       event.lookup "/a".toList "/a".toList 0o040755, event.getfilecon "/a".toList] :=
  have h := restorecon_directory_cycle
    (sample_globals (sample_handle "u:r:b_t:s0".toList none) [])
    (sample_top ([sample_dir] ++ sample_cycle :: [sample_file]))
    "/a".toList "/a".toList { no_flags with recurse := true } ⟨fun _ => none, none, 0⟩
    (sample_handle "u:r:b_t:s0".toList none) ⟨0o040755, 2, 1⟩
    [sample_dir] [sample_file] sample_cycle
    ⟨0, [event.fts_open "/a".toList,
       event.lookup "/a".toList "/a".toList 0o040755, event.getfilecon "/a".toList], ⟨none, 0⟩⟩
    rfl rfl rfl rfl (by decide) rfl rfl (by decide) (fun _ => rfl)
  ⟨h.1, h.2.2.1⟩

theorem filespec_scan_fresh (ls : cstring → Option Nat) (ino : Nat) (con file : cstring)
    (l : List file_spec_t) (hl : ∀ r ∈ l, r.ino ≠ ino) :
    (filespec_scan ls ino con file l).1 = 0 ∧
      (⟨ino, con, file⟩ : file_spec_t) ∈ (filespec_scan ls ino con file l).2 := by
  induction l with
  | nil => simp [filespec_scan]
  | cons fl next ih =>
    have h1 : ¬ ino = fl.ino := fun h => hl fl (List.mem_cons_self _ _) h.symm
    have ih := ih (fun r hr => hl r (List.mem_cons_of_mem _ hr))
    simp only [filespec_scan, if_neg h1]
    split
    · simp
    · exact ⟨ih.1, List.mem_cons_of_mem _ ih.2⟩

theorem filespec_scan_known (ls : cstring → Option Nat) (ino : Nat) (con file : cstring)
    (l : List file_spec_t) (hl : chain_desc l) (r : file_spec_t) (hr : r ∈ l)
    (hino : r.ino = ino) :
    (filespec_scan ls ino con file l).1 = 1 := by
  unfold chain_desc at hl
  induction l with
  | nil => cases hr
  | cons fl next ih =>
    have hhead := (List.pairwise_cons.mp hl).1
    have hnext := (List.pairwise_cons.mp hl).2
    simp only [filespec_scan]
    rcases List.mem_cons.mp hr with h | h
    · subst h
      rw [if_pos hino.symm]
      split
      · rfl
      · split <;> rfl
    · have hlt : ino < fl.ino := hino ▸ hhead _ h
      have h1 : ¬ ino = fl.ino := by omega
      have h2 : ¬ ino > fl.ino := by omega
      rw [if_neg h1, if_neg h2]
      exact ih hnext h

theorem filespec_add_fresh (ls : cstring → Option Nat) (t : Option fl_table)
    (ino : Nat) (con file : cstring) (hnew : ∀ r, fl_holds t r → r.ino ≠ ino) :
    (filespec_add ls t ino con file).1 = 0 ∧
      fl_holds (filespec_add ls t ino con file).2 ⟨ino, con, file⟩ := by
  have := filespec_scan_fresh ls ino con file (fl_chain t (filespec_hash ino))
    (fun r hr => hnew r ⟨_, hr⟩)
  rw [filespec_add_fst]
  refine ⟨this.1, filespec_hash ino, ?_⟩
  rw [filespec_add_chain, if_pos rfl]
  exact this.2

theorem filespec_add_known (ls : cstring → Option Nat) (t : Option fl_table) (ht : fl_wf t)
    (ino : Nat) (con file : cstring) (r : file_spec_t) (hr : fl_holds t r)
    (hino : r.ino = ino) :
    (filespec_add ls t ino con file).1 = 1 := by
  obtain ⟨h, hmem⟩ := hr
  have hh : h = filespec_hash ino := by rw [← hino]; exact ((ht h).2 _ hmem).symm
  subst hh
  rw [filespec_add_fst]
  exact filespec_scan_known ls ino con file _ (ht _).1 r hmem hino

/-- C15. The paths /a/x and /a/y share inode 42; the specification of /a/x gives
v:q:b_t:s0, that of /a/y gives w:q:c_t:s0, and the current context is u:r:a_t:s1. With
association recording and without the force flag, the context written when /a/x is processed
is u:r:b_t:s1, not the specification's context; /a/y then returns 0 after its lookup. -/
theorem restorecon_sb_first_link_type_only :
    selabel_lookup_raw sample_link_handle "/a/x".toList 0o100644 =
      Except.ok "v:q:b_t:s0".toList ∧
    selabel_lookup_raw sample_link_handle "/a/y".toList 0o100644 =
      Except.ok "w:q:c_t:s0".toList ∧
    (restorecon_sb none 0 sample_link_handle
        (sample_env (Except.ok "u:r:a_t:s1".toList) none 0) "/a/x".toList ⟨0o100644, 42, 1⟩
        { no_flags with add_assoc := true } ⟨none, 0⟩).events =
      [event.lookup "/a/x".toList "/a/x".toList 0o100644, event.getfilecon "/a/x".toList,
        event.setfilecon "/a/x".toList "u:r:b_t:s1".toList] ∧
    (restorecon_sb none 0 sample_link_handle
        (sample_env (Except.ok "u:r:b_t:s1".toList) (some 42) 0) "/a/y".toList
        ⟨0o100644, 42, 1⟩ { no_flags with add_assoc := true }
        (restorecon_sb none 0 sample_link_handle
          (sample_env (Except.ok "u:r:a_t:s1".toList) none 0) "/a/x".toList ⟨0o100644, 42, 1⟩
          { no_flags with add_assoc := true } ⟨none, 0⟩).st).rc = some 0 ∧
    (restorecon_sb none 0 sample_link_handle
        (sample_env (Except.ok "u:r:b_t:s1".toList) (some 42) 0) "/a/y".toList
        ⟨0o100644, 42, 1⟩ { no_flags with add_assoc := true }
        (restorecon_sb none 0 sample_link_handle
          (sample_env (Except.ok "u:r:a_t:s1".toList) none 0) "/a/x".toList ⟨0o100644, 42, 1⟩
          { no_flags with add_assoc := true } ⟨none, 0⟩).st).events =
      [event.lookup "/a/y".toList "/a/y".toList 0o100644] := by
  refine ⟨rfl, rfl, by decide, by decide, by decide⟩

/-- C15, amended. With association recording enabled, let x and y share an inode that has
no record yet in a table built by filespec_add, with lookups giving C1 for x and C2 for y.
Processing x records (inode, C1, x); under the force flag, with an existing current context
different from C1 and dry-run clear, it writes exactly C1 to x, once. Processing y
afterwards returns 0 after the lookup alone: no context read and no context write. -/
theorem restorecon_sb_hard_link (rootpath : Option cstring) (rootpathlen : Nat)
    (hnd : selabel_handle) (envx envy : sys_env) (x y : cstring) (sbx sby : struct_stat)
    (flags : rest_flags) (calls : List filespec_call) (fc_count : Nat)
    (keyx keyy c1 c2 : cstring)
    (hassoc : flags.add_assoc = true)
    (hino : sby.st_ino = sbx.st_ino)
    (hnew : ∀ r, fl_holds (filespec_run calls none) r → r.ino ≠ sbx.st_ino)
    (hkeyx : sb_lookup_key rootpath rootpathlen x = some keyx)
    (hlookx : selabel_lookup_raw hnd keyx sbx.st_mode = Except.ok c1)
    (hkeyy : sb_lookup_key rootpath rootpathlen y = some keyy)
    (hlooky : selabel_lookup_raw hnd keyy sby.st_mode = Except.ok c2) :
    fl_holds (restorecon_sb rootpath rootpathlen hnd envx x sbx flags
      ⟨filespec_run calls none, fc_count⟩).st.fl_head ⟨sbx.st_ino, c1, x⟩ ∧
    (flags.set_specctx = true → flags.nochange = false →
      ∀ cur, envx.lgetfilecon_raw x = Except.ok cur → cur ≠ c1 →
        (restorecon_sb rootpath rootpathlen hnd envx x sbx flags
          ⟨filespec_run calls none, fc_count⟩).events =
          [event.lookup x keyx sbx.st_mode, event.getfilecon x, event.setfilecon x c1]) ∧
    (restorecon_sb rootpath rootpathlen hnd envy y sby flags
      (restorecon_sb rootpath rootpathlen hnd envx x sbx flags
        ⟨filespec_run calls none, fc_count⟩).st).rc = some 0 ∧
    (restorecon_sb rootpath rootpathlen hnd envy y sby flags
      (restorecon_sb rootpath rootpathlen hnd envx x sbx flags
        ⟨filespec_run calls none, fc_count⟩).st).events = [event.lookup y keyy sby.st_mode] := by
  have ht := filespec_run_wf calls none fl_wf_none
  have hfresh := filespec_add_fresh envx.lstat64 (filespec_run calls none) sbx.st_ino c1 x hnew
  have hwf := filespec_add_wf envx.lstat64 (filespec_run calls none) sbx.st_ino c1 x ht
  have hstx := restorecon_sb_state rootpath rootpathlen hnd envx x sbx flags
    ⟨filespec_run calls none, fc_count⟩ keyx c1 hkeyx hlookx
  simp only [hassoc, if_true] at hstx
  have hknown : (filespec_add envy.lstat64
      (filespec_add envx.lstat64 (filespec_run calls none) sbx.st_ino c1 x).2
      sby.st_ino c2 y).1 = 1 :=
    filespec_add_known envy.lstat64 _ hwf sby.st_ino c2 y _ hfresh.2 hino.symm
  refine ⟨?_, ?_, ?_, ?_⟩
  · rw [hstx]
    exact hfresh.2
  · intro hforce hdry cur hcur hdiff
    have hs : ¬ strcmp cur c1 = 0 := by rw [strcmp_eq_zero_iff]; exact hdiff
    simp only [restorecon_sb, hkeyx, hlookx, hassoc, if_true, hfresh.1, hcur, hforce, hdry]
    by_cases hl : envx.lsetfilecon x c1 < 0
    · simp [hs, hl]
    · simp [hs, hl]
  · rw [hstx]
    simp only [restorecon_sb, hkeyy, hlooky, hassoc, if_true, hknown]
    simp
  · rw [hstx]
    simp only [restorecon_sb, hkeyy, hlooky, hassoc, if_true, hknown]
    simp

/-- C15 instance. The paths /a/x and /a/y share inode 42 and their specifications give
v:q:b_t:s0 and w:q:c_t:s0; under the force flag /a/x is set to v:q:b_t:s0 and /a/y is left
alone. -/
theorem restorecon_sb_hard_link_witness :
    (restorecon_sb none 0 sample_link_handle
        (sample_env (Except.ok "u:r:a_t:s1".toList) none 0) "/a/x".toList ⟨0o100644, 42, 1⟩
        { no_flags with add_assoc := true, set_specctx := true }
        ⟨filespec_run [] none, 0⟩).events =
      [event.lookup "/a/x".toList "/a/x".toList 0o100644, event.getfilecon "/a/x".toList,
        event.setfilecon "/a/x".toList "v:q:b_t:s0".toList] ∧
    (restorecon_sb none 0 sample_link_handle
        (sample_env (Except.ok "v:q:b_t:s0".toList) (some 42) 0) "/a/y".toList
        ⟨0o100644, 42, 1⟩ { no_flags with add_assoc := true, set_specctx := true }
        (restorecon_sb none 0 sample_link_handle
          (sample_env (Except.ok "u:r:a_t:s1".toList) none 0) "/a/x".toList ⟨0o100644, 42, 1⟩
          { no_flags with add_assoc := true, set_specctx := true }
          ⟨filespec_run [] none, 0⟩).st).events =
      [event.lookup "/a/y".toList "/a/y".toList 0o100644] :=
  have h := restorecon_sb_hard_link none 0 sample_link_handle
    (sample_env (Except.ok "u:r:a_t:s1".toList) none 0)
    (sample_env (Except.ok "v:q:b_t:s0".toList) (some 42) 0)
    "/a/x".toList "/a/y".toList ⟨0o100644, 42, 1⟩ ⟨0o100644, 42, 1⟩
    { no_flags with add_assoc := true, set_specctx := true } [] 0
    "/a/x".toList "/a/y".toList "v:q:b_t:s0".toList "w:q:c_t:s0".toList
    rfl rfl (by rintro r ⟨h, hr⟩; cases hr) rfl rfl rfl rfl
  ⟨h.2.1 rfl rfl "u:r:a_t:s1".toList rfl (by decide), h.2.2.2⟩

theorem subs_line_slen (buf buf1 : line_buf) (r : struct_selabel_sub)
    (h : subs_line buf = some (buf1, some r)) : r.slen = r.src.length := by
  revert h
  unfold subs_line
  intro h
  split at h
  · cases h
  · split at h
    · cases h
    · split at h
      · cases h
      · simp only [] at h
        split at h
        · cases h
        · split at h
          · cases h
          · split at h
            · cases h
            · split at h
              · cases h
              · simp only [Option.some.injEq, Prod.mk.injEq] at h
                rw [← h.2]

theorem subs_loop_file_rules (buf : line_buf) (lines : List (List Char))
    (list : List struct_selabel_sub) (sub : Option struct_selabel_sub) :
    (subs_loop buf lines list sub).map Prod.fst =
      (subs_file_rules buf lines).map (fun rs => rs.reverse ++ list) := by
  induction lines generalizing buf list sub with
  | nil => simp [subs_loop, subs_file_rules]
  | cons line rest ih =>
    simp only [subs_loop, subs_file_rules]
    cases h : subs_line (fgets_store buf line) with
    | none => rfl
    | some p =>
      obtain ⟨buf1, o⟩ := p
      cases o with
      | none => exact ih buf1 list sub
      | some r =>
        simp only []
        rw [ih buf1 (r :: list) (some r)]
        cases subs_file_rules buf1 rest with
        | none => rfl
        | some rs => simp

theorem subs_file_rules_slen (buf : line_buf) (lines : List (List Char))
    (rs : List struct_selabel_sub) (h : subs_file_rules buf lines = some rs) :
    ∀ q ∈ rs, q.slen = q.src.length := by
  induction lines generalizing buf rs with
  | nil =>
    simp only [subs_file_rules, Option.some.injEq] at h
    subst h
    simp
  | cons line rest ih =>
    simp only [subs_file_rules] at h
    cases hl : subs_line (fgets_store buf line) with
    | none => rw [hl] at h; cases h
    | some p =>
      obtain ⟨buf1, o⟩ := p
      rw [hl] at h
      cases o with
      | none => exact ih buf1 rs h
      | some r =>
        simp only [] at h
        cases hr : subs_file_rules buf1 rest with
        | none => rw [hr] at h; cases h
        | some rs1 =>
          rw [hr] at h
          simp only [Option.map_some', Option.some.injEq] at h
          subst h
          intro q hq
          rcases List.mem_cons.mp hq with hq | hq
          · subst hq
            exact subs_line_slen _ _ _ hl
          · exact ih buf1 rs1 hr q hq

theorem selabel_sub_append_skip (a b : List struct_selabel_sub) (key : cstring)
    (hlen : ∀ q ∈ a, q.slen = q.src.length) (hno : ∀ q ∈ a, ¬ sub_matches q key) :
    selabel_sub (a ++ b) key = selabel_sub b key := by
  induction a with
  | nil => rfl
  | cons p a ih =>
    have hc := sub_cond_iff p key (hlen p (List.mem_cons_self _ _))
    have hp := hno p (List.mem_cons_self _ _)
    simp only [List.cons_append, selabel_sub]
    rw [if_neg (fun h => hp (hc.mp h))]
    exact ih (fun q hq => hlen q (List.mem_cons_of_mem _ hq))
      (fun q hq => hno q (List.mem_cons_of_mem _ hq))

theorem selabel_sub_head (q : struct_selabel_sub) (rest : List struct_selabel_sub)
    (key : cstring) (hlen : q.slen = q.src.length) (hm : sub_matches q key) :
    selabel_sub (q :: rest) key = selabel_sub [q] key := by
  have hc := (sub_cond_iff q key hlen).mpr hm
  simp only [selabel_sub]
  rw [if_pos hc, if_pos hc]

/-- C12. The file /a /x, /a /y puts the later rule first in the list that selabel_subs_init
returns, and selabel_sub resolves the key /a/f by that later rule, to /y/f; the rule that
appears first in the file, which would give /x/f, is not the one used. -/
theorem selabel_subs_init_later_rule_wins :
    selabel_subs_init (fun _ => NUL) (some sample_subs_file) true 0 [] =
      some ⟨[⟨"/a".toList, 2, "/y".toList⟩, ⟨"/a".toList, 2, "/x".toList⟩], false⟩ ∧
    selabel_sub [⟨"/a".toList, 2, "/y".toList⟩, ⟨"/a".toList, 2, "/x".toList⟩] "/a/f".toList =
      some "/y/f".toList ∧
    selabel_sub [⟨"/a".toList, 2, "/x".toList⟩] "/a/f".toList = some "/x/f".toList := by
  refine ⟨by decide, by decide, by decide⟩

/-- C12, amended. When selabel_subs_init reads a rule file, the list it returns holds the
rules of the file in reverse order of their lines, in front of the rules it was given; every
loaded rule has the length of its src cached; and selabel_sub over the returned list resolves
a key by the matching rule that appears latest in the file, whatever the prefix lengths. -/
theorem selabel_subs_init_reverse_order (buf0 : line_buf) (content : List Char)
    (digest_rc : Int) (list : List struct_selabel_sub) (r : subs_init_result)
    (h : selabel_subs_init buf0 (some content) true digest_rc list = some r) :
    ∃ rs, subs_file_rules buf0 (fgets_lines (BUF_SIZE - 1) content []) = some rs ∧
      r.list = rs.reverse ++ list ∧
      (∀ q ∈ rs, q.slen = q.src.length) ∧
      ∀ (key : cstring) (pre : List struct_selabel_sub) (q : struct_selabel_sub)
        (post : List struct_selabel_sub),
        rs = pre ++ q :: post → sub_matches q key → (∀ p ∈ post, ¬ sub_matches p key) →
        selabel_sub r.list key = selabel_sub [q] key := by
  have hl := subs_loop_file_rules buf0 (fgets_lines (BUF_SIZE - 1) content []) list none
  simp only [selabel_subs_init] at h
  cases hloop : subs_loop buf0 (fgets_lines (BUF_SIZE - 1) content []) list none with
  | none => rw [hloop] at h; simp at h
  | some p =>
    obtain ⟨list1, sub⟩ := p
    rw [hloop] at h hl
    have hr : r.list = list1 := by
      simp only [Bool.true_eq_false, if_false] at h
      by_cases hd : digest_rc < 0
      · rw [if_pos hd] at h
        cases h
        rfl
      · rw [if_neg hd] at h
        cases h
        rfl
    cases hrs : subs_file_rules buf0 (fgets_lines (BUF_SIZE - 1) content []) with
    | none => rw [hrs] at hl; cases hl
    | some rs =>
      rw [hrs] at hl
      simp only [Option.map_some', Option.some.injEq] at hl
      have hslen := subs_file_rules_slen _ _ rs hrs
      refine ⟨rs, rfl, by rw [hr, hl], hslen, ?_⟩
      intro key pre q post hsplit hq hpost
      rw [hr, hl, hsplit, List.reverse_append, List.reverse_cons, List.append_assoc,
        List.append_assoc]
      rw [selabel_sub_append_skip post.reverse _ key
        (fun p hp => hslen p (by rw [hsplit]; simp [List.mem_reverse.mp hp]))
        (fun p hp => hpost p (List.mem_reverse.mp hp))]
      exact selabel_sub_head q _ key (hslen q (by rw [hsplit]; simp)) hq

/-- C12 instance. In the file /a /x, /a /y both rules match the key /a/f; the list returned
resolves it as the second rule alone does. -/
theorem selabel_subs_init_reverse_order_witness :
    selabel_sub [⟨"/a".toList, 2, "/y".toList⟩, ⟨"/a".toList, 2, "/x".toList⟩] "/a/f".toList =
      selabel_sub [⟨"/a".toList, 2, "/y".toList⟩] "/a/f".toList :=
  (selabel_subs_init_reverse_order (fun _ => NUL) sample_subs_file 0 []
      ⟨[⟨"/a".toList, 2, "/y".toList⟩, ⟨"/a".toList, 2, "/x".toList⟩], false⟩
      (by decide)).elim
    (fun rs hrs =>
      hrs.2.2.2 "/a/f".toList [⟨"/a".toList, 2, "/x".toList⟩] ⟨"/a".toList, 2, "/y".toList⟩ []
        (Option.some.inj (hrs.1.symm.trans (by decide)))
        (Or.inr ⟨"f".toList, by decide⟩) (by simp))

theorem fts_classify_cycle (g : globals) (hnd : selabel_handle) (flags : rest_flags)
    (issys : Bool) (dev_num : Nat) (it : fts_item)
    (h : fts_classify g hnd flags issys dev_num it = fts_action.cycle) :
    it.ftsent.fts_info = fts_info_t.FTS_DC := by
  revert h
  unfold fts_classify
  by_cases hx : flags.set_xdev = true ∧ it.ftsent.fts_statp.st_dev ≠ dev_num
  · rw [if_pos hx]
    intro h
    cases h
  · rw [if_neg hx]
    cases hk : it.ftsent.fts_info
    all_goals try simp only []
    all_goals
      first
        | (intro _; trivial)
        | (intro h; cases h)
        | (by_cases h1 : issys = true ∧ (!selabel_partial_match hnd it.ftsent.fts_path) = true
           · rw [if_pos h1]
             intro h
             cases h
           · rw [if_neg h1]
             by_cases h2 : check_excluded g.exclude_lst it.ftsent.fts_path ≠ 0
             · rw [if_pos h2]
               intro h
               cases h
             · rw [if_neg h2]
               intro h
               cases h)

theorem fts_walk_calls_initial (g : globals) (hnd : selabel_handle) (flags : rest_flags)
    (issys : Bool) (dev_num : Nat) (items : List fts_item) (k : Nat) (ws : walk_state) :
    (fts_walk_calls g hnd flags issys dev_num items k ws).map Prod.fst <+:
      fts_selected g hnd flags issys dev_num items k := by
  induction items generalizing k ws with
  | nil => simp [fts_walk_calls, fts_selected]
  | cons it rest ih =>
    cases k with
    | succ k => simp only [fts_walk_calls, fts_selected]; exact ih k ws
    | zero =>
      rw [fts_walk_calls_step, fts_selected_step]
      cases fts_classify g hnd flags issys dev_num it with
      | pass => exact ih 0 ws
      | skip => exact ih _ ws
      | cycle => simp
      | process =>
        simp only [calls_process]
        cases hr : (restorecon_sb g.rootpath g.rootpathlen hnd it.env it.ftsent.fts_path
          it.ftsent.fts_statp flags ws.sb).rc with
        | none => simp [List.prefix_cons_inj]
        | some rc =>
          simp only []
          by_cases hab : int_or ws.error rc ≠ 0 ∧ flags.abort_on_error = true
          · rw [if_pos hab]
            simp [List.prefix_cons_inj]
          · rw [if_neg hab]
            simp only [List.map_cons]
            exact (List.prefix_cons_inj it).mpr (ih 0 _)

theorem fts_walk_no_abort (g : globals) (hnd : selabel_handle) (flags : rest_flags)
    (issys : Bool) (dev_num : Nat) (items : List fts_item) (k : Nat) (ws : walk_state)
    (hdc : ∀ it ∈ items, it.ftsent.fts_info ≠ fts_info_t.FTS_DC)
    (hret : ∀ c ∈ fts_walk_calls g hnd flags issys dev_num items k ws, c.2 ≠ none)
    (hgo : flags.abort_on_error = false ∨
      (ws.error = 0 ∧ ∀ c ∈ fts_walk_calls g hnd flags issys dev_num items k ws, c.2 = some 0)) :
    (fts_walk g hnd flags issys dev_num items k ws).1 = walk_end.done ∧
    (fts_walk_calls g hnd flags issys dev_num items k ws).map Prod.fst =
      fts_selected g hnd flags issys dev_num items k := by
  induction items generalizing k ws with
  | nil => simp [fts_walk, fts_walk_calls, fts_selected]
  | cons it rest ih =>
    have hdc1 : ∀ it ∈ rest, it.ftsent.fts_info ≠ fts_info_t.FTS_DC :=
      fun i hi => hdc i (List.mem_cons_of_mem _ hi)
    cases k with
    | succ k =>
      simp only [fts_walk, fts_walk_calls, fts_selected] at hret hgo ⊢
      exact ih k ws hdc1 hret hgo
    | zero =>
      rw [fts_walk_calls_step] at hret hgo
      rw [fts_walk_step, fts_walk_calls_step, fts_selected_step]
      cases hcl : fts_classify g hnd flags issys dev_num it with
      | pass =>
        rw [hcl] at hret hgo
        exact ih 0 ws hdc1 hret hgo
      | skip =>
        rw [hcl] at hret hgo
        exact ih _ ws hdc1 hret hgo
      | cycle =>
        exact absurd (fts_classify_cycle g hnd flags issys dev_num it hcl)
          (hdc it (List.mem_cons_self _ _))
      | process =>
        rw [hcl] at hret hgo
        simp only [walk_process, calls_process] at hret hgo ⊢
        cases hr : (restorecon_sb g.rootpath g.rootpathlen hnd it.env it.ftsent.fts_path
          it.ftsent.fts_statp flags ws.sb).rc with
        | none =>
          rw [hr] at hret
          exact absurd rfl (hret (it, none) (List.mem_singleton.mpr rfl))
        | some rc =>
          rw [hr] at hret hgo
          simp only [] at hret hgo ⊢
          have hab : ¬ (int_or ws.error rc ≠ 0 ∧ flags.abort_on_error = true) := by
            rintro ⟨h1, h2⟩
            rcases hgo with h | ⟨he, hall⟩
            · rw [h] at h2
              cases h2
            · rw [if_pos ⟨h1, h2⟩] at hall
              have := hall (it, some rc) (List.mem_singleton.mpr rfl)
              simp only [Option.some.injEq] at this
              rw [he, this] at h1
              exact h1 (by decide)
          rw [if_neg hab] at hret hgo
          rw [if_neg hab, if_neg hab]
          have := ih 0 ⟨int_or ws.error rc, ws.events ++
              (restorecon_sb g.rootpath g.rootpathlen hnd it.env it.ftsent.fts_path
                it.ftsent.fts_statp flags ws.sb).events,
              (restorecon_sb g.rootpath g.rootpathlen hnd it.env it.ftsent.fts_path
                it.ftsent.fts_statp flags ws.sb).st⟩ hdc1
            (fun c hc => hret c (List.mem_cons_of_mem _ hc))
            (by
              rcases hgo with h | ⟨he, hall⟩
              · exact Or.inl h
              · refine Or.inr ⟨?_, fun c hc => hall c (List.mem_cons_of_mem _ hc)⟩
                have := hall (it, some rc) (List.mem_cons_self _ _)
                simp only [Option.some.injEq] at this
                simp only []
                rw [he, this]
                decide)
          exact ⟨this.1, by rw [List.map_cons, this.2]⟩

theorem fts_walk_abort (g : globals) (hnd : selabel_handle) (flags : rest_flags)
    (issys : Bool) (dev_num : Nat) (items : List fts_item) (k : Nat) (ws : walk_state)
    (hdc : ∀ it ∈ items, it.ftsent.fts_info ≠ fts_info_t.FTS_DC)
    (hret : ∀ c ∈ fts_walk_calls g hnd flags issys dev_num items k ws, c.2 ≠ none)
    (hab : flags.abort_on_error = true) (hws : ws.error = 0)
    (hfail : ∃ c ∈ fts_walk_calls g hnd flags issys dev_num items k ws, c.2 ≠ some 0) :
    (∃ pre it, fts_walk_calls g hnd flags issys dev_num items k ws = pre ++ [(it, some (-1))] ∧
      ∀ c ∈ pre, c.2 = some 0) ∧
    (fts_walk g hnd flags issys dev_num items k ws).1 = walk_end.out ∧
    (fts_walk g hnd flags issys dev_num items k ws).2.1 = none ∧
    (fts_walk g hnd flags issys dev_num items k ws).2.2.error = -1 := by
  induction items generalizing k ws with
  | nil =>
    obtain ⟨c, hc, _⟩ := hfail
    simp [fts_walk_calls] at hc
  | cons it rest ih =>
    have hdc1 : ∀ it ∈ rest, it.ftsent.fts_info ≠ fts_info_t.FTS_DC :=
      fun i hi => hdc i (List.mem_cons_of_mem _ hi)
    cases k with
    | succ k =>
      simp only [fts_walk, fts_walk_calls] at hret hfail ⊢
      exact ih k ws hdc1 hret hws hfail
    | zero =>
      rw [fts_walk_calls_step] at hret hfail
      rw [fts_walk_step, fts_walk_calls_step]
      cases hcl : fts_classify g hnd flags issys dev_num it with
      | pass =>
        rw [hcl] at hret hfail
        exact ih 0 ws hdc1 hret hws hfail
      | skip =>
        rw [hcl] at hret hfail
        exact ih _ ws hdc1 hret hws hfail
      | cycle =>
        exact absurd (fts_classify_cycle g hnd flags issys dev_num it hcl)
          (hdc it (List.mem_cons_self _ _))
      | process =>
        rw [hcl] at hret hfail
        simp only [walk_process, calls_process] at hret hfail ⊢
        rcases restorecon_sb_rc_values g.rootpath g.rootpathlen hnd it.env it.ftsent.fts_path
          it.ftsent.fts_statp flags ws.sb with hr | hr | hr
        · rw [hr] at hret
          exact absurd rfl (hret (it, none) (List.mem_singleton.mpr rfl))
        · rw [hr] at hret hfail
          simp only [] at hret hfail ⊢
          have hz : int_or ws.error 0 = 0 := by rw [hws]; decide
          have hno : ¬ (int_or ws.error 0 ≠ 0 ∧ flags.abort_on_error = true) :=
            fun h => h.1 hz
          rw [if_neg hno] at hret hfail
          rw [hr]
          simp only []
          rw [if_neg hno, if_neg hno]
          have hfail1 : ∃ c ∈ fts_walk_calls g hnd flags issys dev_num rest 0
              ⟨int_or ws.error 0, ws.events ++
                (restorecon_sb g.rootpath g.rootpathlen hnd it.env it.ftsent.fts_path
                  it.ftsent.fts_statp flags ws.sb).events,
                (restorecon_sb g.rootpath g.rootpathlen hnd it.env it.ftsent.fts_path
                  it.ftsent.fts_statp flags ws.sb).st⟩, c.2 ≠ some 0 := by
            obtain ⟨c, hc, hne⟩ := hfail
            rcases List.mem_cons.mp hc with h | h
            · subst h
              exact absurd rfl hne
            · exact ⟨c, h, hne⟩
          have := ih 0 _ hdc1 (fun c hc => hret c (List.mem_cons_of_mem _ hc)) hz hfail1
          obtain ⟨⟨pre, i, hpre, hall⟩, h2⟩ := this
          refine ⟨⟨(it, some 0) :: pre, i, by rw [hpre]; rfl, ?_⟩, h2⟩
          intro c hc
          rcases List.mem_cons.mp hc with h | h
          · subst h
            rfl
          · exact hall c h
        · have hz : int_or ws.error (-1) = -1 := by rw [hws]; decide
          have hyes : int_or ws.error (-1) ≠ 0 ∧ flags.abort_on_error = true :=
            ⟨by rw [hz]; decide, hab⟩
          rw [hr]
          simp only []
          rw [if_pos hyes, if_pos hyes]
          exact ⟨⟨[], it, rfl, by simp⟩, rfl, rfl, hz⟩

/-- C20. The walk of /a reads the root, then a directory-cycle entry, then the file /a/f,
with abort-on-error clear: the only restorecon_sb call made is the one for the root and it
returns 0, the file is never processed, and the result is -1 all the same. -/
theorem restorecon_cycle_fails_without_failed_call :
    ({ no_flags with recurse := true } : rest_flags).abort_on_error = false ∧
    (fts_walk_calls (sample_globals (sample_handle "u:r:b_t:s0".toList none) [])
        (sample_handle "u:r:b_t:s0".toList none) { no_flags with recurse := true } false 1
        [sample_dir, sample_cycle, sample_file] 0
        (walk_start "/a".toList ⟨fun _ => none, none, 0⟩)).map
      (fun c => (c.1.ftsent.fts_path, c.2)) = [("/a".toList, some 0)] ∧
    (fts_selected (sample_globals (sample_handle "u:r:b_t:s0".toList none) [])
        (sample_handle "u:r:b_t:s0".toList none) { no_flags with recurse := true } false 1
        [sample_dir, sample_file] 0).map (fun it => it.ftsent.fts_path) =
      ["/a".toList, "/a/f".toList] ∧
    (selinux_restorecon (sample_globals (sample_handle "u:r:b_t:s0".toList none) [])
        (sample_top [sample_dir, sample_cycle, sample_file])
        "/a".toList { no_flags with recurse := true } ⟨fun _ => none, none, 0⟩).rc = some (-1) ∧
    (selinux_restorecon (sample_globals (sample_handle "u:r:b_t:s0".toList none) [])
        (sample_top [sample_dir, sample_cycle, sample_file])
        "/a".toList { no_flags with recurse := true } ⟨fun _ => none, none, 0⟩).events =
      [event.fts_open "/a".toList,
       event.lookup "/a".toList "/a".toList 0o040755, event.getfilecon "/a".toList] := by
  refine ⟨rfl, by decide, by decide, by decide, by decide⟩

/-- C20, amended. In a recursive call that opens the traversal, over a stream without
directory-cycle entries in which every restorecon_sb call returns: the entries processed are
always an initial part of the non-skipped entries; with abort-on-error clear they are all of
them; when some call failed the result is -1, and with abort-on-error set the failing call
is the last call made and the only one that failed; when no call failed every non-skipped
entry was processed and the result is 0, or what setxattr returns when the digest is
written. -/
theorem restorecon_walk_error_policy (g : globals) (env : top_env)
    (pathname_orig pathname : cstring) (flags : rest_flags) (st : rc_state)
    (hnd : selabel_handle) (sb : struct_stat) (first : fts_item) (rest : List fts_item)
    (calls : List (fts_item × Option Int))
    (hh : g.fc_sehandle = some hnd)
    (hpath : canonical_pathname env flags.userealpath pathname_orig = Except.ok pathname)
    (hstat : env.lstat pathname = Except.ok sb)
    (hrec : flags.recurse = true)
    (hwalk : ¬ (digest_eligible env pathname sb ∧ flags.ignore_digest = false ∧
      digest_matches g (st.xattrs pathname) = true))
    (hfts : env.fts pathname flags.set_xdev = some (first :: rest))
    (hdc : ∀ it ∈ first :: rest, it.ftsent.fts_info ≠ fts_info_t.FTS_DC)
    (hcalls : calls = fts_walk_calls g hnd (effective_flags flags)
      (decide (strcmp pathname SYS_PATH = 0 ∨ strncmp pathname SYS_PREFIX 5 = 0))
      first.ftsent.fts_statp.st_dev (first :: rest) 0 (walk_start pathname st))
    (hret : ∀ c ∈ calls, c.2 ≠ none) :
    (calls.map Prod.fst <+: fts_selected g hnd (effective_flags flags)
      (decide (strcmp pathname SYS_PATH = 0 ∨ strncmp pathname SYS_PREFIX 5 = 0))
      first.ftsent.fts_statp.st_dev (first :: rest) 0) ∧
    (flags.abort_on_error = false →
      calls.map Prod.fst = fts_selected g hnd (effective_flags flags)
        (decide (strcmp pathname SYS_PATH = 0 ∨ strncmp pathname SYS_PREFIX 5 = 0))
        first.ftsent.fts_statp.st_dev (first :: rest) 0) ∧
    ((∃ c ∈ calls, c.2 ≠ some 0) →
      (selinux_restorecon g env pathname_orig flags st).rc = some (-1) ∧
      (flags.abort_on_error = true →
        ∃ pre it, calls = pre ++ [(it, some (-1))] ∧ ∀ c ∈ pre, c.2 = some 0)) ∧
    ((∀ c ∈ calls, c.2 = some 0) →
      calls.map Prod.fst = fts_selected g hnd (effective_flags flags)
        (decide (strcmp pathname SYS_PATH = 0 ∨ strncmp pathname SYS_PREFIX 5 = 0))
        first.ftsent.fts_statp.st_dev (first :: rest) 0 ∧
      (selinux_restorecon g env pathname_orig flags st).rc =
        some (match g.fc_digest with
          | some d =>
            if digest_eligible env pathname sb ∧ flags.nochange = false then
              env.setxattr pathname (d.take g.fc_digest_len)
            else 0
          | none => 0)) := by
  obtain ⟨hxd, hig, hnc, habf, -⟩ := effective_flags_fields flags
  subst hcalls
  have hrw := (selinux_restorecon_recurse g env pathname_orig pathname flags st hnd sb hh hpath
    hstat hrec).trans
    (restorecon_recurse_walks g env hnd (effective_flags flags) pathname sb st first rest
      (by rw [hig]; exact hwalk) (by rw [hxd]; exact hfts))
  have herr := fts_walk_done_error g hnd (effective_flags flags)
    (decide (strcmp pathname SYS_PATH = 0 ∨ strncmp pathname SYS_PREFIX 5 = 0))
    first.ftsent.fts_statp.st_dev (first :: rest) 0 (walk_start pathname st) (Or.inl rfl)
  refine ⟨fts_walk_calls_initial _ _ _ _ _ _ _ _, ?_, ?_, ?_⟩
  · intro hab
    exact (fts_walk_no_abort g hnd (effective_flags flags) _ _ _ 0 _ hdc hret
      (Or.inl (habf.trans hab))).2
  · intro hfail
    by_cases hab : flags.abort_on_error = true
    · have ha := fts_walk_abort g hnd (effective_flags flags) _ _ _ 0 _ hdc hret
        (habf.trans hab) rfl hfail
      refine ⟨?_, fun _ => ha.1⟩
      obtain ⟨-, h1, -, h3⟩ := ha
      revert hrw h1 h3
      generalize fts_walk g hnd (effective_flags flags)
        (decide (strcmp pathname SYS_PATH = 0 ∨ strncmp pathname SYS_PREFIX 5 = 0))
        first.ftsent.fts_statp.st_dev (first :: rest) 0 (walk_start pathname st) = w
      obtain ⟨we, errno, ws⟩ := w
      intro hrw h1 h3
      simp only [] at h1 h3
      subst h1
      rw [hrw]
      simp only [restorecon_cleanup, h3]
    · have hab0 : flags.abort_on_error = false := by
        cases h : flags.abort_on_error
        · rfl
        · exact absurd h hab
      have hd := (fts_walk_no_abort g hnd (effective_flags flags) _ _ _ 0 _ hdc hret
        (Or.inl (habf.trans hab0))).1
      refine ⟨?_, fun h => absurd h hab⟩
      have he : (fts_walk g hnd (effective_flags flags)
          (decide (strcmp pathname SYS_PATH = 0 ∨ strncmp pathname SYS_PREFIX 5 = 0))
          first.ftsent.fts_statp.st_dev (first :: rest) 0
          (walk_start pathname st)).2.2.error = -1 := by
        rcases herr.1 with h0 | h1
        · obtain ⟨c, hc, hne⟩ := hfail
          exact absurd (((herr.2 hd).mp h0).2 c hc) hne
        · exact h1
      revert hrw hd he
      generalize fts_walk g hnd (effective_flags flags)
        (decide (strcmp pathname SYS_PATH = 0 ∨ strncmp pathname SYS_PREFIX 5 = 0))
        first.ftsent.fts_statp.st_dev (first :: rest) 0 (walk_start pathname st) = w
      obtain ⟨we, errno, ws⟩ := w
      intro hrw hd he
      simp only [] at hd he
      subst hd
      rw [hrw]
      have hne : ¬ (digest_eligible env pathname sb ∧ (effective_flags flags).nochange = false ∧
          ws.error = 0) := by
        rintro ⟨-, -, h⟩
        rw [he] at h
        exact absurd h (by decide)
      cases g.fc_digest with
      | none => simp only [restorecon_cleanup, he]
      | some d =>
        simp only []
        rw [if_neg hne]
        simp only [restorecon_cleanup, he]
  · intro hall
    have hn := fts_walk_no_abort g hnd (effective_flags flags) _ _ _ 0 _ hdc hret
      (Or.inr ⟨rfl, hall⟩)
    refine ⟨hn.2, ?_⟩
    have hd := hn.1
    have he := (herr.2 hd).mpr ⟨rfl, hall⟩
    revert hrw hd he
    generalize fts_walk g hnd (effective_flags flags)
      (decide (strcmp pathname SYS_PATH = 0 ∨ strncmp pathname SYS_PREFIX 5 = 0))
      first.ftsent.fts_statp.st_dev (first :: rest) 0 (walk_start pathname st) = w
    obtain ⟨we, errno, ws⟩ := w
    intro hrw hd he
    simp only [] at hd he
    subst hd
    rw [hrw]
    cases g.fc_digest with
    | none => simp only [restorecon_cleanup, he]
    | some d =>
      simp only []
      by_cases hel : digest_eligible env pathname sb ∧ flags.nochange = false
      · rw [if_pos hel, if_pos ⟨hel.1, hnc.trans hel.2, he⟩]
        rfl
      · rw [if_neg hel, if_neg (fun h => hel ⟨h.1, hnc.symm.trans h.2.1⟩)]
        simp only [restorecon_cleanup, he]

/-- C20 instance. With abort-on-error set, the walk of /a over the root, the unreadable file
/a/e and the file /a/f makes the calls for the root and for /a/e only, and returns -1. -/
theorem restorecon_walk_error_policy_witness :
    (fts_walk_calls (sample_globals (sample_handle "u:r:b_t:s0".toList none) [])
        (sample_handle "u:r:b_t:s0".toList none)
        (effective_flags { no_flags with recurse := true, abort_on_error := true }) false 1
        [sample_dir, sample_bad, sample_file] 0
        (walk_start "/a".toList ⟨fun _ => none, none, 0⟩)).map
      (fun c => (c.1.ftsent.fts_path, c.2)) =
      [("/a".toList, some 0), ("/a/e".toList, some (-1))] ∧
    (selinux_restorecon (sample_globals (sample_handle "u:r:b_t:s0".toList none) [])
        (sample_top [sample_dir, sample_bad, sample_file])
        "/a".toList { no_flags with recurse := true, abort_on_error := true }
        ⟨fun _ => none, none, 0⟩).rc = some (-1) :=
  have h := restorecon_walk_error_policy
    (sample_globals (sample_handle "u:r:b_t:s0".toList none) [])
    (sample_top [sample_dir, sample_bad, sample_file])
    "/a".toList "/a".toList { no_flags with recurse := true, abort_on_error := true }
    ⟨fun _ => none, none, 0⟩
    (sample_handle "u:r:b_t:s0".toList none) ⟨0o040755, 2, 1⟩
    sample_dir [sample_bad, sample_file] _
    rfl rfl rfl rfl (by decide) rfl (by decide) rfl (by decide)
  ⟨by decide, (h.2.2.1 (by decide)).1⟩

theorem trim_slashes_pos (d : cstring) (n : Nat) (h : 0 < n) : 0 < trim_slashes d n := by
  induction n with
  | zero => omega
  | succ n ih =>
    simp only [trim_slashes]
    split
    · rename_i hc
      exact ih (by omega)
    · omega

theorem trim_slashes_spec (d : cstring) (n : Nat) (hn : n ≤ d.length) :
    d.take n = d.take (trim_slashes d n) ++ List.replicate (n - trim_slashes d n) '/' ∧
    (trim_slashes d n ≤ 1 ∨ cstr_at d (trim_slashes d n - 1) ≠ some '/') := by
  induction n with
  | zero => simp [trim_slashes]
  | succ n ih =>
    simp only [trim_slashes]
    split
    · rename_i hc
      have ih := ih (by omega)
      have hle := trim_slashes_le d n
      refine ⟨?_, ih.2⟩
      have hget : d[n]? = some '/' := by
        have := hc.2
        simpa [cstr_at] using this
      rw [List.take_succ, ih.1, hget]
      simp only [Option.toList, List.append_assoc]
      congr 1
      have : n + 1 - trim_slashes d n = (n - trim_slashes d n) + 1 := by omega
      rw [this, List.replicate_succ']
    · rename_i hc
      refine ⟨by simp, ?_⟩
      by_cases h1 : n + 1 ≤ 1
      · exact Or.inl h1
      · right
        intro h
        exact hc ⟨by omega, by simpa using h⟩

theorem add_exclude_absolute (a : Bool) (lst : List edir) (d : cstring) (w : Bool)
    (h : ∀ e ∈ lst, cstr_at e.directory 0 = some '/') :
    ∀ e ∈ (add_exclude a lst d w).exclude_lst, cstr_at e.directory 0 = some '/' := by
  unfold add_exclude
  split
  · exact h
  · split
    · exact h
    · rename_i habs
      split
      · exact h
      · intro e he
        simp only [List.mem_append, List.mem_singleton] at he
        rcases he with he | rfl
        · exact h e he
        · have habs : cstr_at d 0 = some '/' := by simpa using habs
          cases d with
          | nil => simp [cstr_at] at habs
          | cons c cs =>
            have hpos := trim_slashes_pos (c :: cs) (c :: cs).length (by simp)
            obtain ⟨k, hk⟩ : ∃ k, trim_slashes (c :: cs) (c :: cs).length = k + 1 :=
              ⟨_, (Nat.succ_pred_eq_of_pos hpos).symm⟩
            simp only [hk, List.take_succ_cons]
            simpa [cstr_at] using habs

theorem exclude_run_absolute (ops : List exclude_op) (lst : List edir)
    (h : ∀ e ∈ lst, cstr_at e.directory 0 = some '/') :
    ∀ e ∈ exclude_run ops lst, cstr_at e.directory 0 = some '/' := by
  induction ops generalizing lst with
  | nil => exact h
  | cons op ops ih =>
    cases op with
    | add a d w => exact ih _ (add_exclude_absolute a lst d w h)
    | remove d => exact ih _ (fun e he => h e (remove_exclude_subset lst d e he))

/-- C22. For every exclusion list reached from the empty list by add_exclude and
remove_exclude calls and every path that does not begin with '/', add_exclude returns -1,
sets the error code EINVAL and leaves the list, and so its count, as it was, whatever the
allocator would do. -/
theorem add_exclude_relative_rejected (ops : List exclude_op) (alloc_ok : Bool)
    (directory : cstring) (who : Bool) (h : cstr_at directory 0 ≠ some '/') :
    add_exclude alloc_ok (exclude_run ops []) directory who =
      ⟨-1, some Errno.EINVAL, exclude_run ops []⟩ := by
  have habs := exclude_run_absolute ops [] (by simp)
  have hnot : (exclude_run ops []).any (fun e => decide (strcmp directory e.directory = 0)) =
      false := by
    rw [List.any_eq_false]
    intro e he
    simp only [decide_eq_true_eq]
    intro hs
    rw [strcmp_eq_zero_iff] at hs
    rw [hs] at h
    exact h (habs e he)
  simp only [add_exclude, hnot, Bool.false_eq_true, if_false]
  rw [if_pos h]

/-- C22 instance. After /foo has been added, the relative path foo is rejected with EINVAL
and the list still holds /foo alone. -/
theorem add_exclude_relative_rejected_witness :
    cstr_at "foo".toList 0 ≠ some '/' ∧
    add_exclude true (exclude_run [exclude_op.add true "/foo".toList true] []) "foo".toList
        false =
      ⟨-1, some Errno.EINVAL, [⟨"/foo".toList, 4, true⟩]⟩ :=
  ⟨by decide,
   add_exclude_relative_rejected [exclude_op.add true "/foo".toList true] true "foo".toList
     false (by decide)⟩

/-- C23. Whenever add_exclude changes the list, the path p is absolute, the call returns 0
and the list is the old one followed by one new entry; the directory stored in it is p
without its trailing '/' characters (p is the stored directory followed by '/' characters
only, and the stored directory is / itself or does not end in '/'), it begins with '/', its
size is the length of the stored directory and its origin flag is the caller's argument. -/
theorem add_exclude_appends (alloc_ok : Bool) (lst : List edir) (p : cstring) (who : Bool)
    (hnew : (add_exclude alloc_ok lst p who).exclude_lst ≠ lst) :
    cstr_at p 0 = some '/' ∧
    ∃ (stored : cstring) (k : Nat),
      p = stored ++ List.replicate k '/' ∧
      (stored = ['/'] ∨ stored.getLast? ≠ some '/') ∧
      cstr_at stored 0 = some '/' ∧
      add_exclude alloc_ok lst p who = ⟨0, none, lst ++ [⟨stored, stored.length, who⟩]⟩ ∧
      (add_exclude alloc_ok lst p who).exclude_lst.length = lst.length + 1 := by
  revert hnew
  unfold add_exclude
  by_cases h1 : lst.any (fun e => decide (strcmp p e.directory = 0)) = true
  · rw [if_pos h1]
    intro h
    exact absurd rfl h
  · rw [if_neg h1]
    by_cases h2 : cstr_at p 0 ≠ some '/'
    · rw [if_pos h2]
      intro h
      exact absurd rfl h
    · rw [if_neg h2]
      by_cases h3 : (!alloc_ok) = true
      · rw [if_pos h3]
        intro h
        exact absurd rfl h
      · rw [if_neg h3]
        intro _
        have habs : cstr_at p 0 = some '/' := by simpa using h2
        refine ⟨habs, ?_⟩
        have hspec := trim_slashes_spec p p.length (le_refl _)
        have hle := trim_slashes_le p p.length
        have hplen : 0 < p.length := by
          cases p with
          | nil => simp [cstr_at] at habs
          | cons c cs => simp
        have hpos := trim_slashes_pos p p.length hplen
        have hlen : (p.take (trim_slashes p p.length)).length = trim_slashes p p.length := by
          rw [List.length_take]
          omega
        refine ⟨p.take (trim_slashes p p.length), p.length - trim_slashes p p.length, ?_, ?_,
          ?_, ?_, ?_⟩
        · have := hspec.1
          rw [List.take_length] at this
          exact this
        · rcases hspec.2 with hl | hl
          · left
            have h1 : trim_slashes p p.length = 1 := by omega
            rw [h1]
            cases p with
            | nil => simp at hplen
            | cons c cs =>
              simp only [cstr_at, List.get?_cons_zero, Option.some.injEq] at habs
              simp [habs]
          · right
            intro hg
            apply hl
            rw [List.getLast?_eq_getElem?, hlen, List.getElem?_take] at hg
            rw [if_pos (by omega)] at hg
            simpa [cstr_at] using hg
        · obtain ⟨k, hk⟩ : ∃ k, trim_slashes p p.length = k + 1 :=
            ⟨_, (Nat.succ_pred_eq_of_pos hpos).symm⟩
          rw [hk]
          cases p with
          | nil => simp at hplen
          | cons c cs => simpa [cstr_at] using habs
        · simp only []
          rw [hlen]
        · simp

/-- C23 instance. The paths /foo/// and /// are stored as /foo and /. -/
theorem add_exclude_appends_witness :
    add_exclude true [] "/foo///".toList true = ⟨0, none, [⟨"/foo".toList, 4, true⟩]⟩ ∧
    add_exclude true [⟨"/foo".toList, 4, true⟩] "///".toList false =
      ⟨0, none, [⟨"/foo".toList, 4, true⟩, ⟨"/".toList, 1, false⟩]⟩ ∧
    cstr_at "///".toList 0 = some '/' :=
  ⟨by decide, by decide,
   (add_exclude_appends true [⟨"/foo".toList, 4, true⟩] "///".toList false (by decide)).1⟩

theorem remove_exclude_perm (lst : List edir) (directory : cstring) :
    remove_exclude lst directory = lst ∨
      ∃ e ∈ lst, e.caller_excluded = false ∧ e.directory = directory ∧
        (e :: remove_exclude lst directory).Perm lst := by
  unfold remove_exclude
  cases hf : lst.findIdx?
      (fun e => decide (strcmp directory e.directory = 0) && !e.caller_excluded) with
  | none => exact Or.inl rfl
  | some i =>
    obtain ⟨hi, hp, -⟩ := List.findIdx?_eq_some_iff_getElem.mp hf
    simp only [Bool.and_eq_true, decide_eq_true_eq, Bool.not_eq_true'] at hp
    have hdir : lst[i].directory = directory := ((strcmp_eq_zero_iff _ _).mp hp.1).symm
    simp only []
    cases hl : lst.getLast? with
    | none => exact Or.inl rfl
    | some last =>
      right
      obtain ⟨init, hinit⟩ := List.getLast?_eq_some_iff.mp hl
      subst hinit
      simp only []
      refine ⟨(init ++ [last])[i], List.getElem_mem _, hp.2, hdir, ?_⟩
      simp only [List.length_append, List.length_singleton, Nat.add_sub_cancel] at hi ⊢
      by_cases hne : i ≠ init.length
      · rw [if_pos hne]
        have hlt : i < init.length := by omega
        rw [List.set_append_left i last hlt, List.dropLast_concat,
          List.getElem_append_left hlt]
        rw [List.set_eq_take_append_cons_drop, if_pos hlt]
        have hsplit : init = init.take i ++ init[i] :: init.drop (i + 1) := by
          rw [List.getElem_cons_drop, List.take_append_drop]
        conv_rhs => rw [hsplit]
        rw [List.append_assoc]
        refine List.Perm.trans (List.perm_middle.symm) ?_
        refine List.Perm.append_left _ ?_
        simp only [List.cons_append]
        refine List.Perm.cons _ ?_
        exact (List.perm_append_singleton _ _).symm
      · rw [if_neg hne]
        have heq : i = init.length := by
          by_contra h
          exact hne h
        subst heq
        rw [List.dropLast_concat]
        simp only [List.getElem_concat_length]
        exact (List.perm_append_singleton _ _).symm

/-- C24. For every exclusion list and every path, remove_exclude either leaves the list as
it is or takes out exactly one entry, which is not caller-originated and whose directory is
the path; the other entries are kept, possibly in another order. Every entry afterwards is
an entry from before, and every caller-originated entry is still present, as often as
before. -/
theorem remove_exclude_frame (lst : List edir) (directory : cstring) :
    (remove_exclude lst directory = lst ∨
      ∃ e ∈ lst, e.caller_excluded = false ∧ e.directory = directory ∧
        (e :: remove_exclude lst directory).Perm lst) ∧
    (∀ e ∈ remove_exclude lst directory, e ∈ lst) ∧
    (∀ e ∈ lst, e.caller_excluded = true →
      e ∈ remove_exclude lst directory ∧
      (remove_exclude lst directory).count e = lst.count e) := by
  refine ⟨remove_exclude_perm lst directory, remove_exclude_subset lst directory, ?_⟩
  intro e he hc
  rcases remove_exclude_perm lst directory with h | ⟨x, -, hx, -, hperm⟩
  · rw [h]
    exact ⟨he, rfl⟩
  · have hne : x ≠ e := by
      intro h
      rw [h, hc] at hx
      cases hx
    have hcount := hperm.count_eq e
    rw [List.count_cons_of_ne (Ne.symm hne)] at hcount
    refine ⟨?_, hcount⟩
    have := (hperm.mem_iff (a := e)).mpr he
    rcases List.mem_cons.mp this with h | h
    · exact absurd h.symm hne
    · exact h

/-- C28. The path /foo/ is added twice through add_exclude: the second call does not find
it among the stored directories, because /foo/ is compared with the stored /foo, and stores
/foo once more; after remove_exclude for /foo one of the two automatic entries is still
there. The same happens for the list /foo/, /foo/ given to
selinux_restorecon_set_exclude_list. -/
theorem add_exclude_duplicate_entry :
    exclude_run [exclude_op.add true "/foo/".toList false,
        exclude_op.add true "/foo/".toList false] [] =
      [⟨"/foo".toList, 4, false⟩, ⟨"/foo".toList, 4, false⟩] ∧
    (add_exclude true [⟨"/foo".toList, 4, false⟩] "/foo/".toList false).rc = 0 ∧
    exclude_run [exclude_op.add true "/foo/".toList false,
        exclude_op.add true "/foo/".toList false, exclude_op.remove "/foo".toList] [] =
      [⟨"/foo".toList, 4, false⟩] ∧
    selinux_restorecon_set_exclude_list (fun _ => Except.ok ⟨0o040755, 2, 1⟩) (fun _ => true) 0
        ["/foo/".toList, "/foo/".toList] [] =
      Except.ok [⟨"/foo".toList, 4, true⟩, ⟨"/foo".toList, 4, true⟩] := by
  refine ⟨by decide, by decide, by decide, rfl⟩

/-- C26. The inodes 1 and 65536 fall into bucket 1; added in this order or in the other,
the chain of bucket 1 holds 65536 before 1: the larger inode comes first. -/
theorem filespec_chain_larger_first :
    filespec_hash 1 = 1 ∧ filespec_hash 65536 = 1 ∧
    fl_chain (filespec_run [⟨fun _ => none, 1, "C1".toList, "/a".toList⟩,
        ⟨fun _ => none, 65536, "C2".toList, "/b".toList⟩] none) 1 =
      [⟨65536, "C2".toList, "/b".toList⟩, ⟨1, "C1".toList, "/a".toList⟩] ∧
    fl_chain (filespec_run [⟨fun _ => none, 65536, "C2".toList, "/b".toList⟩,
        ⟨fun _ => none, 1, "C1".toList, "/a".toList⟩] none) 1 =
      [⟨65536, "C2".toList, "/b".toList⟩, ⟨1, "C1".toList, "/a".toList⟩] := by
  refine ⟨by decide, by decide, by decide, by decide⟩

/-- C26, amended. After any sequence of filespec_add calls starting from the empty table,
the records of every bucket's chain, read from the header on, are in strictly descending
order of inode number. -/
theorem filespec_chain_descending (calls : List filespec_call) (h : Nat) :
    (fl_chain (filespec_run calls none) h).Pairwise (fun a b => b.ino < a.ino) :=
  (filespec_run_wf calls none fl_wf_none h).1

theorem filespec_hash_eq (ino : Nat) :
    filespec_hash ino = (ino + (ino >>> 16)) &&& 0xFFFF ∧ filespec_hash ino < 65536 := by
  have hm : HASH_MASK = 2 ^ 16 - 1 := by decide
  have h1 : filespec_hash ino = ((ino + (ino >>> 16)) % 2 ^ 64) % 2 ^ 16 := by
    unfold filespec_hash
    rw [hm, Nat.and_pow_two_sub_one_eq_mod]
    rfl
  have h2 : (ino + (ino >>> 16)) &&& 0xFFFF = (ino + (ino >>> 16)) % 2 ^ 16 := by
    have : (0xFFFF : Nat) = 2 ^ 16 - 1 := by decide
    rw [this, Nat.and_pow_two_sub_one_eq_mod]
  constructor
  · rw [h1, h2]
    exact Nat.mod_mod_of_dvd _ (by decide)
  · rw [h1]
    exact Nat.mod_lt _ (by decide)

/-- C30. After any sequence of filespec_add calls starting from the empty table, a record
found in bucket h has h = (ino + (ino >> 16)) & 0xFFFF for its own inode, h is below 65536,
the inode numbers within a chain are all different, and records with the same inode number
found anywhere in the table are in the same bucket and are the same record. -/
theorem filespec_bucket_of_inode (calls : List filespec_call) (h : Nat) (r : file_spec_t)
    (hr : r ∈ fl_chain (filespec_run calls none) h) :
    h = (r.ino + (r.ino >>> 16)) &&& 0xFFFF ∧ h ≤ 65535 ∧
    ((fl_chain (filespec_run calls none) h).map (fun x => x.ino)).Nodup ∧
    ∀ (h2 : Nat) (r2 : file_spec_t), r2 ∈ fl_chain (filespec_run calls none) h2 →
      r2.ino = r.ino → h2 = h ∧ r2 = r := by
  have hwf := filespec_run_wf calls none fl_wf_none
  have hb := (hwf h).2 r hr
  have hh := filespec_hash_eq r.ino
  refine ⟨by rw [← hb]; exact hh.1, by rw [← hb]; have := hh.2; omega, ?_, ?_⟩
  · have hd := (hwf h).1
    unfold chain_desc at hd
    rw [List.Nodup, List.pairwise_map]
    exact hd.imp (fun hab => by omega)
  · intro h2 r2 hr2 hino
    have hb2 := (hwf h2).2 r2 hr2
    have : h2 = h := by rw [← hb2, ← hb, hino]
    subst this
    exact ⟨rfl, chain_desc_unique _ (hwf h2).1 r2 r hr2 hr hino⟩

/-- C30 instance. After the inodes 1 and 65536 have been added, the record of inode 65536
sits in bucket 1, which is its bucket index. -/
theorem filespec_bucket_of_inode_witness :
    (⟨65536, "C2".toList, "/b".toList⟩ : file_spec_t) ∈
      fl_chain (filespec_run [⟨fun _ => none, 1, "C1".toList, "/a".toList⟩,
        ⟨fun _ => none, 65536, "C2".toList, "/b".toList⟩] none) 1 ∧
    1 = (65536 + (65536 >>> 16)) &&& 0xFFFF :=
  ⟨by decide,
   (filespec_bucket_of_inode [⟨fun _ => none, 1, "C1".toList, "/a".toList⟩,
      ⟨fun _ => none, 65536, "C2".toList, "/b".toList⟩] 1
      ⟨65536, "C2".toList, "/b".toList⟩ (by decide)).1⟩

/-- C29. The alternate root is set to /alt and restorecon_sb is called for
/alternative/x, which is not located under /alt: the pathname is accepted, and the key
passed to the lookup is ernative/x, which does not begin with '/'; the same lookup is made
by a non-recursive selinux_restorecon call for that pathname. -/
theorem restorecon_sb_alt_root_sibling :
    (selinux_restorecon_set_alt_rootpath ⟨none, none, 0, none, 0, []⟩ "/alt".toList).2.rootpath =
      some "/alt".toList ∧
    (selinux_restorecon_set_alt_rootpath ⟨none, none, 0, none, 0, []⟩
      "/alt".toList).2.rootpathlen = 4 ∧
    sb_lookup_key
      (selinux_restorecon_set_alt_rootpath ⟨none, none, 0, none, 0, []⟩ "/alt".toList).2.rootpath
      (selinux_restorecon_set_alt_rootpath ⟨none, none, 0, none, 0, []⟩
        "/alt".toList).2.rootpathlen
      "/alternative/x".toList = some "ernative/x".toList ∧
    (restorecon_sb
      (selinux_restorecon_set_alt_rootpath ⟨none, none, 0, none, 0, []⟩ "/alt".toList).2.rootpath
      (selinux_restorecon_set_alt_rootpath ⟨none, none, 0, none, 0, []⟩
        "/alt".toList).2.rootpathlen
      (sample_handle "u:r:b_t:s0".toList none)
      (sample_env (Except.ok "u:r:b_t:s0".toList) none 0) "/alternative/x".toList
      ⟨0o100644, 7, 1⟩ no_flags ⟨none, 0⟩).rc = some 0 ∧
    (restorecon_sb
      (selinux_restorecon_set_alt_rootpath ⟨none, none, 0, none, 0, []⟩ "/alt".toList).2.rootpath
      (selinux_restorecon_set_alt_rootpath ⟨none, none, 0, none, 0, []⟩
        "/alt".toList).2.rootpathlen
      (sample_handle "u:r:b_t:s0".toList none)
      (sample_env (Except.ok "u:r:b_t:s0".toList) none 0) "/alternative/x".toList
      ⟨0o100644, 7, 1⟩ no_flags ⟨none, 0⟩).events =
      [event.lookup "/alternative/x".toList "ernative/x".toList 0o100644,
        event.getfilecon "/alternative/x".toList] ∧
    cstr_at "ernative/x".toList 0 ≠ some '/' ∧
    (selinux_restorecon
      (selinux_restorecon_set_alt_rootpath
        (sample_globals (sample_handle "u:r:a_t:s0".toList none) []) "/alt".toList).2
      (sample_top []) "/alternative/x".toList no_flags ⟨fun _ => none, none, 0⟩).events =
      [event.lookup "/alternative/x".toList "ernative/x".toList 0o040755,
        event.getfilecon "/alternative/x".toList] := by
  refine ⟨by decide, by decide, by decide, by decide, by decide, by decide, by decide⟩

/-- C27. The rule file holds the line /aaaa /bbbb and then the line /c without a newline.
The second line has no second token, yet selabel_subs_init adds the rule /c to aa for it:
after the first token the scan steps over the terminator of the line and takes what the
first line left in the buffer, whatever the buffer held before the first line. With a
newline after /c the line adds no rule. -/
theorem selabel_subs_init_stale_token (buf0 : line_buf) :
    fgets_lines (BUF_SIZE - 1) sample_subs_short_line [] =
      ["/aaaa /bbbb\n".toList, "/c".toList] ∧
    selabel_subs_init buf0 (some sample_subs_short_line) true 0 [] =
      some ⟨[⟨"/c".toList, 2, "aa".toList⟩, ⟨"/aaaa".toList, 5, "/bbbb".toList⟩], false⟩ ∧
    selabel_subs_init buf0 (some "/aaaa /bbbb\n/c\n".toList) true 0 [] =
      some ⟨[⟨"/aaaa".toList, 5, "/bbbb".toList⟩], false⟩ := by
  refine ⟨by decide, rfl, rfl⟩

theorem add_exclude_checked_alloc (lst : List edir) (d : cstring) (w : Bool) :
    add_exclude_checked true lst d w = Except.ok (add_exclude true lst d w).exclude_lst := by
  unfold add_exclude_checked
  simp only []
  rw [if_neg]
  rintro ⟨-, h⟩
  revert h
  unfold add_exclude
  split
  · intro h; cases h
  · split
    · intro h; cases h
    · split
      · rename_i h3
        simp at h3
      · intro h; cases h

theorem mounts_record_alloc (statvfs : cstring → Option (Nat × Nat)) (st : mounts_state)
    (line : List Char) :
    mounts_record statvfs true st line ≠ Except.error exclude_stop.assert_failed := by
  unfold mounts_record
  simp only [add_exclude_checked_alloc]
  repeat' split
  all_goals (intro h; cases h)

theorem mounts_loop_alloc (statvfs : cstring → Option (Nat × Nat)) (alloc_ok : Nat → Bool)
    (hall : ∀ i, alloc_ok i = true) (i : Nat) (lines : List (List Char)) (st : mounts_state) :
    mounts_loop statvfs alloc_ok i lines st ≠ Except.error exclude_stop.assert_failed := by
  induction lines generalizing i st with
  | nil =>
    intro h
    simp only [mounts_loop] at h
    cases h
  | cons line rest ih =>
    simp only [mounts_loop, hall]
    cases hr : mounts_record statvfs true st line with
    | error s =>
      simp only []
      intro h
      exact mounts_record_alloc statvfs st line (hr.trans h)
    | ok st1 => exact ih (i + 1) st1

theorem set_exclude_list_alloc (lstat : cstring → Except Errno struct_stat)
    (alloc_ok : Nat → Bool) (hall : ∀ i, alloc_ok i = true) (i : Nat) (paths : List cstring)
    (lst : List edir) :
    selinux_restorecon_set_exclude_list lstat alloc_ok i paths lst ≠
      Except.error exclude_stop.assert_failed := by
  induction paths generalizing i lst with
  | nil =>
    intro h
    simp only [selinux_restorecon_set_exclude_list] at h
    cases h
  | cons p rest ih =>
    simp only [selinux_restorecon_set_exclude_list, hall, add_exclude_checked_alloc]
    cases lstat p with
    | error e =>
      simp only []
      split
      · intro h; cases h
      · exact ih _ _
    | ok sb => exact ih _ _

/-- C21. The mount table holds a tmpfs on /mnt, an ext4 with seclabel on /a and then the
record x /mnt y of three fields. After the first two records the list excludes /mnt and
the count is 60. The third record is not skipped: remove_exclude takes the entry for /mnt
out, and the options pointer left from the second record reads seclabel, so that the files
of /mnt are added to the count and /mnt stays out of the list. As the first record of a
table, a record of three fields makes the code read an options pointer that was never set,
and the records after it are not processed. None of this depends on what the fresh line
buffer holds. -/
theorem exclude_non_seclabel_mounts_three_fields (heap : List Char) :
    getline_lines sample_mounts [] =
      ["none /mnt tmpfs rw 0 0\n".toList, "dev /a ext4 seclabel,rw 0 0\n".toList,
        "x /mnt y\n".toList] ∧
    exclude_non_seclabel_mounts false
        (some "none /mnt tmpfs rw 0 0\ndev /a ext4 seclabel,rw 0 0\n".toList)
        sample_statvfs (fun _ => true) heap [] =
      Except.ok (60, [⟨"/mnt".toList, 4, false⟩]) ∧
    exclude_non_seclabel_mounts false (some sample_mounts) sample_statvfs (fun _ => true)
        heap [] = Except.ok (67, []) ∧
    exclude_non_seclabel_mounts false (some "x /mnt y\nnone /mnt tmpfs rw 0 0\n".toList)
        sample_statvfs (fun _ => true) heap [] = Except.error exclude_stop.fault ∧
    exclude_non_seclabel_mounts false (some "x /mnt\nnone /mnt tmpfs rw 0 0\n".toList)
        sample_statvfs (fun _ => true) heap [] =
      Except.ok (0, [⟨"/mnt".toList, 4, false⟩]) := by
  refine ⟨by decide, rfl, rfl, rfl, rfl⟩

/-- C25. The allocation in add_exclude fails. For the list /foo given to
selinux_restorecon_set_exclude_list, and for a mount table with a tmpfs on /mnt read by
exclude_non_seclabel_mounts, add_exclude returns -1 with ENOMEM and the caller reaches
assert(0); with the allocation succeeding both return. -/
theorem add_exclude_oom_reaches_assert :
    add_exclude false [] "/foo".toList true = ⟨-1, some Errno.ENOMEM, []⟩ ∧
    selinux_restorecon_set_exclude_list (fun _ => Except.ok ⟨0o040755, 2, 1⟩)
        (fun _ => false) 0 ["/foo".toList] [] = Except.error exclude_stop.assert_failed ∧
    exclude_non_seclabel_mounts false (some "none /mnt tmpfs rw 0 0\n".toList)
        sample_statvfs (fun _ => false) [] [] = Except.error exclude_stop.assert_failed ∧
    selinux_restorecon_set_exclude_list (fun _ => Except.ok ⟨0o040755, 2, 1⟩)
        (fun _ => true) 0 ["/foo".toList] [] = Except.ok [⟨"/foo".toList, 4, true⟩] ∧
    exclude_non_seclabel_mounts false (some "none /mnt tmpfs rw 0 0\n".toList)
        sample_statvfs (fun _ => true) [] [] = Except.ok (0, [⟨"/mnt".toList, 4, false⟩]) := by
  refine ⟨by decide, rfl, rfl, rfl, rfl⟩

/-- C25, amended. When the allocation fails for an absolute path that is not yet in the
exclusion list, add_exclude returns -1 with ENOMEM and leaves the list as it was, and the
statement that calls it reaches assert(0), so that selinux_restorecon_set_exclude_list stops
there for an entry that passes its lstat test. When no allocation fails, neither
selinux_restorecon_set_exclude_list nor the loop of exclude_non_seclabel_mounts reaches
assert(0). -/
theorem add_exclude_oom_policy (lst : List edir) (directory : cstring) (who : Bool)
    (habs : cstr_at directory 0 = some '/')
    (hnew : ∀ e ∈ lst, e.directory ≠ directory) :
    add_exclude false lst directory who = ⟨-1, some Errno.ENOMEM, lst⟩ ∧
    add_exclude_checked false lst directory who = Except.error exclude_stop.assert_failed ∧
    (∀ (lstat : cstring → Except Errno struct_stat) (alloc_ok : Nat → Bool) (i : Nat)
        (rest : List cstring),
      (∀ e, lstat directory = Except.error e → e = Errno.EACCES) → alloc_ok i = false →
      selinux_restorecon_set_exclude_list lstat alloc_ok i (directory :: rest) lst =
        Except.error exclude_stop.assert_failed) ∧
    (∀ (lstat : cstring → Except Errno struct_stat) (alloc_ok : Nat → Bool) (i : Nat)
        (paths : List cstring) (l : List edir),
      (∀ j, alloc_ok j = true) →
      selinux_restorecon_set_exclude_list lstat alloc_ok i paths l ≠
        Except.error exclude_stop.assert_failed) ∧
    (∀ (statvfs : cstring → Option (Nat × Nat)) (alloc_ok : Nat → Bool) (i : Nat)
        (lines : List (List Char)) (st : mounts_state),
      (∀ j, alloc_ok j = true) →
      mounts_loop statvfs alloc_ok i lines st ≠ Except.error exclude_stop.assert_failed) := by
  have hnot : lst.any (fun e => decide (strcmp directory e.directory = 0)) = false := by
    rw [List.any_eq_false]
    intro e he
    simp only [decide_eq_true_eq]
    intro hs
    rw [strcmp_eq_zero_iff] at hs
    exact hnew e he hs.symm
  have hadd : ∀ w, add_exclude false lst directory w = ⟨-1, some Errno.ENOMEM, lst⟩ := by
    intro w
    simp [add_exclude, hnot, habs]
  have hchk : ∀ w, add_exclude_checked false lst directory w =
      Except.error exclude_stop.assert_failed := by
    intro w
    simp [add_exclude_checked, hadd]
  refine ⟨hadd who, hchk who, ?_, ?_, ?_⟩
  · intro lstat alloc_ok i rest hstat halloc
    simp only [selinux_restorecon_set_exclude_list, halloc, hchk]
    cases hl : lstat directory with
    | error e =>
      simp only []
      rw [if_neg (by simpa using hstat e hl)]
    | ok sb => rfl
  · intro lstat alloc_ok i paths l hall
    exact set_exclude_list_alloc lstat alloc_ok hall i paths l
  · intro statvfs alloc_ok i lines st hall
    exact mounts_loop_alloc statvfs alloc_ok hall i lines st

/-- C25 instance. With /bar already excluded, the allocation for /foo fails and
selinux_restorecon_set_exclude_list reaches assert(0). -/
theorem add_exclude_oom_policy_witness :
    selinux_restorecon_set_exclude_list (fun _ => Except.ok ⟨0o040755, 2, 1⟩)
        (fun _ => false) 0 ["/foo".toList, "/baz".toList] [⟨"/bar".toList, 4, true⟩] =
      Except.error exclude_stop.assert_failed :=
  (add_exclude_oom_policy [⟨"/bar".toList, 4, true⟩] "/foo".toList true (by decide)
      (by decide)).2.2.1 (fun _ => Except.ok ⟨0o040755, 2, 1⟩) (fun _ => false) 0
    ["/baz".toList] (fun e h => by cases h) rfl

/-- C10. A recursive run on /a with a digest-carrying handle returns 0 and stores the
digest. The call that follows on the same path, with the same handle and the
ignore-stored-digest flag clear, is not recursive: it does not consult the stored digest
and performs a label lookup and a context read for /a. -/
theorem restorecon_second_run_nonrecursive_looks_up :
    (selinux_restorecon
        (sample_globals (sample_handle "u:r:b_t:s0".toList (some (List.replicate 20 7))) [])
        (sample_top sample_items) "/a".toList { no_flags with recurse := true }
        ⟨fun _ => none, none, 0⟩).rc = some 0 ∧
    (selinux_restorecon
        (sample_globals (sample_handle "u:r:b_t:s0".toList (some (List.replicate 20 7))) [])
        (sample_top sample_items) "/a".toList { no_flags with recurse := true }
        ⟨fun _ => none, none, 0⟩).st.xattrs "/a".toList = some (List.replicate 20 7) ∧
    (no_flags.ignore_digest = false ∧ no_flags.nochange = false) ∧
    (selinux_restorecon
        (sample_globals (sample_handle "u:r:b_t:s0".toList (some (List.replicate 20 7))) [])
        { sample_top sample_items with obj := sample_env (Except.ok "u:r:b_t:s0".toList) none 0 }
        "/a".toList no_flags
        (selinux_restorecon
          (sample_globals (sample_handle "u:r:b_t:s0".toList (some (List.replicate 20 7))) [])
          (sample_top sample_items) "/a".toList { no_flags with recurse := true }
          ⟨fun _ => none, none, 0⟩).st).events =
      [event.lookup "/a".toList "/a".toList 0o040755, event.getfilecon "/a".toList] := by
  refine ⟨by decide, by decide, ⟨rfl, rfl⟩, by decide⟩

/-- C11. The walk of /a reads the root, an entry /a/g whose stat failed and the file /a/f.
The failed entry is logged and skipped without a lookup and leaves the error value at 0, so
the call returns 0 and writes the digest on /a although the walk did not process every
entry. -/
theorem digest_written_after_skipped_entries :
    (selinux_restorecon
        (sample_globals (sample_handle "u:r:b_t:s0".toList (some (List.replicate 20 7))) [])
        (sample_top [sample_dir, sample_nostat, sample_file])
        "/a".toList { no_flags with recurse := true } ⟨fun _ => none, none, 0⟩).rc = some 0 ∧
    (selinux_restorecon
        (sample_globals (sample_handle "u:r:b_t:s0".toList (some (List.replicate 20 7))) [])
        (sample_top [sample_dir, sample_nostat, sample_file])
        "/a".toList { no_flags with recurse := true } ⟨fun _ => none, none, 0⟩).events =
      [event.fts_open "/a".toList,
       event.lookup "/a".toList "/a".toList 0o040755, event.getfilecon "/a".toList,
       event.lookup "/a/f".toList "/a/f".toList 0o100644, event.getfilecon "/a/f".toList,
       event.setfilecon "/a/f".toList "u:r:b_t:s0".toList,
       event.setxattr "/a".toList (List.replicate 20 7)] := by
  refine ⟨by decide, by decide⟩

end SELinux
